import Mathlib

/-!
# Verification of the GridTool grid-mesh engine

Shallow embedding of `src/src/tools/annotation/GridTool.js` (and the point
model of `src/src/util/freehand/FreehandHandleData.js`).

Coordinates are modelled over an arbitrary linearly ordered field `K`
(instantiated at `ℚ` for executable witnesses and at `ℝ` for the rotation
claim).  JavaScript numbers are IEEE doubles; the claims under study are about
structure and exact arithmetic, so `K` replaces `number` and `NaN` is not
representable (the `isNaN` guards of the source collapse to their numeric
range checks).

Rendering-only fields (`lines` adjacency of `FreehandHandleData`, `visible`,
`color`, highlighting configuration) are omitted: no claim and no control flow
of the embedded operations depends on them.
-/

set_option linter.unusedSectionVars false

/- Batteries marks the `Rat` arithmetic irreducible, which only blocks
elaboration-time evaluation; making it semireducible again lets `decide`
settle the concrete `ℚ` scenarios by kernel computation. -/
set_option allowUnsafeReducibility true
attribute [local semireducible] Rat.add Rat.mul Rat.sub Rat.div Rat.inv Rat.neg

namespace GridTool

/-- One handle, from `FreehandHandleData`: position, common-point marker and
the render flags set by its constructor. -/
structure GridPoint (K : Type) where
  x : K
  y : K
  isCommonPoint : Bool
  highlight : Bool := true
  active : Bool := true
deriving DecidableEq, Repr

/-- One primary line, i.e. one entry of `toolState.data`
(`createNewMeasurement` makes `{active: false, handles: {points: []}}`;
a `uuid` is present only on lines restored by `setStateForImageIds`). -/
structure PrimaryLine (K : Type) where
  uuid : Option Nat := none
  active : Bool := false
  points : List (GridPoint K) := []
deriving DecidableEq, Repr

variable {K : Type} [LinearOrderedField K]

instance : Inhabited (GridPoint K) := ⟨⟨0, 0, false, true, true⟩⟩

instance : Inhabited (PrimaryLine K) := ⟨{}⟩

/-- `primaryLine.handles.points[0].isCommonPoint` (JS: `undefined` is falsy
when the line is empty). -/
def isCommonHead (l : PrimaryLine K) : Bool :=
  (l.points.head?.map (·.isCommonPoint)).getD false

/-- `get noOfPrimaryLines`: number of lines whose first point is common. -/
def noOfPrimaryLines (ls : List (PrimaryLine K)) : Option Nat :=
  if ls.isEmpty then none
  else some (ls.filter isCommonHead).length

/-- `get totalNoOfPrimaryLines`: `toolState.data.length`. -/
def totalNoOfPrimaryLines (ls : List (PrimaryLine K)) : Option Nat :=
  if ls.isEmpty then none else some ls.length

/-- `get noOfSecondaryLines`: number of common points on line 0. -/
def noOfSecondaryLines (ls : List (PrimaryLine K)) : Option Nat :=
  match ls with
  | [] => none
  | l :: _ => some (l.points.filter (·.isCommonPoint)).length

/-- `get totalNoOfSecondaryLines`: `toolState.data[0].handles.points.length`. -/
def totalNoOfSecondaryLines (ls : List (PrimaryLine K)) : Option Nat :=
  match ls with
  | [] => none
  | l :: _ => some l.points.length

/-- `getPreviousMainPrimaryLine(i)`: scan indices `i-1, i-2, …, 0` for the
first line whose first point is common; `none` when the scan runs off the
front of the array (or, as in JS, when the state is empty). -/
def getPreviousMainPrimaryLine (ls : List (PrimaryLine K)) : Nat → Option Nat
  | 0 => none
  | j + 1 =>
    if isCommonHead (ls.getD j default) then some j
    else getPreviousMainPrimaryLine ls j

/-- `getNextMainPrimaryLine(i)`: scan indices `i+1, i+2, …` for the first line
whose first point is common; `none` once the scan runs off the end. -/
def getNextMainPrimaryLine (ls : List (PrimaryLine K)) (i : Nat) : Option Nat :=
  ((ls.drop (i + 1)).findIdx? isCommonHead).map (· + (i + 1))

/-- The scan of `getIthCommonPointOnPrimaryLine`: walk the points of one line
counting common points, return the `n`-th common one. -/
def nthCommonPoint : List (GridPoint K) → Nat → Option (GridPoint K)
  | [], _ => none
  | p :: rest, n =>
    if p.isCommonPoint then
      match n with
      | 0 => some p
      | n + 1 => nthCommonPoint rest n
    else nthCommonPoint rest n

/-- `getIthCommonPointOnPrimaryLine(ithCommonPoint, primaryLineIdx)`. -/
def getIthCommonPointOnPrimaryLine (ls : List (PrimaryLine K)) (ith lineIdx : Nat) :
    Option (GridPoint K) :=
  match ls[lineIdx]? with
  | none => none
  | some l => nthCommonPoint l.points ith

/-- The chain of `getNextMainPrimaryLine` steps performed by
`getAllMainPrimaryLines` after its optional seed; `fuel` bounds the walk
(each step strictly increases the index, so `ls.length` steps suffice). -/
def mainChainFrom (ls : List (PrimaryLine K)) : Nat → Nat → List Nat
  | 0, _ => []
  | fuel + 1, j =>
    match getNextMainPrimaryLine ls j with
    | none => []
    | some k => k :: mainChainFrom ls fuel k

/-- `getAllMainPrimaryLines(fromPrimaryLineIdx)`: the key set of the returned
map, in insertion order.  With a seed index the seed itself is included; the
walk then starts from `fromPrimaryLineIdx || 0`. -/
def getAllMainPrimaryLines (ls : List (PrimaryLine K)) (fromIdx : Option Nat) : List Nat :=
  match fromIdx with
  | some i => i :: mainChainFrom ls ls.length i
  | none => mainChainFrom ls ls.length 0

/-- A point computed by a builder before being stored: target line index plus
the data handed to `addPoint`. -/
structure PendingPoint (K : Type) where
  x : K
  y : K
  lineIdx : Nat
  isCommonPoint : Bool

/-- `addPoint`: wrap the data in a `FreehandHandleData` and push it onto the
target line (out-of-range target would throw in JS; here it is a no-op). -/
def addPoint (ls : List (PrimaryLine K)) (lineIdx : Nat) (x y : K) (isCommon : Bool) :
    List (PrimaryLine K) :=
  ls.modify (fun l => { l with points := l.points ++ [⟨x, y, isCommon, true, true⟩] }) lineIdx

/-- `points.forEach(point => this.addPoint(point))`. -/
def addPoints (ls : List (PrimaryLine K)) (pts : List (PendingPoint K)) :
    List (PrimaryLine K) :=
  pts.foldl (fun acc p => addPoint acc p.lineIdx p.x p.y p.isCommonPoint) ls

/-- `addNewMeasurementToState(idx)`.  Modelled from the spec: the state
manager (`addToolState`, outside `src/`) keeps one ordered list of primary
lines per image and, per §4.2, "inserts an empty line at `atIndex`"; a splice
index past the end appends, and a `null` index appends. -/
def addNewMeasurementToState (ls : List (PrimaryLine K)) (idx : Option Nat) :
    List (PrimaryLine K) :=
  match idx with
  | none => ls ++ [{}]
  | some i => ls.insertIdx (min i ls.length) {}

/-- `generateMainPrimaryLine(primaryLineIndex, position)`.
`sp` is the `this.spacing` value, `currentTool`/`sDefault` the configuration
values read by the body.  When fewer than two lines exist, a straight column
is produced from `position`; a `null` position there makes the source read
`position.x` and throw a `TypeError` *after* `addNewMeasurementToState` has
already appended the empty line — the `.error` value carries that
partially-mutated state.  Otherwise each point extrapolates the two
preceding main lines, falling back to the step `(spacing, 0)` when no second
preceding main line exists. -/
def generateMainPrimaryLine (sp : K) (currentTool : Int) (sDefault : Nat)
    (primaryLineIndex : Nat) (position : Option (K × K)) (ls : List (PrimaryLine K)) :
    Except (List (PrimaryLine K)) (List (PrimaryLine K)) :=
  let ls1 := addNewMeasurementToState ls (some primaryLineIndex)
  if ls1.length < 2 then
    match position with
    | none => .error ls1
    | some pos =>
      .ok (addPoints ls1 ((List.range sDefault).map (fun (idx : Nat) =>
        ⟨pos.1 + (currentTool : K) * sp, pos.2 + sp * (idx : K), 0, true⟩)))
  else
    let prevIdx? := getPreviousMainPrimaryLine ls1 primaryLineIndex
    let prevPrevIdx? := prevIdx?.bind (getPreviousMainPrimaryLine ls1)
    let noOfPoints := if position.isNone then (noOfSecondaryLines ls1).getD 0 else sDefault
    .ok (addPoints ls1 ((List.range noOfPoints).map (fun idx =>
      let prevPt := ((prevIdx?.bind fun i => getIthCommonPointOnPrimaryLine ls1 idx i).getD default)
      match prevPrevIdx?.bind fun i => getIthCommonPointOnPrimaryLine ls1 idx i with
      | some prevPrevPt =>
          ⟨prevPt.x + (prevPt.x - prevPrevPt.x), prevPt.y + (prevPt.y - prevPrevPt.y),
            ls1.length - 1, true⟩
      | none => ⟨prevPt.x + sp, prevPt.y + 0, ls1.length - 1, true⟩)))

/-- `generateSecondaryLine`: append one point to every line (with refinement
shown, only to every 4th line), repeating the step between the line's last
and `(last-1)`-th (or, refined, `(last-4)`-th) point, with fallback step
`(0, spacing)`. -/
def generateSecondaryLine (ref : Bool) (sp : K) (ls : List (PrimaryLine K)) :
    List (PrimaryLine K) :=
  (List.range ls.length).foldl (fun acc primaryLineIdx =>
    if ref && primaryLineIdx % 4 != 0 then acc
    else
      let pts := (acc.getD primaryLineIdx default).points
      let n := pts.length
      let prevPt := pts.getD (n - 1) default
      let prevPrevIdx : Int := (n : Int) - (if ref then 5 else 2)
      match if prevPrevIdx < 0 then none else pts[prevPrevIdx.toNat]? with
      | some prevPrevPt =>
          addPoint acc primaryLineIdx (prevPt.x + (prevPt.x - prevPrevPt.x))
            (prevPt.y + (prevPt.y - prevPrevPt.y)) true
      | none => addPoint acc primaryLineIdx (prevPt.x + 0) (prevPt.y + sp) true) ls

/-- `_generateSubsidiaryPrimaryLine(fromMainPrimaryLineIdx, fromSecondaryLineIdx,
createNewSubsidiaryLines)`: collect the interpolated points (3 passes, one per
subsidiary line, over the common-point slots of the bounding main line pair),
then create the three empty lines at `from+1 … from+3`, then store the
points. -/
def generateSubsidiaryPrimaryLine (fromMainIdx : Nat) (fromSecondaryLineIdx : Option Nat)
    (createNewSubsidiaryLines : Bool) (ls : List (PrimaryLine K)) : List (PrimaryLine K) :=
  if ls.isEmpty then ls
  else
    let sTotal := (totalNoOfSecondaryLines ls).getD 0
    let startIdx := fromSecondaryLineIdx.getD 0
    let pts : List (PendingPoint K) :=
      (List.range 3).flatMap (fun subIdx =>
        (List.range' startIdx (sTotal - startIdx)).filterMap (fun pointIdx =>
          let fromPt := (ls.getD fromMainIdx default).points.getD pointIdx default
          if !fromPt.isCommonPoint then none
          else
            match getNextMainPrimaryLine ls fromMainIdx with
            | none => none
            | some nextIdx =>
                let toPt := (ls.getD nextIdx default).points.getD pointIdx default
                some ⟨fromPt.x + (toPt.x - fromPt.x) / 4 * ((subIdx : K) + 1),
                      fromPt.y + (toPt.y - fromPt.y) / 4 * ((subIdx : K) + 1),
                      fromMainIdx + subIdx + 1, false⟩))
    let ls1 :=
      if createNewSubsidiaryLines then
        addNewMeasurementToState (addNewMeasurementToState
          (addNewMeasurementToState ls (some (fromMainIdx + 1))) (some (fromMainIdx + 2)))
          (some (fromMainIdx + 3))
      else ls
    addPoints ls1 pts

/-- `generateSubsidiaryPrimaryLines(from, to, createNew, fromSecondaryLineIdx)`:
`to - from` calls, with the starting index advancing by 4 each call (a
negative difference, as arises for an empty grid where
`totalNoOfPrimaryLines` is `null`, makes no calls). -/
def generateSubsidiaryPrimaryLines (fromIdx : Nat) (toIdx : Int)
    (createNewSubsidiaryLines : Bool) (fromSecondaryLineIdx : Option Nat)
    (ls : List (PrimaryLine K)) : List (PrimaryLine K) :=
  let noOfCalls := (toIdx - fromIdx).toNat
  (List.range noOfCalls).foldl (fun acc call =>
    generateSubsidiaryPrimaryLine (fromIdx + 4 * call) fromSecondaryLineIdx
      createNewSubsidiaryLines acc) ls

/-- The `pointsToAdd` table built for one primary line by
`generateRefinementPointsOnCurrentPrimaryLines`, flattened to `(key, point)`
pairs in ascending key order (JS `Object.entries` enumerates integer-like
keys ascending; every key holds exactly one point here).  The walk starts at
`secondaryLineIdx = sLI` and takes at most `fuel` steps (the loop bound
`noOfSecondaryLines - sLI`), breaking at the first missing `nextPoint`. -/
def refineKeyedPoints (pts : List (GridPoint K)) : Nat → Nat → List (Nat × GridPoint K)
  | _, 0 => []
  | sLI, fuel + 1 =>
    match nthCommonPoint pts sLI, nthCommonPoint pts (sLI + 1) with
    | some point, some nextPoint =>
      let xDiff := (nextPoint.x - point.x) / 4
      let yDiff := (nextPoint.y - point.y) / 4
      (4 * sLI + 1, ⟨point.x + xDiff, point.y + yDiff, false, true, true⟩) ::
      (4 * sLI + 2, ⟨point.x + xDiff * 2, point.y + yDiff * 2, false, true, true⟩) ::
      (4 * sLI + 3, ⟨point.x + xDiff * 3, point.y + yDiff * 3, false, true, true⟩) ::
      refineKeyedPoints pts (sLI + 1) fuel
    | _, _ => []

/-- The `splice(key, 0, point)` loop over `Object.entries(pointsToAdd)`
(a splice index past the end appends, like JS). -/
def spliceKeyed (pts : List (GridPoint K)) (keyed : List (Nat × GridPoint K)) :
    List (GridPoint K) :=
  keyed.foldl (fun acc kp => acc.insertIdx (min kp.1 acc.length) kp.2) pts

/-- `generateRefinementPointsOnCurrentPrimaryLines(options)`.  With
`fromSecondaryLineIdx` supplied the targets are `4·i` for
`i < noOfPrimaryLines`; otherwise they are the keys of
`getAllMainPrimaryLines(fromPrimaryLineIdx || null)`.  Each target line then
has `subdivision - 1 = 3` interpolated points spliced between each pair of
consecutive common points from `fromSecondaryLineIdx || 0` on.  (The loop
bound `this.noOfSecondaryLines` is re-read per iteration in JS but only
non-common points are inserted, so it is constant; it is computed once
here.) -/
def generateRefinementPointsOnCurrentPrimaryLines (fromPrimaryLineIdx
    fromSecondaryLineIdx : Option Nat) (ls : List (PrimaryLine K)) :
    List (PrimaryLine K) :=
  if ls.isEmpty then ls
  else
    let targets : List Nat :=
      if fromSecondaryLineIdx.isSome then
        (List.range ((noOfPrimaryLines ls).getD 0)).map (· * 4)
      else
        getAllMainPrimaryLines ls (match fromPrimaryLineIdx with | some 0 => none | x => x)
    let lo := fromSecondaryLineIdx.getD 0
    let s := (noOfSecondaryLines ls).getD 0
    targets.foldl (fun acc primaryLineIdx =>
      acc.modify (fun l =>
        { l with points := spliceKeyed l.points (refineKeyedPoints l.points lo (s - lo)) })
        primaryLineIdx) ls

/-- The `while (--totalNoOfPrimaryLines)` cleanup of
`removeAllRefinementPoints`: visit indices `i, i-1, …, 1` (never index 0) of
the current array, splicing out each line left with no points. -/
def removeEmptyLinesDown (ls : List (PrimaryLine K)) : Nat → List (PrimaryLine K)
  | 0 => ls
  | i + 1 =>
    let ls1 := if (ls.getD (i + 1) default).points.isEmpty then ls.eraseIdx (i + 1) else ls
    removeEmptyLinesDown ls1 i

/-- `removeAllRefinementPoints`: filter every line down to its common points,
then drop lines left empty (scanning downwards from the end, skipping
index 0). -/
def removeAllRefinementPoints (ls : List (PrimaryLine K)) : List (PrimaryLine K) :=
  if ls.isEmpty then ls
  else
    let ls1 := ls.map (fun l => { l with points := l.points.filter (·.isCommonPoint) })
    removeEmptyLinesDown ls1 (ls1.length - 1)

/-- `removeLastPrimaryLine`: pop four lines when refinement points are shown,
otherwise one. -/
def removeLastPrimaryLine (ref : Bool) (ls : List (PrimaryLine K)) : List (PrimaryLine K) :=
  if ref then ls.dropLast.dropLast.dropLast.dropLast else ls.dropLast

/-- `handles.points.pop()` on line `i`. -/
def popPointAt (ls : List (PrimaryLine K)) (i : Nat) : List (PrimaryLine K) :=
  ls.modify (fun l => { l with points := l.points.dropLast }) i

/-- `removeLastSecondaryLine`: one pass popping a point from every line; with
refinement shown, three further passes popping from lines `0, 4, 8, …` (the
`idx += 3` stride of the source). -/
def removeLastSecondaryLine (ref : Bool) (ls : List (PrimaryLine K)) : List (PrimaryLine K) :=
  if ls.isEmpty then ls
  else
    let total := ls.length
    let ls1 := (List.range total).foldl popPointAt ls
    if ref then
      let stepIdxs := List.range' 0 ((total + 3) / 4) 4
      let ls2 := stepIdxs.foldl popPointAt ls1
      let ls3 := stepIdxs.foldl popPointAt ls2
      stepIdxs.foldl popPointAt ls3
    else ls1

/-- `getGridMiddlePointCoords`: midpoint of the first point of the first line
and the last point of the last line; `null` when there is no grid. -/
def getGridMiddlePointCoords (ls : List (PrimaryLine K)) : Option (K × K) :=
  if ls.isEmpty then none
  else
    let upperLeft := (ls.getD 0 default).points.getD 0 default
    let lastLine := ls.getD (ls.length - 1) default
    let bottomRight := lastLine.points.getD (lastLine.points.length - 1) default
    some ((upperLeft.x + bottomRight.x) / 2, (upperLeft.y + bottomRight.y) / 2)

/-- The per-point body of `rotateGrid`: rotate about `(mx, my)` where `c`/`s`
are the host `Math.cos((angle·π)/180)` / `Math.sin((angle·π)/180)` values. -/
def rotatePoint (c s mx my : K) (p : GridPoint K) : GridPoint K :=
  let x := p.x - mx
  let y := p.y - my
  { p with x := x * c - y * s + mx, y := x * s + y * c + my }

/-- `rotateGrid(angle)` on the line list (the `activateDraw`/`completeDrawing`
bookkeeping lives in the state-level wrapper). -/
def rotateGrid (c s : K) (ls : List (PrimaryLine K)) : List (PrimaryLine K) :=
  match getGridMiddlePointCoords ls with
  | none => ls
  | some m =>
    ls.map (fun l => { l with points := l.points.map (rotatePoint c s m.1 m.2) })

/-- `setOffset(newLocation, usingMouseInput)`: reject negative coordinates,
otherwise translate every point by the delta between `newLocation` and the
reference handle (`currentTool`/`currentHandle` are `0`/`0` unless the call
comes from the drag loop). -/
def setOffset (newX newY : K) (currentTool currentHandle : Nat)
    (ls : List (PrimaryLine K)) : List (PrimaryLine K) :=
  if newX < 0 ∨ newY < 0 then ls
  else
    let points := (ls.getD currentTool default).points
    let xChange := newX - (points.getD currentHandle default).x
    let yChange := newY - (points.getD currentHandle default).y
    ls.map (fun l =>
      { l with points := l.points.map (fun p => { p with x := p.x + xChange, y := p.y + yChange }) })

/-- `coordDiffBetweenFirstAndSecondPointOnPrimaryLine(primaryLineIdx, ·)` for
both components at once.  The source guard reads
`primaryLinePoints % 4 !== 0` where `primaryLinePoints` is the points
*array*, so with refinement shown the guard is always taken
(`NaN !== 0`) and the raw second point is used. -/
def coordDiffFirstSecondPointOnLine (ref : Bool) (ls : List (PrimaryLine K)) (idx : Nat) :
    K × K :=
  if ls.isEmpty then (0, 0)
  else
    let pts := (ls.getD idx default).points
    let second :=
      if ref then pts.getD 1 default
      else (getIthCommonPointOnPrimaryLine ls 1 idx).getD default
    (second.x - (pts.getD 0 default).x, second.y - (pts.getD 0 default).y)

/-- `coordDiffBetweenFirstAndSecondMainPrimaryLine(·)` for both components
(the source would throw when no second main line exists; that case is
unreachable from `onSpacingChange` on a well-formed grid). -/
def coordDiffFirstSecondMainLine (ls : List (PrimaryLine K)) : K × K :=
  if ls.isEmpty then (0, 0)
  else
    let first := (ls.getD 0 default).points.getD 0 default
    match getNextMainPrimaryLine ls 0 with
    | some i =>
      let second := (ls.getD i default).points.getD 0 default
      (second.x - first.x, second.y - first.y)
    | none => (0, 0)

/-- `getAllPointsOnIthSecondaryLine`, as the `(lineIdx, pointIdx)` positions
visited (the JS function returns the aliased point objects which
`onSpacingChange` then mutates in place). -/
def getAllPointsOnIthSecondaryLine (ref : Bool) (total ith : Nat) : List (Nat × Nat) :=
  let offset := if ref && ith % 4 != 0 then 4 else 1
  (List.range' 0 ((total + offset - 1) / offset) offset).map (fun i =>
    (i, if ref && i % 4 != 0 then ith / 4 else ith))

/-- `point.x = …; point.y = …` on the point at `(lineIdx, ptIdx)`. -/
def writePointAt (ls : List (PrimaryLine K)) (lineIdx ptIdx : Nat) (x y : K) :
    List (PrimaryLine K) :=
  ls.modify (fun l =>
    { l with points := l.points.modify (fun p => { p with x := x, y := y }) ptIdx }) lineIdx

/-- The body of `onSpacingChange(newSpacing, imageId)` on the line list:
rescale across primary lines (per secondary line, stepping the written index
by 4 on refined non-common columns), then rescale along each primary line.
`existingSpacing` is the `this.spacing` value. -/
def onSpacingChangeLines (ref : Bool) (existingSpacing newSpacing : K)
    (ls : List (PrimaryLine K)) : List (PrimaryLine K) :=
  if ls.isEmpty then ls
  else
    let es := if ref then existingSpacing * 4 else existingSpacing
    let dd := coordDiffFirstSecondMainLine ls
    let ddx := dd.1 / es * newSpacing
    let ddy := dd.2 / es * newSpacing
    let total := ls.length
    let totalSec := (totalNoOfSecondaryLines ls).getD 0
    -- adjust spacing between primary lines
    let ls1 := (List.range totalSec).foldl (fun acc sLI =>
      let cols := getAllPointsOnIthSecondaryLine ref total sLI
      let fp := (acc.getD 0 default).points.getD sLI default
      let step := if ref && sLI % 4 != 0 then 4 else 1
      (cols.zip (List.range' 0 cols.length step)).foldl (fun acc2 c =>
        writePointAt acc2 c.1.1 c.1.2 (fp.x + ddx * (c.2 : K)) (fp.y + ddy * (c.2 : K))) acc) ls
    -- adjust spacing between secondary lines (`existingSpacing /= 4` undoes
    -- the earlier `*= 4`)
    (List.range total).foldl (fun acc lineIdx =>
      let d := coordDiffFirstSecondPointOnLine ref acc lineIdx
      let dx := d.1 / existingSpacing * newSpacing
      let dy := d.2 / existingSpacing * newSpacing
      acc.modify (fun l =>
        let p0 := l.points.getD 0 default
        { l with points := l.points.mapIdx (fun i p =>
            { p with x := p0.x + dx * (i : K), y := p0.y + dy * (i : K) }) }) lineIdx) ls1

/-! ## State-level model

The tool state couples the per-image stored line lists (the `oldStateManager`
of the external state-management collaborator, modelled from the spec:
one ordered list of primary lines per image) with the configuration object of
`defaultToolConfiguration()`.  `uuidCounter` models `uuidv4()` as a source of
values never used before. -/

/-- A point of the compact export shape `{x, y, isCommonPoint}`. -/
structure CompactPoint (K : Type) where
  x : K
  y : K
  isCommonPoint : Bool
deriving DecidableEq, Repr

/-- A line of the compact export shape `{points, uuid}`. -/
structure CompactLine (K : Type) where
  points : List (CompactPoint K)
  uuid : Option Nat
deriving DecidableEq, Repr

/-- What the per-image store can hold for one image: the line list written by
grid editing, or the compact-shaped objects written by
`setStateForImageIds`. -/
inductive GridData (K : Type) where
  | full (lines : List (PrimaryLine K))
  | compact (lines : List (CompactLine K))
deriving DecidableEq, Repr

/-- Pointwise update of a per-image map at one image id. -/
def updAt {α : Type} (f : Nat → α) (i : Nat) (v : α) : Nat → α :=
  fun j => if j = i then v else f j

/-- The fields of `defaultToolConfiguration()` that the embedded operations
read or write (rendering-only fields are omitted).  `spacingPerImage` /
`showRefinementPerImage` are the dynamic per-image-id keys of the `spacing` /
`showRefinementPoints` configuration objects; the `default` / `global` keys
are separate fields. -/
structure GridConfig (K : Type) where
  currentHandle : Nat := 0
  currentTool : Int := -1
  moveOneHandleOnly : Bool := false
  noOfPrimaryLinesDefault : Nat := 10
  noOfSecondaryLinesDefault : Nat := 10
  spacingDefault : K
  spacingPerImage : Nat → Option K := fun _ => none
  showRefinementGlobal : Bool := false
  showRefinementPerImage : Nat → Option Bool := fun _ => none

/-- `defaultToolConfiguration()` (with the default line counts kept as
parameters so the concrete scenarios of the spec can be instantiated). -/
def defaultToolConfiguration (pDefault sDefault : Nat) : GridConfig K :=
  { spacingDefault := 5
    noOfPrimaryLinesDefault := pDefault
    noOfSecondaryLinesDefault := sDefault }

/-- The full tool state: per-image store (image ids as `Nat`), the current
image of the enabled element, the configuration, and the drawing flags. -/
structure ToolState (K : Type) where
  store : Nat → Option (GridData K) := fun _ => none
  currentImage : Nat := 0
  config : GridConfig K
  drawing : Bool := false
  modifying : Bool := false
  uuidCounter : Nat := 0

/-- The state of a freshly constructed tool: empty store, default
configuration. -/
def initialToolState (pDefault sDefault : Nat) (currentImage : Nat) : ToolState K :=
  { config := defaultToolConfiguration pDefault sDefault, currentImage := currentImage }

/-- `getToolState(this.element, this.name)` for the current image, as a line
list (`[]` both for a missing entry and a cleared one). -/
def curLines (st : ToolState K) : List (PrimaryLine K) :=
  match st.store st.currentImage with
  | some (.full ls) => ls
  | _ => []

/-- Store `ls` as the current image's tool state. -/
def setCurLines (st : ToolState K) (ls : List (PrimaryLine K)) : ToolState K :=
  { st with store := updAt st.store st.currentImage (some (.full ls)) }

/-- The value `get spacing` returns when the current image has a grid. -/
def spacingValue (st : ToolState K) : K :=
  (st.config.spacingPerImage st.currentImage).getD st.config.spacingDefault

/-- `get spacing`. -/
def get_spacing (st : ToolState K) : Option K :=
  if (curLines st).isEmpty then none else some (spacingValue st)

/-- `get showRefinementPoints`. -/
def get_showRefinementPoints (st : ToolState K) : Option Bool :=
  if (curLines st).isEmpty then none else some st.config.showRefinementGlobal

/-- `get noOfPrimaryLines` on the current image. -/
def get_noOfPrimaryLines (st : ToolState K) : Option Nat :=
  noOfPrimaryLines (curLines st)

/-- `get noOfSecondaryLines` on the current image. -/
def get_noOfSecondaryLines (st : ToolState K) : Option Nat :=
  noOfSecondaryLines (curLines st)

/-- `get moveOneHandleOnly`. -/
def get_moveOneHandleOnly (st : ToolState K) : Bool :=
  st.config.moveOneHandleOnly

/-- `activateDraw` (written so that only the fields it touches change:
`_drawing`, and `currentTool` when the current image has tool data). -/
def activateDraw (st : ToolState K) : ToolState K :=
  { st with
    drawing := true
    config :=
      if (curLines st).isEmpty then st.config
      else { st.config with currentTool := (curLines st).length - 1 } }

/-- `_endDrawing`: deactivate the current tool data, reset the drag pointers,
clear the drawing/modifying flags. -/
def endDrawing (st : ToolState K) : ToolState K :=
  let ls := curLines st
  let st1 :=
    if st.config.currentTool ≠ -1 then
      setCurLines st (ls.modify (fun l => { l with active := false }) st.config.currentTool.toNat)
    else st
  { st1 with
    modifying := false
    drawing := false
    config := { st1.config with currentHandle := 0, currentTool := 0 } }

/-- `completeDrawing`. -/
def completeDrawing (st : ToolState K) : ToolState K :=
  if !st.drawing then st else endDrawing st

/-- `rotateGrid(angle)` at state level, with `c`/`s` the host cosine/sine of
`(angle·π)/180`. -/
def rotateGridOp (c s : K) (st : ToolState K) : ToolState K :=
  if (curLines st).isEmpty then st
  else
    let st1 := activateDraw st
    completeDrawing (setCurLines st1 (rotateGrid c s (curLines st1)))

/-- `setOffset` at state level. -/
def setOffsetOp (newX newY : K) (usingMouseInput : Bool) (st : ToolState K) : ToolState K :=
  let ct := if usingMouseInput then st.config.currentTool.toNat else 0
  let ch := if usingMouseInput then st.config.currentHandle else 0
  setCurLines st (setOffset newX newY ct ch (curLines st))

/-- `onSpacingChange(newSpacing, imageId)` at state level. -/
def onSpacingChange (newSpacing : K) (st : ToolState K) : ToolState K :=
  if (curLines st).isEmpty then st
  else
    let st1 := activateDraw st
    let ref := (get_showRefinementPoints st1).getD false
    let st2 := setCurLines st1 (onSpacingChangeLines ref (spacingValue st1) newSpacing (curLines st1))
    let st3 := { st2 with config := { st2.config with
      spacingPerImage := updAt st2.config.spacingPerImage st2.currentImage (some newSpacing) } }
    completeDrawing st3

/-- A JavaScript value handed to a setter: a number, a boolean, or anything
else (string, object, `undefined`, …).  `NaN` has no counterpart in `K`; the
`isNaN` guards of the source collapse to their range checks. -/
inductive JSVal (K : Type) where
  | num (q : K)
  | bool (b : Bool)
  | other
deriving DecidableEq

/-- The observable outcome of a JS setter call: a normal return, or a thrown
exception together with the state left behind (a JS exception does not roll
the tool state back). -/
inductive JSOutcome (K : Type) where
  | ok (st : ToolState K)
  | thrown (msg : String) (st : ToolState K)

/-- `set spacing`. -/
def set_spacing (v : JSVal K) (st : ToolState K) : JSOutcome K :=
  match v with
  | .num value => if value < 1 then .ok st else .ok (onSpacingChange value st)
  | _ => .thrown "Attempting to set spacing to a value other than a number." st

/-- `set moveOneHandleOnly`. -/
def set_moveOneHandleOnly (v : JSVal K) (st : ToolState K) : JSOutcome K :=
  match v with
  | .bool value => .ok { st with config := { st.config with moveOneHandleOnly := value } }
  | _ => .thrown "Attempting to set moveOneHandleOnly to a value other than a boolean." st

/-- The accepting path of `set showRefinementPoints`. -/
def applyShowRefinementPoints (value : Bool) (st : ToolState K) : ToolState K :=
  if st.config.showRefinementPerImage st.currentImage = some value then st
  else
    let ls := curLines st
    let ls1 :=
      if value then
        generateRefinementPointsOnCurrentPrimaryLines (some 0) (some 0)
          (generateSubsidiaryPrimaryLines 0 (((totalNoOfPrimaryLines ls).getD 0 : Int) - 1)
            true none ls)
      else removeAllRefinementPoints ls
    let st1 := setCurLines st ls1
    { st1 with config := { st1.config with
        showRefinementGlobal := value
        showRefinementPerImage :=
          updAt st1.config.showRefinementPerImage st1.currentImage (some value) } }

/-- `set showRefinementPoints`. -/
def set_showRefinementPoints (v : JSVal K) (st : ToolState K) : JSOutcome K :=
  match v with
  | .bool value => .ok (applyShowRefinementPoints value st)
  | _ => .thrown "Attempting to set showRefinementPoints to a value other than a boolean." st

/-- One pass of the growing loop of `set noOfPrimaryLines`: generate the new
main line at the end and, with refinement shown, refine it and insert the
three subsidiary lines before it. -/
def growPrimaryOnce (ref : Bool) (sp : K) (currentTool : Int) (sDefault : Nat)
    (ls : List (PrimaryLine K)) : Except (List (PrimaryLine K)) (List (PrimaryLine K)) :=
  match generateMainPrimaryLine sp currentTool sDefault ls.length none ls with
  | .error ls1 => .error ls1
  | .ok ls1 =>
    if ref then
      let fromP? := getPreviousMainPrimaryLine ls1 ls1.length
      let ls2 := generateRefinementPointsOnCurrentPrimaryLines fromP? none ls1
      .ok (generateSubsidiaryPrimaryLines (ls2.length - 2) ((ls2.length : Int) - 1) true none ls2)
    else .ok ls1

/-- The `while (existing < new)` loop of `set noOfPrimaryLines`.  The fuel is
always chosen large enough that the guard, evaluated each round exactly as in
the source, is what stops the loop.  A `TypeError` thrown inside
`generateMainPrimaryLine` aborts the loop and propagates. -/
def growPrimaryLoop (ref : Bool) (sp : K) (currentTool : Int) (sDefault : Nat) (n : K) :
    Nat → Nat → List (PrimaryLine K) → Except (List (PrimaryLine K)) (List (PrimaryLine K))
  | 0, _, ls => .ok ls
  | fuel + 1, existing, ls =>
    if (existing : K) < n then
      match growPrimaryOnce ref sp currentTool sDefault ls with
      | .error ls1 => .error ls1
      | .ok ls1 => growPrimaryLoop ref sp currentTool sDefault n fuel (existing + 1) ls1
    else .ok ls

/-- The `while (existing > new)` loop of `set noOfPrimaryLines`. -/
def shrinkPrimaryLoop (ref : Bool) (n : K) :
    Nat → Nat → List (PrimaryLine K) → List (PrimaryLine K)
  | 0, _, ls => ls
  | fuel + 1, existing, ls =>
    if n < (existing : K) then
      shrinkPrimaryLoop ref n fuel (existing - 1) (removeLastPrimaryLine ref ls)
    else ls

/-- `set noOfPrimaryLines` (the fuel of the growing loop needs a computable
integer bound on `n`, hence the `FloorRing`).  The growing loop on an image
with no grid throws a `TypeError` (see `generateMainPrimaryLine`) which
propagates out of the setter, skipping `completeDrawing`; the partially
mutated line list is left in the store. -/
def set_noOfPrimaryLines [FloorRing K] (v : JSVal K) (st : ToolState K) : JSOutcome K :=
  match v with
  | .num n =>
    if n < 2 then .ok st
    else
      let existing? := get_noOfPrimaryLines st
      if existing?.any (fun e => (e : K) = n) then .ok st
      else
        let e0 := existing?.getD 0   -- `null` coerces to 0 in the comparison
        let st1 := activateDraw st
        let ref := (get_showRefinementPoints st1).getD false
        if (e0 : K) < n then
          match growPrimaryLoop ref (spacingValue st1) st1.config.currentTool
              st1.config.noOfSecondaryLinesDefault n (⌈n⌉ - e0).toNat e0 (curLines st1) with
          | .ok ls1 => .ok (completeDrawing (setCurLines st1 ls1))
          | .error ls1 =>
            .thrown "TypeError: Cannot read properties of null (reading x)"
              (setCurLines st1 ls1)
        else .ok (completeDrawing (setCurLines st1 (shrinkPrimaryLoop ref n e0 e0 (curLines st1))))
  | _ => .thrown "Attempting to set noOfPrimaryLines to a value other than a number." st

/-- One pass of the growing loop of `set noOfSecondaryLines`; `existing` is
the loop counter after its increment. -/
def growSecondaryOnce (ref : Bool) (sp : K) (existing : Nat)
    (ls : List (PrimaryLine K)) : List (PrimaryLine K) :=
  let ls1 := generateSecondaryLine ref sp ls
  if ref then
    let ls2 := generateRefinementPointsOnCurrentPrimaryLines none (some (existing - 2)) ls1
    generateSubsidiaryPrimaryLines 0 ((noOfPrimaryLines ls2).getD 0 : Int) false
      (some ((totalNoOfSecondaryLines ls2).getD 0 - 3)) ls2
  else ls1

/-- The `while (existing < new)` loop of `set noOfSecondaryLines`. -/
def growSecondaryLoop (ref : Bool) (sp : K) (n : K) :
    Nat → Nat → List (PrimaryLine K) → List (PrimaryLine K)
  | 0, _, ls => ls
  | fuel + 1, existing, ls =>
    if (existing : K) < n then
      growSecondaryLoop ref sp n fuel (existing + 1)
        (growSecondaryOnce ref sp (existing + 1) ls)
    else ls

/-- The `while (existing > new)` loop of `set noOfSecondaryLines`. -/
def shrinkSecondaryLoop (ref : Bool) (n : K) :
    Nat → Nat → List (PrimaryLine K) → List (PrimaryLine K)
  | 0, _, ls => ls
  | fuel + 1, existing, ls =>
    if n < (existing : K) then
      shrinkSecondaryLoop ref n fuel (existing - 1) (removeLastSecondaryLine ref ls)
    else ls

/-- `set noOfSecondaryLines`. -/
def set_noOfSecondaryLines [FloorRing K] (v : JSVal K) (st : ToolState K) : JSOutcome K :=
  match v with
  | .num n =>
    if n < 2 then .ok st
    else
      let existing? := get_noOfSecondaryLines st
      if existing?.any (fun e => (e : K) = n) then .ok st
      else
        let e0 := existing?.getD 0
        let st1 := activateDraw st
        let ref := (get_showRefinementPoints st1).getD false
        let ls1 :=
          if (e0 : K) < n then
            growSecondaryLoop ref (spacingValue st1) n (⌈n⌉ - e0).toNat e0 (curLines st1)
          else shrinkSecondaryLoop ref n e0 e0 (curLines st1)
        .ok (completeDrawing (setCurLines st1 ls1))
  | _ => .thrown "Attempting to set noOfSecondaryLines to a value other than a number." st

/-- The host `Math` functions consumed by the angle getter/setter and by
`rotateGrid` (external collaborators of the engine). -/
structure JSMath (K : Type) where
  cos : K → K
  sin : K → K
  atan : K → K
  round : K → K
  pi : K

/-- `get angle`: recover the orientation from the first line's vertical
midpoint against the grid centroid. -/
def get_angle (M : JSMath K) (st : ToolState K) : Option K :=
  let ls := curLines st
  if ls.isEmpty then none
  else
    let firstLine := ls.getD 0 default
    let topLeft := firstLine.points.getD 0 default
    let bottomLeft := firstLine.points.getD ((totalNoOfSecondaryLines ls).getD 0 - 1) default
    let centerLeftX := (topLeft.x + bottomLeft.x) / 2
    let centerLeftY := (topLeft.y + bottomLeft.y) / 2
    let center := (getGridMiddlePointCoords ls).getD (0, 0)
    let adjacentY := center.2
    let centerToAdjacentLength := center.1 - centerLeftX
    let adjacentToCenterLeftLength := adjacentY - centerLeftY
    some (M.round (M.atan (adjacentToCenterLeftLength / centerToAdjacentLength) * 180 / M.pi))

/-- `set angle`: validate `0–90`, rotate by the difference to the current
angle (`null` coerces to `0` in the subtraction when there is no grid). -/
def set_angle (M : JSMath K) (v : JSVal K) (st : ToolState K) : JSOutcome K :=
  match v with
  | .num newAngle =>
    if newAngle < 0 ∨ 90 < newAngle then .ok st
    else
      let diff := newAngle - (get_angle M st).getD 0
      .ok (rotateGridOp (M.cos (diff * M.pi / 180)) (M.sin (diff * M.pi / 180)) st)
  | _ => .thrown "Attempting to set angle to a value other than a number." st

/-- `addNewMeasurement(evt)`: initial placement of a grid at the clicked
image position.  No-op when the current image already has one.  Ends by
assigning `showRefinementPoints.global` through the `showRefinementPoints`
setter. -/
def addNewMeasurement (pos : K × K) (st : ToolState K) : ToolState K :=
  if !(curLines st).isEmpty then st
  else
    let st1 := activateDraw st
    -- A supplied position never throws inside `generateMainPrimaryLine`,
    -- so the two match arms coincide here.
    let st2 := (List.range st1.config.noOfPrimaryLinesDefault).foldl (fun acc lineIdx =>
      match generateMainPrimaryLine (spacingValue acc) acc.config.currentTool
          acc.config.noOfSecondaryLinesDefault lineIdx (some pos) (curLines acc) with
      | .ok ls' => setCurLines acc ls'
      | .error ls' => setCurLines acc ls') st1
    let st3 := completeDrawing st2
    applyShowRefinementPoints st3.config.showRefinementGlobal st3

/-- `removeGrid`: clear the current image's state, delete its
`showRefinementPoints` entry, reset the whole `spacing` configuration object
to `{default: 5}`. -/
def removeGrid (st : ToolState K) : ToolState K :=
  let st1 := setCurLines st []
  { st1 with config := { st1.config with
      showRefinementPerImage := updAt st1.config.showRefinementPerImage st1.currentImage none
      spacingDefault := 5
      spacingPerImage := fun _ => none } }

/-- Projection of one line to the compact export shape. -/
def toCompact (l : PrimaryLine K) : CompactLine K :=
  { points := l.points.map (fun p => ⟨p.x, p.y, p.isCommonPoint⟩), uuid := l.uuid }

/-- `getStateForImageId(imageId, compact)`.  A missing per-image entry gives
`[]`.  Asking for the compact projection of a state that was itself stored in
compact shape would throw in JS (`primaryLine.handles` is `undefined`);
that case is `none`. -/
def getStateForImageId (st : ToolState K) (imageId : Nat) (compact : Bool) :
    Option (GridData K) :=
  match st.store imageId with
  | none => some (.full [])
  | some d =>
    if !compact then some d
    else
      match d with
      | .full ls => some (.compact (ls.map toCompact))
      | .compact _ => none

/-- `data.length` of a stored state. -/
def gridDataLength : GridData K → Nat
  | .full ls => ls.length
  | .compact cls => cls.length

/-- `hasGridForImageIds(imageIds)`: count the ids whose stored state is
non-empty and compare with the number of ids supplied. -/
def hasGridForImageIds (st : ToolState K) (imageIds : List Nat) : Bool :=
  let noOfGrids := (imageIds.filter (fun id =>
    match getStateForImageId st id false with
    | some d => gridDataLength d != 0
    | none => false)).length
  noOfGrids == imageIds.length

/-- `_setShowRefinementPointsForImageId(imageId, value)`: a no-op unless the
*current* image has a grid; otherwise set both the global flag and the entry
for `imageId`. -/
def setShowRefinementPointsForImageId (imageId : Nat) (value : Bool) (st : ToolState K) :
    ToolState K :=
  if (curLines st).isEmpty then st
  else
    { st with config := { st.config with
        showRefinementGlobal := value
        showRefinementPerImage := updAt st.config.showRefinementPerImage imageId (some value) } }

/-- `structuredClone` + per-line `uuidv4()` regeneration: a deep copy whose
lines get consecutive never-before-used uuids from the counter. -/
def regenUuids (counter : Nat) (cls : List (CompactLine K)) : List (CompactLine K) × Nat :=
  cls.foldl (fun acc l => (acc.1 ++ [{ l with uuid := some acc.2 }], acc.2 + 1)) ([], counter)

/-- `setStateForImageIds(primaryLines, imageIds, hasRefinementPoints)`: for
each target image store a fresh deep copy with regenerated uuids, then record
the refinement flag for that image. -/
def setStateForImageIds (primaryLines : List (CompactLine K)) (imageIds : List Nat)
    (hasRefinementPoints : Bool) (st : ToolState K) : ToolState K :=
  imageIds.foldl (fun acc imageId =>
    let rc := regenUuids acc.uuidCounter primaryLines
    let acc1 := { acc with
      uuidCounter := rc.2
      store := updAt acc.store imageId (some (.compact rc.1)) }
    setShowRefinementPointsForImageId imageId hasRefinementPoints acc1) st

/-! ## Derived definitions used by the verification

`coordsOf`/`pointsOf` project away render-only data; the shape predicates
state the structural invariants I1–I6 of the spec on the points matrix; and
`refineBlocks`/`subsidiaryLinesBlock`/`blockify` are the closed forms the
builder operations are proved equal to. -/

/-- The coordinate projection of a line list (what "every point's original
coordinates" refers to; the `active` render flag is toggled by the drawing
bookkeeping and is not a coordinate). -/
def coordsOf (ls : List (PrimaryLine K)) : List (List (K × K)) :=
  ls.map (fun l => l.points.map fun p => (p.x, p.y))

/-- The points matrix of a line list. -/
def pointsOf (ls : List (PrimaryLine K)) : List (List (GridPoint K)) :=
  ls.map (·.points)

/-- All points of a row are common points. -/
def AllCommon (r : List (GridPoint K)) : Prop :=
  ∀ p ∈ r, p.isCommonPoint = true

/-- All points of a row are refinement points. -/
def AllRef (r : List (GridPoint K)) : Prop :=
  ∀ p ∈ r, p.isCommonPoint = false

instance (r : List (GridPoint K)) : Decidable (AllCommon r) :=
  inferInstanceAs (Decidable (∀ p ∈ r, p.isCommonPoint = true))

instance (r : List (GridPoint K)) : Decidable (AllRef r) :=
  inferInstanceAs (Decidable (∀ p ∈ r, p.isCommonPoint = false))

/-- A refined main line's points: `s` common points with three refinement
points between consecutive ones (I3). -/
inductive MainPts : Nat → List (GridPoint K) → Prop
  | single (c : GridPoint K) (hc : c.isCommonPoint = true) : MainPts 1 [c]
  | block (c r1 r2 r3 : GridPoint K) (rest : List (GridPoint K)) (s : Nat)
      (hc : c.isCommonPoint = true) (h1 : r1.isCommonPoint = false)
      (h2 : r2.isCommonPoint = false) (h3 : r3.isCommonPoint = false)
      (hrest : MainPts s rest) : MainPts (s + 1) (c :: r1 :: r2 :: r3 :: rest)

/-- A main line's shape in a plain (unrefined) grid: `s` points, all of
them common. -/
def PlainLine (s : Nat) (l : PrimaryLine K) : Prop :=
  l.points.length = s ∧ AllCommon l.points

/-- An unrefined grid's line list: `p` lines of `s` common points each
(I2 with refinement off; I4/I5 as the uniform counts). -/
def PlainLines (s : Nat) (ls : List (PrimaryLine K)) (p : Nat) : Prop :=
  ls.length = p ∧ ∀ l ∈ ls, PlainLine s l

/-- A subsidiary line's shape: `s` points, none of them common. -/
def SubLine (s : Nat) (l : PrimaryLine K) : Prop :=
  l.points.length = s ∧ AllRef l.points

/-- A refined grid's line list: blocks of one refined main line
(`MainPts s`) and three subsidiary lines of `s` refinement points, ending
in a final main line (I2/I3 with refinement on; I4/I5 as the uniform
counts). -/
inductive RefLines (s : Nat) : List (PrimaryLine K) → Nat → Prop
  | single (m : PrimaryLine K) (hm : MainPts s m.points) : RefLines s [m] 1
  | block (m a b c : PrimaryLine K) (rest : List (PrimaryLine K)) (p : Nat)
      (hm : MainPts s m.points) (ha : SubLine s a) (hb : SubLine s b)
      (hc : SubLine s c) (hrest : RefLines s rest p) :
      RefLines s (m :: a :: b :: c :: rest) (p + 1)

/-- The intermediate block structure midway through growing the secondary
axis of a refined grid: every main line has already been extended and
re-refined to `s + 1` common points, the subsidiary lines still hold `s`
refinement points each. -/
inductive MidLines (s : Nat) : List (PrimaryLine K) → Nat → Prop
  | single (m : PrimaryLine K) (hm : MainPts (s + 1) m.points) : MidLines s [m] 1
  | block (m a b c : PrimaryLine K) (rest : List (PrimaryLine K)) (p : Nat)
      (hm : MainPts (s + 1) m.points) (ha : SubLine s a) (hb : SubLine s b)
      (hc : SubLine s c) (hrest : MidLines s rest p) :
      MidLines s (m :: a :: b :: c :: rest) (p + 1)

/-- The closed form of the refinement-point splice on one line: between each
pair of consecutive points insert the three quarter-interpolants. -/
def refineBlocks : List (GridPoint K) → List (GridPoint K)
  | [] => []
  | [c] => [c]
  | c :: next :: rest =>
    let xDiff := (next.x - c.x) / 4
    let yDiff := (next.y - c.y) / 4
    c :: ⟨c.x + xDiff, c.y + yDiff, false, true, true⟩ ::
      ⟨c.x + xDiff * 2, c.y + yDiff * 2, false, true, true⟩ ::
      ⟨c.x + xDiff * 3, c.y + yDiff * 3, false, true, true⟩ ::
      refineBlocks (next :: rest)

/-- One interpolated subsidiary point at parameter `t` (the `subIdx + 1` of
the source). -/
def subPoint (t : K) (p q : GridPoint K) : GridPoint K :=
  ⟨p.x + (q.x - p.x) / 4 * t, p.y + (q.y - p.y) / 4 * t, false, true, true⟩

/-- The `t`-th subsidiary line generated between two main lines. -/
def subsidiaryLineBetween (t : K) (mp mq : PrimaryLine K) : PrimaryLine K :=
  { uuid := none, active := false, points := List.zipWith (subPoint t) mp.points mq.points }

/-- The closed form of enabling refinement on an unrefined grid: refine each
main line in place and insert the three interpolated subsidiary lines
between consecutive main lines. -/
def blockify : List (PrimaryLine K) → List (PrimaryLine K)
  | [] => []
  | [m] => [{ m with points := refineBlocks m.points }]
  | m :: m2 :: rest =>
    { m with points := refineBlocks m.points } ::
      subsidiaryLineBetween 1 m m2 :: subsidiaryLineBetween 2 m m2 ::
      subsidiaryLineBetween 3 m m2 :: blockify (m2 :: rest)

/-- The intermediate state after the subsidiary-line pass of enabling
refinement, before the refinement points are spliced into the main lines. -/
def interleaveSubs : List (PrimaryLine K) → List (PrimaryLine K)
  | [] => []
  | [m] => [m]
  | m :: m2 :: rest =>
    m :: subsidiaryLineBetween 1 m m2 :: subsidiaryLineBetween 2 m m2 ::
      subsidiaryLineBetween 3 m m2 :: interleaveSubs (m2 :: rest)

/-- The in-place refinement of one line performed per target by
`generateRefinementPointsOnCurrentPrimaryLines` (with the full
`fromSecondaryLineIdx = 0` span and loop bound `s`). -/
def refineLineFn (s : Nat) (l : PrimaryLine K) : PrimaryLine K :=
  { l with points := spliceKeyed l.points (refineKeyedPoints l.points 0 s) }

/-- All lines carry no uuid (placement- and mutator-created lines never get
one; the I7 reading for grids built by initial placement). -/
def UuidNone (ls : List (PrimaryLine K)) : Prop :=
  ∀ l ∈ ls, l.uuid = none

instance (ls : List (PrimaryLine K)) : Decidable (UuidNone ls) :=
  inferInstanceAs (Decidable (∀ l ∈ ls, l.uuid = none))

/-- The structural skeleton of a line: its identity and the common-point
pattern of its points.  Coordinate-only edits (rotation, translation,
rescale, `active` toggles) leave it unchanged, and all structural
invariants are functions of it. -/
def lineShape (l : PrimaryLine K) : Option Nat × List Bool :=
  (l.uuid, l.points.map (·.isCommonPoint))

/-- The skeleton of a whole line list. -/
def gridShape (ls : List (PrimaryLine K)) : List (Option Nat × List Bool) :=
  ls.map lineShape

/-- The point that one pass of `generateSecondaryLine` appends to a visited
line, computed from that line's points alone. -/
def secPoint (ref : Bool) (sp : K) (pts : List (GridPoint K)) : GridPoint K :=
  let n := pts.length
  let prevPt := pts.getD (n - 1) default
  let prevPrevIdx : Int := (n : Int) - (if ref then 5 else 2)
  match if prevPrevIdx < 0 then none else pts[prevPrevIdx.toNat]? with
  | some prevPrevPt =>
      ⟨prevPt.x + (prevPt.x - prevPrevPt.x), prevPt.y + (prevPt.y - prevPrevPt.y),
        true, true, true⟩
  | none => ⟨prevPt.x + 0, prevPt.y + sp, true, true, true⟩

/-! ## The mutator interface of claim C1

One call of the public mutator interface named by the claim, with its
argument.  `rotate` carries the host cosine/sine of the angle,
`offset` the `usingMouseInput` flag of the source's signature. -/

inductive MutatorCall (K : Type) where
  | setSpacing (q : K)
  | setPrimary (q : K)
  | setSecondary (q : K)
  | setShowRefinement (b : Bool)
  | rotate (c s : K)
  | offset (x y : K) (usingMouseInput : Bool)
  | remove

/-- Dispatch one mutator call. -/
def applyMutator [FloorRing K] : MutatorCall K → ToolState K → JSOutcome K
  | .setSpacing q, st => set_spacing (.num q) st
  | .setPrimary q, st => set_noOfPrimaryLines (.num q) st
  | .setSecondary q, st => set_noOfSecondaryLines (.num q) st
  | .setShowRefinement b, st => set_showRefinementPoints (.bool b) st
  | .rotate c s, st => .ok (rotateGridOp c s st)
  | .offset x y m, st => .ok (setOffsetOp x y m st)
  | .remove, st => .ok (removeGrid st)

/-- Run a sequence of mutator calls; `none` as soon as one throws. -/
def runOk [FloorRing K] : List (MutatorCall K) → ToolState K → Option (ToolState K)
  | [], st => some st
  | m :: ms, st =>
    match applyMutator m st with
    | .ok st1 => runOk ms st1
    | .thrown _ _ => none

/-- The state inside a setter outcome (a thrown JS exception does not roll
the store back, so the carried state is observable afterwards). -/
def outcomeState : JSOutcome K → ToolState K
  | .ok st => st
  | .thrown _ st => st

/-- The structural invariant maintained across normally-returning mutator
calls: either the current image has no grid, or the per-image refinement
override agrees with the global flag and the line list is a uuid-free plain
grid (refinement off) or a uuid-free refined grid (refinement on), with at
least two main lines of at least two common points. -/
def Invariants (st : ToolState K) : Prop :=
  curLines st = [] ∨
  (st.config.showRefinementPerImage st.currentImage = some st.config.showRefinementGlobal ∧
   UuidNone (curLines st) ∧
   ∃ s p, 2 ≤ s ∧ 2 ≤ p ∧
     (if st.config.showRefinementGlobal then RefLines s (curLines st) p
      else PlainLines s (curLines st) p))

/-- The index-level reading of invariants I1–I5 of the spec: minimum sizes
(I1); a line at index `i` is main iff `i % 4 = 0`, subsidiary lines carry
only refinement points (I2); within a main line the point at position `j` is
common iff `j % 4 = 0` (I3); every main line has the same common-point count
`s` (I4); and the derived main-line count (the `noOfPrimaryLines` filter)
matches the count of indices divisible by 4 (I5). -/
def SpecShape (refined : Bool) (ls : List (PrimaryLine K)) : Prop :=
  2 ≤ ls.length ∧
  (∀ l ∈ ls, 2 ≤ l.points.length) ∧
  (∃ s, 2 ≤ s ∧ ∀ i, i < ls.length →
      (if refined then
        (isCommonHead (ls.getD i default) = true ↔ i % 4 = 0) ∧
        (i % 4 = 0 →
          (∀ j, j < (ls.getD i default).points.length →
            (((ls.getD i default).points.getD j default).isCommonPoint = true ↔ j % 4 = 0)) ∧
          ((ls.getD i default).points.filter (·.isCommonPoint)).length = s) ∧
        (i % 4 ≠ 0 → AllRef (ls.getD i default).points)
      else AllCommon (ls.getD i default).points ∧
        (ls.getD i default).points.length = s)) ∧
  (ls.filter isCommonHead).length = (if refined then (ls.length + 3) / 4 else ls.length)

/-- I1–I5 at the state level (plus the uuid reading of I7 for grids built by
placement): an empty grid, or the index-level shape keyed to the refinement
flag with uuid-free lines. -/
def SpecInvariants (st : ToolState K) : Prop :=
  curLines st = [] ∨
  (SpecShape st.config.showRefinementGlobal (curLines st) ∧ UuidNone (curLines st))

/-! ## Basic lemmas about the state plumbing -/

@[simp]
theorem updAt_same {α : Type} (f : Nat → α) (i : Nat) (v : α) : updAt f i v i = v := by
  simp [updAt]

theorem updAt_other {α : Type} (f : Nat → α) (i j : Nat) (v : α) (h : j ≠ i) :
    updAt f i v j = f j := by
  simp [updAt, h]

@[simp]
theorem curLines_setCurLines (st : ToolState K) (ls : List (PrimaryLine K)) :
    curLines (setCurLines st ls) = ls := by
  simp [curLines, setCurLines]

@[simp]
theorem currentImage_setCurLines (st : ToolState K) (ls : List (PrimaryLine K)) :
    (setCurLines st ls).currentImage = st.currentImage := rfl

@[simp]
theorem config_setCurLines (st : ToolState K) (ls : List (PrimaryLine K)) :
    (setCurLines st ls).config = st.config := rfl

@[simp]
theorem curLines_activateDraw (st : ToolState K) :
    curLines (activateDraw st) = curLines st := rfl

@[simp]
theorem currentImage_activateDraw (st : ToolState K) :
    (activateDraw st).currentImage = st.currentImage := rfl

@[simp]
theorem store_activateDraw (st : ToolState K) :
    (activateDraw st).store = st.store := rfl

/-! ## C9: `hasGridForImageIds` on the empty id list -/

/-- C9: `hasGridForImageIds` applied to the empty list of image ids returns
`true` (vacuously: zero grids found, zero ids supplied), whatever the store
holds. -/
theorem hasGridForImageIds_nil_true (st : ToolState K) :
    hasGridForImageIds st [] = true := rfl

/-! ## C10: effects of `removeGrid` -/

/-- C10: `removeGrid` clears the current image's line list, resets the
spacing configuration to the single default value `5`, deletes only the
current image's `showRefinementPoints` override, and leaves the global
`showRefinementPoints` flag and every other image's stored state (and
per-image refinement override) unchanged. -/
theorem removeGrid_effects (st : ToolState K) :
    curLines (removeGrid st) = [] ∧
    (removeGrid st).config.spacingDefault = 5 ∧
    (removeGrid st).config.spacingPerImage = (fun _ => none) ∧
    (removeGrid st).config.showRefinementPerImage st.currentImage = none ∧
    (∀ i, i ≠ st.currentImage → (removeGrid st).config.showRefinementPerImage i =
      st.config.showRefinementPerImage i) ∧
    (removeGrid st).config.showRefinementGlobal = st.config.showRefinementGlobal ∧
    (∀ i, i ≠ st.currentImage → (removeGrid st).store i = st.store i) := by
  refine ⟨?_, rfl, rfl, ?_, fun i hi => ?_, rfl, fun i hi => ?_⟩
  · simp [removeGrid, curLines, setCurLines]
  · simp [removeGrid, setCurLines]
  · simp only [removeGrid, setCurLines]
    exact updAt_other _ _ _ _ hi
  · simp only [removeGrid, setCurLines]
    exact updAt_other _ _ _ _ hi

/-- Witness for C10 at a concrete state and a concrete other image id. -/
theorem removeGrid_effects_witness :
    curLines (removeGrid (initialToolState (K := ℚ) 3 3 0)) = [] ∧
    (removeGrid (initialToolState (K := ℚ) 3 3 0)).store 1 =
      (initialToolState (K := ℚ) 3 3 0).store 1 := by
  have h := removeGrid_effects (initialToolState (K := ℚ) 3 3 0)
  exact ⟨h.1, h.2.2.2.2.2.2 1 (by decide)⟩

/-! ## C8: queries against an image with no grid -/

/-- C8: with no grid on the current image (absent or empty tool state), the
angle getter, the primary/secondary line-count getters and the grid middle
point all answer `null`/`none`, and `getStateForImageId` answers an empty
state; none of them throws (all are total here). -/
theorem emptyGrid_queries (M : JSMath K) (st : ToolState K)
    (h : st.store st.currentImage = none ∨ st.store st.currentImage = some (.full [])) :
    get_angle M st = none ∧
    get_noOfPrimaryLines st = none ∧
    get_noOfSecondaryLines st = none ∧
    getGridMiddlePointCoords (curLines st) = none ∧
    ∀ compact, ∃ d, getStateForImageId st st.currentImage compact = some d ∧
      gridDataLength d = 0 := by
  have hcur : curLines st = [] := by
    rcases h with h | h <;> simp [curLines, h]
  refine ⟨?_, ?_, ?_, ?_, ?_⟩
  · simp [get_angle, hcur]
  · simp [get_noOfPrimaryLines, hcur, noOfPrimaryLines]
  · simp [get_noOfSecondaryLines, hcur, noOfSecondaryLines]
  · simp [hcur, getGridMiddlePointCoords]
  · intro compact
    rcases h with h | h
    · exact ⟨.full [], by simp [getStateForImageId, h], rfl⟩
    · cases compact
      · exact ⟨.full [], by simp [getStateForImageId, h], rfl⟩
      · exact ⟨.compact [], by simp [getStateForImageId, h, List.map], rfl⟩

/-- Witness for C8 at a concrete empty state. -/
theorem emptyGrid_queries_witness :
    get_angle ⟨id, id, id, id, 3⟩ (initialToolState (K := ℚ) 3 3 0) = none ∧
    get_noOfPrimaryLines (initialToolState (K := ℚ) 3 3 0) = none := by
  have h := emptyGrid_queries (K := ℚ) ⟨id, id, id, id, 3⟩ (initialToolState 3 3 0)
    (Or.inl rfl)
  exact ⟨h.1, h.2.1⟩

/-! ## C6: compact export / clone round trip -/

instance : Inhabited (CompactLine K) := ⟨⟨[], none⟩⟩

theorem regenUuids_eq (cls : List (CompactLine K)) (c : Nat) :
    regenUuids c cls =
      (cls.mapIdx (fun i l => { l with uuid := some (c + i) }), c + cls.length) := by
  suffices h : ∀ (cls : List (CompactLine K)) (acc : List (CompactLine K)) (c : Nat),
      cls.foldl (fun acc l => (acc.1 ++ [{ l with uuid := some acc.2 }], acc.2 + 1)) (acc, c) =
      (acc ++ cls.mapIdx (fun i l => { l with uuid := some (c + i) }), c + cls.length) by
    simpa using h cls [] c
  intro cls
  induction cls with
  | nil => intro acc c; simp
  | cons l rest ih =>
    intro acc c
    simp only [List.foldl_cons, ih, List.mapIdx_cons, List.length_cons, Prod.mk.injEq]
    refine ⟨?_, by omega⟩
    rw [List.append_assoc, List.singleton_append]
    simp only [Nat.add_zero, show ∀ i : ℕ, c + 1 + i = c + (i + 1) from fun i => by omega]

/-- C6: exporting the current grid of an image in compact form and cloning it
onto a fresh image reproduces, on the target image, lines with identical
point coordinates and `isCommonPoint` flags, while every cloned line gets a
freshly generated uuid (modelled by the counter: a value never used before)
distinct from the source line's uuid. -/
theorem compact_clone_roundtrip (st : ToolState K) (src tgt : Nat)
    (ls : List (PrimaryLine K)) (hasRef : Bool)
    (hsrc : st.store src = some (.full ls))
    (htgt : st.store tgt = none)
    (hfresh : ∀ l ∈ ls, ∀ u, l.uuid = some u → u < st.uuidCounter) :
    ∃ cls, getStateForImageId st src true = some (.compact cls) ∧
      ∃ cls', (setStateForImageIds cls [tgt] hasRef st).store tgt = some (.compact cls') ∧
        cls'.length = ls.length ∧
        ∀ i, i < ls.length →
          (cls'.getD i default).points =
            (ls.getD i default).points.map (fun p => ⟨p.x, p.y, p.isCommonPoint⟩) ∧
          ∃ u, (cls'.getD i default).uuid = some u ∧
            (cls'.getD i default).uuid ≠ (ls.getD i default).uuid := by
  refine ⟨ls.map toCompact, by simp [getStateForImageId, hsrc], ?_⟩
  refine ⟨((ls.map toCompact).mapIdx fun i l => { l with uuid := some (st.uuidCounter + i) }),
    ?_, by simp, ?_⟩
  · simp only [setStateForImageIds, List.foldl_cons, List.foldl_nil, regenUuids_eq]
    rw [show ∀ st' : ToolState K,
        (setShowRefinementPointsForImageId tgt hasRef st').store = st'.store from ?_]
    · simp [updAt]
    · intro st'
      unfold setShowRefinementPointsForImageId
      split <;> rfl
  · intro i hi
    have hi' : i < (ls.map toCompact).length := by simpa using hi
    have hmi : i < ((ls.map toCompact).mapIdx
        fun i l => { l with uuid := some (st.uuidCounter + i) }).length := by
      simpa using hi
    rw [List.getD_eq_getElem _ _ hmi, List.getD_eq_getElem _ _ hi]
    simp only [List.getElem_mapIdx, List.getElem_map]
    constructor
    · simp [toCompact]
    · refine ⟨st.uuidCounter + i, rfl, ?_⟩
      intro hcon
      cases hu : ls[i].uuid with
      | none => rw [hu] at hcon; exact Option.noConfusion hcon
      | some u =>
        have hlt := hfresh ls[i] (List.getElem_mem hi) u hu
        rw [hu, Option.some_inj] at hcon
        omega

/-- Witness for C6 at a concrete one-line source grid. -/
theorem compact_clone_roundtrip_witness :
    ∃ cls, getStateForImageId
        (K := ℚ)
        { config := defaultToolConfiguration 3 3
          store := updAt (fun _ => none) 0
            (some (.full [{ uuid := some 0, points := [⟨1, 2, true, true, true⟩] }]))
          uuidCounter := 1 } 0 true = some (.compact cls) ∧
      ∃ cls', (setStateForImageIds cls [5] false
          { config := defaultToolConfiguration 3 3
            store := updAt (fun _ => none) 0
              (some (.full [{ uuid := some 0, points := [⟨1, 2, true, true, true⟩] }]))
            uuidCounter := 1 }).store 5 = some (.compact cls') ∧
        cls'.length = 1 ∧
        ∀ i, i < 1 →
          (cls'.getD i default).points =
            (([{ uuid := some 0, points := [⟨1, 2, true, true, true⟩] }] :
                List (PrimaryLine ℚ)).getD i default).points.map
              (fun p => ⟨p.x, p.y, p.isCommonPoint⟩) ∧
          ∃ u, (cls'.getD i default).uuid = some u ∧
            (cls'.getD i default).uuid ≠
              (([{ uuid := some 0, points := [⟨1, 2, true, true, true⟩] }] :
                List (PrimaryLine ℚ)).getD i default).uuid := by
  have h := compact_clone_roundtrip (K := ℚ)
    { config := defaultToolConfiguration 3 3
      store := updAt (fun _ => none) 0
        (some (.full [{ uuid := some 0, points := [⟨1, 2, true, true, true⟩] }]))
      uuidCounter := 1 } 0 5
    [{ uuid := some 0, points := [⟨1, 2, true, true, true⟩] }] false
    (by simp) rfl
    (by rintro l hl u hu; simp at hl; subst hl; simp at hu; show u < 1; omega)
  rcases h with ⟨cls, h1, cls', h2, h3, h4⟩
  exact ⟨cls, h1, cls', h2, by simpa using h3, fun i hi => h4 i (by simpa using hi)⟩

/-! ## The refinement splice on one line -/

theorem nthCommonPoint_cons_of_common (c : GridPoint K) (tail : List (GridPoint K))
    (hc : c.isCommonPoint = true) (n : Nat) :
    nthCommonPoint (c :: tail) (n + 1) = nthCommonPoint tail n := by
  simp [nthCommonPoint, hc]

theorem nthCommonPoint_cons_zero (c : GridPoint K) (tail : List (GridPoint K))
    (hc : c.isCommonPoint = true) :
    nthCommonPoint (c :: tail) 0 = some c := by
  simp [nthCommonPoint, hc]

theorem nthCommonPoint_allCommon (pts : List (GridPoint K)) (h : AllCommon pts) (n : Nat) :
    nthCommonPoint pts n = pts[n]? := by
  induction pts generalizing n with
  | nil => simp [nthCommonPoint]
  | cons p rest ih =>
    have hp : p.isCommonPoint = true := h p (List.mem_cons_self p rest)
    have hr : AllCommon rest := fun q hq => h q (List.mem_cons_of_mem _ hq)
    cases n with
    | zero => simp [nthCommonPoint_cons_zero p rest hp]
    | succ n => simp [nthCommonPoint_cons_of_common p rest hp, ih hr n]

theorem refineKeyedPoints_succ (pts : List (GridPoint K)) (sLI fuel : Nat) :
    refineKeyedPoints pts sLI (fuel + 1) =
      match nthCommonPoint pts sLI, nthCommonPoint pts (sLI + 1) with
      | some point, some nextPoint =>
        (4 * sLI + 1, ⟨point.x + (nextPoint.x - point.x) / 4,
           point.y + (nextPoint.y - point.y) / 4, false, true, true⟩) ::
        (4 * sLI + 2, ⟨point.x + (nextPoint.x - point.x) / 4 * 2,
           point.y + (nextPoint.y - point.y) / 4 * 2, false, true, true⟩) ::
        (4 * sLI + 3, ⟨point.x + (nextPoint.x - point.x) / 4 * 3,
           point.y + (nextPoint.y - point.y) / 4 * 3, false, true, true⟩) ::
        refineKeyedPoints pts (sLI + 1) fuel
      | _, _ => [] := rfl

theorem refineKeyedPoints_shift (c : GridPoint K) (tail : List (GridPoint K))
    (hc : c.isCommonPoint = true) (fuel : Nat) :
    ∀ sLI : Nat,
      refineKeyedPoints (c :: tail) (sLI + 1) fuel =
        (refineKeyedPoints tail sLI fuel).map (fun kp => (kp.1 + 4, kp.2)) := by
  induction fuel with
  | zero => intro sLI; rfl
  | succ fuel ih =>
    intro sLI
    rw [refineKeyedPoints_succ, refineKeyedPoints_succ,
      nthCommonPoint_cons_of_common c tail hc, nthCommonPoint_cons_of_common c tail hc]
    cases h1 : nthCommonPoint tail sLI with
    | none =>
      cases h2 : nthCommonPoint tail (sLI + 1) <;> simp
    | some pt =>
      cases h2 : nthCommonPoint tail (sLI + 1) with
      | none => simp
      | some npt =>
        simp only [List.map_cons, ih (sLI + 1)]
        rw [show 4 * (sLI + 1) + 1 = 4 * sLI + 1 + 4 from by ring,
          show 4 * (sLI + 1) + 2 = 4 * sLI + 2 + 4 from by ring,
          show 4 * (sLI + 1) + 3 = 4 * sLI + 3 + 4 from by ring]

theorem spliceKeyed_cons (pts : List (GridPoint K)) (k : Nat) (p : GridPoint K)
    (keyed : List (Nat × GridPoint K)) :
    spliceKeyed pts ((k, p) :: keyed) =
      spliceKeyed (pts.insertIdx (min k pts.length) p) keyed := rfl

theorem insertIdx_min_succ_cons {α : Type} (x : α) (xs : List α) (k : Nat) (p : α) :
    (x :: xs).insertIdx (min (k + 1) (x :: xs).length) p =
      x :: xs.insertIdx (min k xs.length) p := by
  have h : min (k + 1) (x :: xs).length = min k xs.length + 1 := by
    simp only [List.length_cons]
    omega
  rw [h, List.insertIdx_succ_cons]

theorem insertIdx_min_zero {α : Type} (xs : List α) (p : α) :
    xs.insertIdx (min 0 xs.length) p = p :: xs := by
  rw [Nat.zero_min]
  rfl

theorem spliceKeyed_shift4 (x0 x1 x2 x3 : GridPoint K)
    (keyed : List (Nat × GridPoint K)) :
    ∀ rest : List (GridPoint K),
      spliceKeyed (x0 :: x1 :: x2 :: x3 :: rest) (keyed.map (fun kp => (kp.1 + 4, kp.2))) =
        x0 :: x1 :: x2 :: x3 :: spliceKeyed rest keyed := by
  induction keyed with
  | nil => intro rest; rfl
  | cons kp keyed ih =>
    intro rest
    rcases kp with ⟨k, p⟩
    rw [List.map_cons, spliceKeyed_cons, spliceKeyed_cons]
    rw [insertIdx_min_succ_cons, insertIdx_min_succ_cons, insertIdx_min_succ_cons,
      insertIdx_min_succ_cons, ih]

theorem spliceKeyed_refine_allCommon (pts : List (GridPoint K)) (h : AllCommon pts) :
    spliceKeyed pts (refineKeyedPoints pts 0 pts.length) = refineBlocks pts := by
  induction pts with
  | nil => rfl
  | cons c tail ih =>
    have hc : c.isCommonPoint = true := h c (List.mem_cons_self c tail)
    have ht : AllCommon tail := fun q hq => h q (List.mem_cons_of_mem _ hq)
    cases tail with
    | nil =>
      rw [show ([c] : List (GridPoint K)).length = 0 + 1 from rfl, refineKeyedPoints_succ,
        nthCommonPoint_cons_zero c [] hc, nthCommonPoint_cons_of_common c [] hc]
      rfl
    | cons next rest =>
      have hnext : next.isCommonPoint = true := ht next (List.mem_cons_self next rest)
      rw [show (c :: next :: rest).length = (next :: rest).length + 1 from rfl,
        refineKeyedPoints_succ, nthCommonPoint_cons_zero c (next :: rest) hc,
        nthCommonPoint_cons_of_common c (next :: rest) hc,
        nthCommonPoint_cons_zero next rest hnext]
      rw [refineKeyedPoints_shift c (next :: rest) hc ((next :: rest).length) 0]
      rw [show 4 * 0 + 1 = 0 + 1 from rfl, show 4 * 0 + 2 = 1 + 1 from rfl,
        show 4 * 0 + 3 = 2 + 1 from rfl]
      rw [spliceKeyed_cons, insertIdx_min_succ_cons, insertIdx_min_zero]
      rw [spliceKeyed_cons, insertIdx_min_succ_cons, insertIdx_min_succ_cons,
        insertIdx_min_zero]
      rw [spliceKeyed_cons, insertIdx_min_succ_cons, insertIdx_min_succ_cons,
        insertIdx_min_succ_cons, insertIdx_min_zero]
      rw [spliceKeyed_shift4, ih ht]
      rfl

/-! ## Consequences for `refineBlocks`, and positional localization lemmas -/

theorem MainPts.one_le {s : Nat} {r : List (GridPoint K)} (h : MainPts s r) : 1 ≤ s := by
  cases h <;> omega

theorem MainPts.length_eq {s : Nat} {r : List (GridPoint K)} (h : MainPts s r) :
    r.length = 4 * (s - 1) + 1 := by
  induction h with
  | single c hc => rfl
  | block c r1 r2 r3 rest s hc h1 h2 h3 hrest ih =>
    have := hrest.one_le
    simp only [List.length_cons, ih]
    omega

theorem nthCommonPoint_eq_filter (pts : List (GridPoint K)) (n : Nat) :
    nthCommonPoint pts n = (pts.filter (·.isCommonPoint))[n]? := by
  induction pts generalizing n with
  | nil => simp [nthCommonPoint]
  | cons p rest ih =>
    by_cases hp : p.isCommonPoint = true
    · cases n with
      | zero => simp [nthCommonPoint_cons_zero p rest hp, List.filter_cons, hp]
      | succ n => simp [nthCommonPoint_cons_of_common p rest hp, List.filter_cons, hp, ih]
    · have hp' : p.isCommonPoint = false := by
        cases h : p.isCommonPoint
        · rfl
        · exact absurd h hp
      simp [nthCommonPoint, hp', List.filter_cons, ih]

theorem filter_refineBlocks (pts : List (GridPoint K)) (h : AllCommon pts) :
    (refineBlocks pts).filter (·.isCommonPoint) = pts := by
  induction pts with
  | nil => rfl
  | cons c tail ih =>
    have hc : c.isCommonPoint = true := h c (List.mem_cons_self c tail)
    have ht : AllCommon tail := fun q hq => h q (List.mem_cons_of_mem _ hq)
    cases tail with
    | nil => simp [refineBlocks, List.filter_cons, hc]
    | cons next rest =>
      rw [refineBlocks]
      simp [List.filter_cons, hc, ih ht]

theorem MainPts_refineBlocks (pts : List (GridPoint K)) (h : AllCommon pts)
    (hne : pts ≠ []) : MainPts pts.length (refineBlocks pts) := by
  induction pts with
  | nil => exact absurd rfl hne
  | cons c tail ih =>
    have hc : c.isCommonPoint = true := h c (List.mem_cons_self c tail)
    have ht : AllCommon tail := fun q hq => h q (List.mem_cons_of_mem _ hq)
    cases tail with
    | nil => exact MainPts.single c hc
    | cons next rest =>
      rw [refineBlocks]
      exact MainPts.block c _ _ _ _ (next :: rest).length hc rfl rfl rfl
        (ih ht (by simp))

theorem insertIdx_append_length {α : Type} :
    ∀ (F : List α) (j : Nat) (x : α) (l : List α),
      List.insertIdx (F.length + j) x (F ++ l) = F ++ List.insertIdx j x l
  | [], j, x, l => by simp
  | f :: F, j, x, l => by
    rw [List.length_cons, List.cons_append,
      show F.length + 1 + j = (F.length + j) + 1 by omega,
      List.insertIdx_succ_cons, insertIdx_append_length F j x l, List.cons_append]

theorem modify_append_length {α : Type} :
    ∀ (F : List α) (f : α → α) (j : Nat) (l : List α),
      List.modify f (F.length + j) (F ++ l) = F ++ List.modify f j l
  | [], f, j, l => by simp
  | a :: F, f, j, l => by
    rw [List.length_cons, List.cons_append,
      show F.length + 1 + j = (F.length + j) + 1 by omega,
      List.modify_succ_cons, modify_append_length F f j l, List.cons_append]

theorem getD_append_length {α : Type} [Inhabited α] (F l : List α) (j : Nat) :
    (F ++ l).getD (F.length + j) default = l.getD j default := by
  rw [List.getD_append_right F l default (F.length + j) (by omega)]
  congr 1
  omega

theorem drop_append_length_succ {α : Type} (F : List α) (m : α) (l : List α) :
    (F ++ m :: l).drop (F.length + 1) = l := by
  rw [show F ++ m :: l = (F ++ [m]) ++ l by simp,
    show F.length + 1 = (F ++ [m]).length by simp, List.drop_left]

/-! ## Builder-operation characterizations: helpers -/

theorem totalNoOfSecondaryLines_getD (ls : List (PrimaryLine K)) (h : ls ≠ []) :
    (totalNoOfSecondaryLines ls).getD 0 = (ls.getD 0 default).points.length := by
  cases ls with
  | nil => exact absurd rfl h
  | cons l rest => rfl

theorem getNextMain_append (F : List (PrimaryLine K)) (m m2 : PrimaryLine K)
    (R : List (PrimaryLine K)) (h2 : isCommonHead m2 = true) :
    getNextMainPrimaryLine (F ++ m :: m2 :: R) F.length = some (F.length + 1) := by
  unfold getNextMainPrimaryLine
  rw [drop_append_length_succ, List.findIdx?_cons, if_pos h2]
  simp

theorem modify_modify {α : Type} (f g : α → α) (t : Nat) (ls : List α) :
    (ls.modify g t).modify f t = ls.modify (fun x => f (g x)) t := by
  apply List.ext_getElem?
  intro j
  simp only [List.getElem?_modify]
  by_cases h : t = j <;> cases ls[j]? <;> simp [h]

theorem modify_points_nil_append (t : Nat) (ls : List (PrimaryLine K)) :
    ls.modify (fun l => { l with points := l.points ++ [] }) t = ls := by
  apply List.ext_getElem?
  intro j
  simp only [List.getElem?_modify]
  by_cases h : t = j <;> cases ls[j]? <;> simp [h]

/-- `addPoints` with all pending points aimed at one line appends their
`FreehandHandleData` images to that line. -/
theorem addPoints_const_line (t : Nat) :
    ∀ (pp : List (PendingPoint K)) (ls : List (PrimaryLine K)),
      (∀ q ∈ pp, q.lineIdx = t) →
      addPoints ls pp = ls.modify (fun l =>
        { l with points := l.points ++
            pp.map (fun q => ⟨q.x, q.y, q.isCommonPoint, true, true⟩) }) t
  | [], ls, _ => by
    simp only [addPoints, List.foldl_nil, List.map_nil]
    exact (modify_points_nil_append t ls).symm
  | q :: pp, ls, hq => by
    have ht : q.lineIdx = t := hq q (List.mem_cons_self q pp)
    have hrest : ∀ r ∈ pp, r.lineIdx = t := fun r hr => hq r (List.mem_cons_of_mem _ hr)
    show addPoints (addPoint ls q.lineIdx q.x q.y q.isCommonPoint) pp = _
    rw [ht, addPoints_const_line t pp _ hrest]
    unfold addPoint
    rw [modify_modify]
    congr 1
    funext l
    simp

theorem addPoints_append (ls : List (PrimaryLine K)) (pp1 pp2 : List (PendingPoint K)) :
    addPoints ls (pp1 ++ pp2) = addPoints (addPoints ls pp1) pp2 :=
  List.foldl_append _ _ _ _

/-- The common-point-guarded interpolation scan over raw indices equals a
`zipWith` when the scanned line is all common points. -/
theorem filterMap_range_shift {β : Type} (g : Nat → Option β) :
    ∀ (n s : Nat),
      (List.range' (s + 1) n).filterMap g = (List.range' s n).filterMap (fun i => g (i + 1)) := by
  intro n
  induction n with
  | zero => intro s; rfl
  | succ n ih =>
    intro s
    rw [List.range'_succ, List.range'_succ, List.filterMap_cons, List.filterMap_cons, ih]

/-- The common-point-guarded interpolation scan over raw indices equals a
`zipWith` when the scanned line is all common points and the opposite line
has matching length. -/
theorem filterMap_range_interp {α : Type} (f : GridPoint K → GridPoint K → α) :
    ∀ (ps qs : List (GridPoint K)), AllCommon ps → ps.length = qs.length →
    (List.range' 0 ps.length).filterMap (fun pIdx =>
      if !(ps.getD pIdx default).isCommonPoint then none
      else some (f (ps.getD pIdx default) (qs.getD pIdx default))) =
    List.zipWith f ps qs := by
  intro ps
  induction ps with
  | nil => intro qs _ _; rfl
  | cons p ps ih =>
    intro qs hall hlen
    cases qs with
    | nil => simp at hlen
    | cons q qs =>
      have hp : p.isCommonPoint = true := hall p (List.mem_cons_self p ps)
      have hps : AllCommon ps := fun r hr => hall r (List.mem_cons_of_mem _ hr)
      rw [List.length_cons, List.range'_succ, List.filterMap_cons]
      simp only [List.getD_cons_zero, hp, Bool.not_true, Bool.false_eq_true, if_false]
      rw [filterMap_range_shift]
      simp only [List.getD_cons_succ, List.zipWith_cons_cons]
      rw [ih qs hps (by simpa using hlen)]

/-! ## The subsidiary-line pass of enabling refinement -/

theorem filter_allCommon (r : List (GridPoint K)) (h : AllCommon r) :
    r.filter (·.isCommonPoint) = r :=
  List.filter_eq_self.mpr (fun p hp => by simpa using h p hp)

theorem isCommonHead_of_allCommon (l : PrimaryLine K) (hne : l.points ≠ [])
    (h : AllCommon l.points) : isCommonHead l = true := by
  cases hl : l.points with
  | nil => exact absurd hl hne
  | cons p rest =>
    have hp := h p (by rw [hl]; exact List.mem_cons_self p rest)
    simp [isCommonHead, hl, hp]

theorem zipWith_forall {α β γ : Type} (f : α → β → γ) (P : γ → Prop)
    (h : ∀ a b, P (f a b)) : ∀ (xs : List α) (ys : List β), ∀ c ∈ List.zipWith f xs ys, P c
  | [], _, c, hc => by simp at hc
  | _ :: _, [], c, hc => by simp at hc
  | x :: xs, y :: ys, c, hc => by
    rw [List.zipWith_cons_cons] at hc
    rcases List.mem_cons.mp hc with h1 | h2
    · rw [h1]; exact h x y
    · exact zipWith_forall f P h xs ys c h2

/-- The inner interpolation scan of `_generateSubsidiaryPrimaryLine` at its
exact term shape. -/
theorem filterMap_interp_pending (tK : K) (tgt : Nat) (ps qs : List (GridPoint K))
    (hall : AllCommon ps) (hlen : ps.length = qs.length) :
    (List.range' 0 ps.length).filterMap (fun pointIdx =>
      if !(ps.getD pointIdx default).isCommonPoint then none
      else some (⟨(ps.getD pointIdx default).x +
          ((qs.getD pointIdx default).x - (ps.getD pointIdx default).x) / 4 * tK,
        (ps.getD pointIdx default).y +
          ((qs.getD pointIdx default).y - (ps.getD pointIdx default).y) / 4 * tK,
        tgt, false⟩ : PendingPoint K)) =
    List.zipWith (fun p q => (⟨p.x + (q.x - p.x) / 4 * tK, p.y + (q.y - p.y) / 4 * tK,
      tgt, false⟩ : PendingPoint K)) ps qs :=
  filterMap_range_interp (fun p q => (⟨p.x + (q.x - p.x) / 4 * tK,
    p.y + (q.y - p.y) / 4 * tK, tgt, false⟩ : PendingPoint K)) ps qs hall hlen

/-- Storing the collected interpolants turns them into the points of a
subsidiary line. -/
theorem map_pending_zipWith (tK : K) (tgt : Nat) (ps qs : List (GridPoint K)) :
    (List.zipWith (fun p q => (⟨p.x + (q.x - p.x) / 4 * tK, p.y + (q.y - p.y) / 4 * tK,
        tgt, false⟩ : PendingPoint K)) ps qs).map
      (fun q => (⟨q.x, q.y, q.isCommonPoint, true, true⟩ : GridPoint K)) =
    List.zipWith (subPoint tK) ps qs := by
  rw [List.map_zipWith]
  rfl

/-- One call of the subsidiary-line pass of enabling refinement: with the
lines `F` before it untouched, the call on the adjacent main-line pair
`m`, `m2` creates the three interpolated subsidiary lines between them. -/
theorem generateSubsidiaryPrimaryLine_step (s : Nat) (hs : 1 ≤ s)
    (F : List (PrimaryLine K)) (m m2 : PrimaryLine K) (R : List (PrimaryLine K))
    (hhead : ((F ++ m :: m2 :: R).getD 0 default).points.length = s)
    (hm : m.points.length = s) (hmc : AllCommon m.points)
    (hm2 : m2.points.length = s) (hm2c : AllCommon m2.points) :
    generateSubsidiaryPrimaryLine F.length none true (F ++ m :: m2 :: R) =
      F ++ m :: subsidiaryLineBetween 1 m m2 :: subsidiaryLineBetween 2 m m2 ::
        subsidiaryLineBetween 3 m m2 :: m2 :: R := by
  have hne : (F ++ m :: m2 :: R).isEmpty = false := by simp
  have hm2ne : m2.points ≠ [] := by
    intro h
    rw [h] at hm2
    simp at hm2
    omega
  have hm2h : isCommonHead m2 = true := isCommonHead_of_allCommon m2 hm2ne hm2c
  have hnext : getNextMainPrimaryLine (F ++ m :: m2 :: R) F.length = some (F.length + 1) :=
    getNextMain_append F m m2 R hm2h
  have hsT : (totalNoOfSecondaryLines (F ++ m :: m2 :: R)).getD 0 = s := by
    rw [totalNoOfSecondaryLines_getD _ (by simp)]
    exact hhead
  have hgm : (F ++ m :: m2 :: R).getD F.length default = m := by
    have h0 := getD_append_length F (m :: m2 :: R) 0
    simpa using h0
  have hgm2 : (F ++ m :: m2 :: R).getD (F.length + 1) default = m2 := by
    have h1 := getD_append_length F (m :: m2 :: R) 1
    simpa using h1
  have hins1 : addNewMeasurementToState (F ++ m :: m2 :: R) (some (F.length + 1)) =
      F ++ m :: {} :: m2 :: R := by
    simp only [addNewMeasurementToState]
    rw [min_eq_left (by simp), insertIdx_append_length F 1 {} (m :: m2 :: R)]
    rfl
  have hins2 : addNewMeasurementToState (F ++ m :: {} :: m2 :: R) (some (F.length + 2)) =
      F ++ m :: {} :: {} :: m2 :: R := by
    simp only [addNewMeasurementToState]
    rw [min_eq_left (by simp), insertIdx_append_length F 2 {} (m :: {} :: m2 :: R)]
    rfl
  have hins3 : addNewMeasurementToState (F ++ m :: {} :: {} :: m2 :: R) (some (F.length + 3)) =
      F ++ m :: {} :: {} :: {} :: m2 :: R := by
    simp only [addNewMeasurementToState]
    rw [min_eq_left (by simp),
      insertIdx_append_length F 3 {} (m :: {} :: {} :: m2 :: R)]
    rfl
  simp only [generateSubsidiaryPrimaryLine, hne, Bool.false_eq_true, if_false, hsT, hnext,
    hgm, hgm2, Option.getD_none, Nat.sub_zero, if_true, hins1, hins2, hins3]
  rw [show List.range 3 = [0, 1, 2] from rfl]
  simp only [List.flatMap_cons, List.flatMap_nil, List.append_nil]
  rw [← hm]
  rw [filterMap_interp_pending, filterMap_interp_pending, filterMap_interp_pending]
  rotate_left
  · exact hmc
  · exact hm.trans hm2.symm
  · exact hmc
  · exact hm.trans hm2.symm
  · exact hmc
  · exact hm.trans hm2.symm
  rw [addPoints_append, addPoints_append]
  rw [addPoints_const_line (F.length + 2 + 1) _ _
      (zipWith_forall _ (fun (q : PendingPoint K) => q.lineIdx = F.length + 2 + 1) (fun a b => rfl) _ _),
    addPoints_const_line (F.length + 1 + 1) _ _
      (zipWith_forall _ (fun (q : PendingPoint K) => q.lineIdx = F.length + 1 + 1) (fun a b => rfl) _ _),
    addPoints_const_line (F.length + 0 + 1) _ _
      (zipWith_forall _ (fun (q : PendingPoint K) => q.lineIdx = F.length + 0 + 1) (fun a b => rfl) _ _)]
  rw [show F.length + 0 + 1 = F.length + 1 by omega, show F.length + 1 + 1 = F.length + 2 by omega,
    show F.length + 2 + 1 = F.length + 3 by omega]
  rw [modify_append_length F _ 1, modify_append_length F _ 2, modify_append_length F _ 3]
  simp only [List.modify_succ_cons, List.modify_zero_cons, map_pending_zipWith,
    List.nil_append]
  simp only [Nat.cast_zero, zero_add, Nat.cast_one, Nat.cast_ofNat, one_add_one_eq_two,
    two_add_one_eq_three]
  rfl

/-- The head of a line list does not depend on what follows the first
element after a fixed prefix. -/
theorem getD_zero_append_cons {α : Type} [Inhabited α] (F : List α) (x : α)
    (t1 t2 : List α) :
    (F ++ x :: t1).getD 0 default = (F ++ x :: t2).getD 0 default := by
  cases F <;> rfl

/-- Congruence of `foldl` in its fold body. -/
theorem foldl_body_congr {α β : Type} (f g : α → β → α) :
    ∀ (l : List β) (a : α), (∀ b ∈ l, ∀ x, f x b = g x b) →
      l.foldl f a = l.foldl g a
  | [], _, _ => rfl
  | b :: l, a, h => by
    rw [List.foldl_cons, List.foldl_cons, h b (List.mem_cons_self b l) a]
    exact foldl_body_congr f g l _ (fun b' hb' => h b' (List.mem_cons_of_mem _ hb'))

/-- The whole subsidiary-line pass on a plain grid (the call fold of
`generateSubsidiaryPrimaryLines`, one call per consecutive main-line pair)
interleaves the three subsidiary lines between the main lines. -/
theorem subsidiaryLines_fold (s : Nat) (hs : 1 ≤ s) :
    ∀ (ms F : List (PrimaryLine K)),
      (∀ l ∈ ms, l.points.length = s ∧ AllCommon l.points) → ms ≠ [] →
      ((F ++ ms).getD 0 default).points.length = s →
      (List.range (ms.length - 1)).foldl (fun acc call =>
        generateSubsidiaryPrimaryLine (F.length + 4 * call) none true acc) (F ++ ms)
      = F ++ interleaveSubs ms := by
  intro ms
  induction ms with
  | nil => intro F _ hne _; exact absurd rfl hne
  | cons m ms ih =>
    intro F hmem hne hhead
    cases ms with
    | nil => rfl
    | cons m2 rest =>
      have hm := hmem m (List.mem_cons_self m _)
      have hm2 := hmem m2 (List.mem_cons_of_mem _ (List.mem_cons_self m2 _))
      rw [show (m :: m2 :: rest).length - 1 = rest.length + 1 by simp,
        List.range_succ_eq_map, List.foldl_cons,
        show F.length + 4 * 0 = F.length by omega,
        generateSubsidiaryPrimaryLine_step s hs F m m2 rest hhead hm.1 hm.2 hm2.1 hm2.2,
        List.foldl_map]
      have hmain := ih (F ++ [m, subsidiaryLineBetween 1 m m2, subsidiaryLineBetween 2 m m2,
          subsidiaryLineBetween 3 m m2]) (fun l hl => hmem l (List.mem_cons_of_mem _ hl))
        (by simp)
        (by
          rw [List.append_assoc,
            show [m, subsidiaryLineBetween 1 m m2, subsidiaryLineBetween 2 m m2,
              subsidiaryLineBetween 3 m m2] ++ m2 :: rest =
              m :: subsidiaryLineBetween 1 m m2 :: subsidiaryLineBetween 2 m m2 ::
                subsidiaryLineBetween 3 m m2 :: m2 :: rest from rfl,
            getD_zero_append_cons F m _ (m2 :: rest)]
          exact hhead)
      simp only [List.length_cons, Nat.add_sub_cancel] at hmain
      rw [foldl_body_congr _
        (fun (x : List (PrimaryLine K)) (y : Nat) => generateSubsidiaryPrimaryLine
          ((F ++ [m, subsidiaryLineBetween 1 m m2, subsidiaryLineBetween 2 m m2,
            subsidiaryLineBetween 3 m m2]).length + 4 * y) none true x) _ _
        (fun b _ x => by
          rw [show F.length + 4 * Nat.succ b = (F ++ [m, subsidiaryLineBetween 1 m m2,
            subsidiaryLineBetween 2 m m2, subsidiaryLineBetween 3 m m2]).length + 4 * b by
            simp; omega])]
      rw [show F ++ m :: subsidiaryLineBetween 1 m m2 :: subsidiaryLineBetween 2 m m2 ::
          subsidiaryLineBetween 3 m m2 :: m2 :: rest =
          (F ++ [m, subsidiaryLineBetween 1 m m2, subsidiaryLineBetween 2 m m2,
            subsidiaryLineBetween 3 m m2]) ++ m2 :: rest by simp]
      rw [hmain]
      simp [interleaveSubs]

/-! ## The refinement-point pass of enabling refinement -/

theorem isEmpty_eq_false_of_ne_nil {α : Type} : ∀ (l : List α), l ≠ [] → l.isEmpty = false
  | [], h => absurd rfl h
  | _ :: _, _ => rfl

theorem isCommonHead_subsidiaryLineBetween (t : K) (m m2 : PrimaryLine K) :
    isCommonHead (subsidiaryLineBetween t m m2) = false := by
  cases hm : m.points with
  | nil => simp [isCommonHead, subsidiaryLineBetween, hm]
  | cons p ps =>
    cases hm2 : m2.points with
    | nil => simp [isCommonHead, subsidiaryLineBetween, hm, hm2]
    | cons q qs => simp [isCommonHead, subsidiaryLineBetween, hm, hm2, subPoint]

theorem interleaveSubs_ne_nil (ms : List (PrimaryLine K)) (h : ms ≠ []) :
    interleaveSubs ms ≠ [] := by
  cases ms with
  | nil => exact absurd rfl h
  | cons m ms => cases ms <;> simp [interleaveSubs]

/-- The main lines of the interleaved list are exactly the original plain
lines (each still headed by a common point, while every inserted subsidiary
line is not). -/
theorem filter_isCommonHead_interleaveSubs (s : Nat) (hs : 1 ≤ s) :
    ∀ (ms : List (PrimaryLine K)), (∀ l ∈ ms, l.points.length = s ∧ AllCommon l.points) →
      (interleaveSubs ms).filter isCommonHead = ms := by
  intro ms
  induction ms with
  | nil => intro _; rfl
  | cons m ms ih =>
    intro hmem
    have hm := hmem m (List.mem_cons_self m _)
    have hmne : m.points ≠ [] := by
      intro h
      rw [h] at hm
      simp at hm
      omega
    have hmh : isCommonHead m = true := isCommonHead_of_allCommon m hmne hm.2
    cases ms with
    | nil => simp [interleaveSubs, hmh]
    | cons m2 rest =>
      have htail := ih (fun l hl => hmem l (List.mem_cons_of_mem _ hl))
      simp only [interleaveSubs, List.filter_cons, hmh, isCommonHead_subsidiaryLineBetween,
        if_true, if_false, Bool.false_eq_true, htail]

theorem noOfPrimaryLines_interleaveSubs (s : Nat) (hs : 1 ≤ s)
    (ms : List (PrimaryLine K)) (hne : ms ≠ [])
    (hmem : ∀ l ∈ ms, l.points.length = s ∧ AllCommon l.points) :
    noOfPrimaryLines (interleaveSubs ms) = some ms.length := by
  rw [noOfPrimaryLines, if_neg (by
      rw [isEmpty_eq_false_of_ne_nil _ (interleaveSubs_ne_nil ms hne)]
      exact Bool.false_ne_true),
    filter_isCommonHead_interleaveSubs s hs ms hmem]

theorem noOfSecondaryLines_interleaveSubs (s : Nat)
    (ms : List (PrimaryLine K)) (hne : ms ≠ [])
    (hmem : ∀ l ∈ ms, l.points.length = s ∧ AllCommon l.points) :
    noOfSecondaryLines (interleaveSubs ms) = some s := by
  cases ms with
  | nil => exact absurd rfl hne
  | cons m ms =>
    have hm := hmem m (List.mem_cons_self m _)
    cases ms with
    | nil =>
      show noOfSecondaryLines [m] = some s
      rw [noOfSecondaryLines, filter_allCommon m.points hm.2, hm.1]
    | cons m2 rest =>
      show noOfSecondaryLines (m :: _) = some s
      rw [noOfSecondaryLines, filter_allCommon m.points hm.2, hm.1]

/-- The refinement-point fold over the stride-4 main-line targets refines
each main line of the interleaved list in place, producing `blockify`. -/
theorem refineFold (s : Nat) :
    ∀ (ms F : List (PrimaryLine K)) (k : Nat), F.length = 4 * k →
      (∀ l ∈ ms, l.points.length = s ∧ AllCommon l.points) →
      (List.range' k ms.length).foldl (fun acc i =>
        acc.modify (refineLineFn s) (i * 4)) (F ++ interleaveSubs ms)
      = F ++ blockify ms := by
  intro ms
  induction ms with
  | nil => intro F k _ _; simp [interleaveSubs, blockify]
  | cons m ms ih =>
    intro F k hF hmem
    have hm := hmem m (List.mem_cons_self m _)
    have hfn : refineLineFn s m = { m with points := refineBlocks m.points } := by
      simp only [refineLineFn]
      rw [← hm.1, spliceKeyed_refine_allCommon m.points hm.2]
    cases ms with
    | nil =>
      show List.foldl _ _ (List.range' k 1) = _
      rw [List.range'_succ]
      show ((F ++ interleaveSubs [m]).modify (refineLineFn s) (k * 4)) = _
      rw [show interleaveSubs [m] = [m] from rfl,
        show k * 4 = F.length + 0 by omega, modify_append_length F _ 0,
        List.modify_zero_cons, hfn]
      rfl
    | cons m2 rest =>
      show List.foldl _ _ (List.range' k (rest.length + 1 + 1)) = _
      rw [List.range'_succ, List.foldl_cons,
        show interleaveSubs (m :: m2 :: rest) =
          m :: subsidiaryLineBetween 1 m m2 :: subsidiaryLineBetween 2 m m2 ::
            subsidiaryLineBetween 3 m m2 :: interleaveSubs (m2 :: rest) from rfl,
        show k * 4 = F.length + 0 by omega, modify_append_length F _ 0,
        List.modify_zero_cons, hfn]
      have hmain := ih (F ++ [{ m with points := refineBlocks m.points },
          subsidiaryLineBetween 1 m m2, subsidiaryLineBetween 2 m m2,
          subsidiaryLineBetween 3 m m2]) (k + 1)
        (by simp [hF]; omega) (fun l hl => hmem l (List.mem_cons_of_mem _ hl))
      rw [show F ++ { m with points := refineBlocks m.points } ::
          subsidiaryLineBetween 1 m m2 :: subsidiaryLineBetween 2 m m2 ::
          subsidiaryLineBetween 3 m m2 :: interleaveSubs (m2 :: rest) =
          (F ++ [{ m with points := refineBlocks m.points },
            subsidiaryLineBetween 1 m m2, subsidiaryLineBetween 2 m m2,
            subsidiaryLineBetween 3 m m2]) ++ interleaveSubs (m2 :: rest) by simp,
        show rest.length + 1 = (m2 :: rest).length from rfl, hmain]
      simp [blockify]

/-- Enabling refinement on a non-empty plain grid: the subsidiary-line pass
followed by the refinement-point pass (exactly the calls of
`set showRefinementPoints` with `true`) produces `blockify`. -/
theorem enable_eq_blockify (s : Nat) (hs : 1 ≤ s) (ls : List (PrimaryLine K))
    (hne : ls ≠ []) (hmem : ∀ l ∈ ls, l.points.length = s ∧ AllCommon l.points) :
    generateRefinementPointsOnCurrentPrimaryLines (some 0) (some 0)
      (generateSubsidiaryPrimaryLines 0 (((totalNoOfPrimaryLines ls).getD 0 : Int) - 1)
        true none ls)
    = blockify ls := by
  have htot : (totalNoOfPrimaryLines ls).getD 0 = ls.length := by
    cases ls with
    | nil => exact absurd rfl hne
    | cons l t => rfl
  have hhead0 : ((ls : List (PrimaryLine K)).getD 0 default).points.length = s := by
    cases ls with
    | nil => exact absurd rfl hne
    | cons l t => exact (hmem l (List.mem_cons_self l t)).1
  have hA : generateSubsidiaryPrimaryLines 0 (((totalNoOfPrimaryLines ls).getD 0 : Int) - 1)
      true none ls = interleaveSubs ls := by
    have hfold := subsidiaryLines_fold s hs ls [] hmem hne (by simpa using hhead0)
    simp only [List.nil_append, List.length_nil] at hfold
    rw [generateSubsidiaryPrimaryLines, htot]
    rw [show (((ls.length : Int) - 1) - ((0 : Nat) : Int)).toNat = ls.length - 1 by omega]
    exact hfold
  rw [hA]
  have hIne : (interleaveSubs ls).isEmpty = false :=
    isEmpty_eq_false_of_ne_nil _ (interleaveSubs_ne_nil ls hne)
  simp only [generateRefinementPointsOnCurrentPrimaryLines, hIne, Bool.false_eq_true,
    if_false, Option.isSome_some, if_true,
    noOfPrimaryLines_interleaveSubs s hs ls hne hmem,
    noOfSecondaryLines_interleaveSubs s ls hne hmem,
    Option.getD_some, Nat.sub_zero]
  rw [show (fun (l : PrimaryLine K) =>
      { l with points := spliceKeyed l.points (refineKeyedPoints l.points 0 s) }) =
      refineLineFn s from rfl]
  rw [List.range_eq_range']
  have hB := refineFold s ls [] 0 rfl hmem
  simp only [List.nil_append] at hB
  rw [List.foldl_map]
  exact hB

/-! ## Disabling refinement: `removeAllRefinementPoints` -/

theorem filter_allRef (r : List (GridPoint K)) (h : AllRef r) :
    r.filter (·.isCommonPoint) = [] := by
  rw [List.filter_eq_nil_iff]
  intro p hp
  simp [h p hp]

theorem eraseIdx_append_length {α : Type} :
    ∀ (xs : List α) (a : α) (rs : List α), (xs ++ a :: rs).eraseIdx xs.length = xs ++ rs
  | [], _, _ => rfl
  | x :: xs, a, rs => by
    simp only [List.cons_append, List.length_cons, List.eraseIdx_cons_succ,
      eraseIdx_append_length xs a rs]

/-- The `while (--total)` cleanup of `removeAllRefinementPoints`, run with
fuel covering exactly the positions of `tl`, deletes exactly the empty lines
of `tl` (index `0` is never visited; the already-validated suffix `R` sits
above the scanned range). -/
theorem removeEmptyLinesDown_filter (hd : PrimaryLine K) (tl : List (PrimaryLine K)) :
    ∀ (R : List (PrimaryLine K)),
      removeEmptyLinesDown (hd :: (tl ++ R)) tl.length =
        hd :: (tl.filter (fun l => !l.points.isEmpty) ++ R) := by
  induction tl using List.reverseRecOn with
  | nil => intro R; rfl
  | append_singleton tl a ih =>
    intro R
    rw [show (tl ++ [a]).length = tl.length + 1 by simp,
      show (tl ++ [a]) ++ R = tl ++ a :: R by simp]
    have hget : ((hd :: (tl ++ a :: R)).getD (tl.length + 1) default) = a := by
      rw [show hd :: (tl ++ a :: R) = (hd :: tl) ++ (a :: R) by simp]
      have h0 := getD_append_length (hd :: tl) (a :: R) 0
      simpa using h0
    by_cases ha : a.points.isEmpty = true
    · simp only [removeEmptyLinesDown, hget, ha, if_true]
      rw [show hd :: (tl ++ a :: R) = (hd :: tl) ++ (a :: R) by simp,
        show tl.length + 1 = (hd :: tl).length from rfl,
        eraseIdx_append_length (hd :: tl) a R]
      rw [show (hd :: tl) ++ R = hd :: (tl ++ R) by simp, ih R]
      simp [List.filter_append, ha]
    · simp only [removeEmptyLinesDown, hget, ha, Bool.false_eq_true, if_false]
      rw [show hd :: (tl ++ a :: R) = hd :: (tl ++ (a :: R)) by simp, ih (a :: R)]
      simp only [List.filter_append, List.filter_cons]
      rw [show (!a.points.isEmpty) = true by simp [Bool.eq_false_iff.mpr ha]]
      simp

theorem MainPts.head_common {s : Nat} {r : List (GridPoint K)} (h : MainPts s r) :
    ∃ c rest, r = c :: rest ∧ c.isCommonPoint = true := by
  cases h with
  | single c hc => exact ⟨c, [], rfl, hc⟩
  | block c r1 r2 r3 rest s hc h1 h2 h3 hrest => exact ⟨c, _, rfl, hc⟩

theorem isCommonHead_of_mainPts {s : Nat} {l : PrimaryLine K} (h : MainPts s l.points) :
    isCommonHead l = true := by
  obtain ⟨c, rest, heq, hc⟩ := MainPts.head_common h
  simp [isCommonHead, heq, hc]

theorem MainPts.filter_length {s : Nat} {r : List (GridPoint K)} (h : MainPts s r) :
    (r.filter (·.isCommonPoint)).length = s := by
  induction h with
  | single c hc => simp [hc]
  | block c r1 r2 r3 rest s hc h1 h2 h3 hrest ih => simp [hc, h1, h2, h3, ih]

theorem isCommonHead_of_subLine {s : Nat} {l : PrimaryLine K} (h : SubLine s l) :
    isCommonHead l = false := by
  cases hp : l.points with
  | nil => simp [isCommonHead, hp]
  | cons q rest =>
    have hq := h.2 q (by rw [hp]; exact List.mem_cons_self _ _)
    simp [isCommonHead, hp, hq]

theorem RefLines.head_main {s p : Nat} {ls : List (PrimaryLine K)} (h : RefLines s ls p) :
    ∃ m rest, ls = m :: rest ∧ MainPts s m.points := by
  cases h with
  | single m hm => exact ⟨m, [], rfl, hm⟩
  | block m a b c rest p hm ha hb hc hrest => exact ⟨m, _, rfl, hm⟩

theorem RefLines.mem_shape {s p : Nat} {ls : List (PrimaryLine K)} (h : RefLines s ls p) :
    ∀ l ∈ ls, MainPts s l.points ∨ SubLine s l := by
  induction h with
  | single m hm =>
    intro l hl
    rw [List.mem_singleton] at hl
    subst hl
    exact .inl hm
  | block m a b c rest p hm ha hb hc hrest ih =>
    intro l hl
    simp only [List.mem_cons] at hl
    rcases hl with rfl | rfl | rfl | rfl | hl
    · exact .inl hm
    · exact .inr ha
    · exact .inr hb
    · exact .inr hc
    · exact ih l hl

/-- Dropping the empty-filtered lines commutes with the per-line point
filter, given that each line is either a common-headed one left non-empty or
a non-common-headed one filtered to nothing. -/
theorem filter_map_filterPoints (rest : List (PrimaryLine K))
    (h : ∀ l ∈ rest,
      (isCommonHead l = true ∧ (l.points.filter (·.isCommonPoint)).isEmpty = false) ∨
      (isCommonHead l = false ∧ (l.points.filter (·.isCommonPoint)).isEmpty = true)) :
    (rest.map (fun l => { l with points := l.points.filter (·.isCommonPoint) })).filter
      (fun l => !l.points.isEmpty) =
    (rest.filter isCommonHead).map
      (fun l => { l with points := l.points.filter (·.isCommonPoint) }) := by
  induction rest with
  | nil => rfl
  | cons l rest ih =>
    have htail := ih (fun l' hl' => h l' (List.mem_cons_of_mem _ hl'))
    rcases h l (List.mem_cons_self l rest) with ⟨h1, h2⟩ | ⟨h1, h2⟩
    · simp only [List.map_cons, List.filter_cons, h1, h2, Bool.not_false, if_true, htail]
    · simp only [List.map_cons, List.filter_cons, h1, h2, Bool.not_true, Bool.false_eq_true,
        if_false, htail]

/-- `removeAllRefinementPoints` on a refined grid keeps exactly the main
lines, each filtered down to its common points. -/
theorem removeAll_refLines (s p : Nat) (hs : 1 ≤ s) (ls : List (PrimaryLine K))
    (h : RefLines s ls p) :
    removeAllRefinementPoints ls =
      (ls.filter isCommonHead).map
        (fun l => { l with points := l.points.filter (·.isCommonPoint) }) := by
  obtain ⟨m, rest, heq, hm⟩ := RefLines.head_main h
  subst heq
  rw [removeAllRefinementPoints]
  rw [if_neg (by rw [isEmpty_eq_false_of_ne_nil _ (by simp)]; exact Bool.false_ne_true)]
  simp only [List.map_cons, List.length_cons, List.length_map, Nat.add_sub_cancel]
  have hfilter := removeEmptyLinesDown_filter
    ({ m with points := m.points.filter (·.isCommonPoint) })
    (rest.map (fun l => { l with points := l.points.filter (·.isCommonPoint) })) []
  simp only [List.append_nil, List.length_map] at hfilter
  rw [hfilter]
  have hshape : ∀ l ∈ rest,
      (isCommonHead l = true ∧ (l.points.filter (·.isCommonPoint)).isEmpty = false) ∨
      (isCommonHead l = false ∧ (l.points.filter (·.isCommonPoint)).isEmpty = true) := by
    intro l hl
    rcases RefLines.mem_shape h l (List.mem_cons_of_mem _ hl) with hmain | hsub
    · refine .inl ⟨isCommonHead_of_mainPts hmain, ?_⟩
      apply isEmpty_eq_false_of_ne_nil
      intro hnil
      have := MainPts.filter_length hmain
      rw [hnil] at this
      simp at this
      omega
    · refine .inr ⟨isCommonHead_of_subLine hsub, ?_⟩
      rw [filter_allRef l.points hsub.2]
      rfl
  rw [filter_map_filterPoints rest hshape]
  rw [List.filter_cons, isCommonHead_of_mainPts hm, if_pos rfl]
  rfl

/-! ## Shape and roundtrip facts about `blockify` -/

theorem points_ne_nil_of_plain {s : Nat} (hs : 1 ≤ s) (l : PrimaryLine K)
    (h : l.points.length = s) : l.points ≠ [] := by
  intro hnil
  rw [hnil] at h
  simp at h
  omega

theorem subLine_subsidiaryLineBetween {s : Nat} (t : K) (m m2 : PrimaryLine K)
    (hm : m.points.length = s) (hm2 : m2.points.length = s) :
    SubLine s (subsidiaryLineBetween t m m2) := by
  constructor
  · show (List.zipWith (subPoint t) m.points m2.points).length = s
    rw [List.length_zipWith, hm, hm2, min_self]
  · exact zipWith_forall _ (fun (q : GridPoint K) => q.isCommonPoint = false)
      (fun a b => rfl) _ _

theorem mainPts_refined_line {s : Nat} (hs : 1 ≤ s) (m : PrimaryLine K)
    (hm : m.points.length = s) (hmc : AllCommon m.points) :
    MainPts s ({ m with points := refineBlocks m.points } : PrimaryLine K).points := by
  show MainPts s (refineBlocks m.points)
  have h := MainPts_refineBlocks m.points hmc (points_ne_nil_of_plain hs m hm)
  rwa [hm] at h

/-- `blockify` of a plain grid satisfies the refined structural shape. -/
theorem blockify_refLines (s : Nat) (hs : 1 ≤ s) :
    ∀ (ms : List (PrimaryLine K)), ms ≠ [] →
      (∀ l ∈ ms, l.points.length = s ∧ AllCommon l.points) →
      RefLines s (blockify ms) ms.length := by
  intro ms
  induction ms with
  | nil => intro h _; exact absurd rfl h
  | cons m ms ih =>
    intro _ hmem
    have hm := hmem m (List.mem_cons_self m _)
    have hmain := mainPts_refined_line hs m hm.1 hm.2
    cases ms with
    | nil => exact RefLines.single _ hmain
    | cons m2 rest =>
      have hm2 := hmem m2 (List.mem_cons_of_mem _ (List.mem_cons_self m2 _))
      show RefLines s (_ :: _ :: _ :: _ :: blockify (m2 :: rest)) (rest.length + 1 + 1)
      exact RefLines.block _ _ _ _ _ _ hmain
        (subLine_subsidiaryLineBetween 1 m m2 hm.1 hm2.1)
        (subLine_subsidiaryLineBetween 2 m m2 hm.1 hm2.1)
        (subLine_subsidiaryLineBetween 3 m m2 hm.1 hm2.1)
        (ih (by simp) (fun l hl => hmem l (List.mem_cons_of_mem _ hl)))

/-- The main lines of `blockify` are exactly the refined originals. -/
theorem filter_isCommonHead_blockify (s : Nat) (hs : 1 ≤ s) :
    ∀ (ms : List (PrimaryLine K)),
      (∀ l ∈ ms, l.points.length = s ∧ AllCommon l.points) →
      (blockify ms).filter isCommonHead =
        ms.map (fun m => { m with points := refineBlocks m.points }) := by
  intro ms
  induction ms with
  | nil => intro _; rfl
  | cons m ms ih =>
    intro hmem
    have hm := hmem m (List.mem_cons_self m _)
    have hmh : isCommonHead ({ m with points := refineBlocks m.points } : PrimaryLine K) =
        true := isCommonHead_of_mainPts (mainPts_refined_line hs m hm.1 hm.2)
    cases ms with
    | nil => simp [blockify, hmh]
    | cons m2 rest =>
      have htail := ih (fun l hl => hmem l (List.mem_cons_of_mem _ hl))
      show (({ m with points := refineBlocks m.points } : PrimaryLine K) ::
        subsidiaryLineBetween 1 m m2 :: subsidiaryLineBetween 2 m m2 ::
        subsidiaryLineBetween 3 m m2 :: blockify (m2 :: rest)).filter isCommonHead = _
      simp only [List.filter_cons, hmh, isCommonHead_subsidiaryLineBetween, if_true,
        Bool.false_eq_true, if_false, htail, List.map_cons]

/-- Disabling refinement right after enabling it restores the plain grid
exactly. -/
theorem removeAll_blockify (s : Nat) (hs : 1 ≤ s) (ls : List (PrimaryLine K))
    (hne : ls ≠ []) (hmem : ∀ l ∈ ls, l.points.length = s ∧ AllCommon l.points) :
    removeAllRefinementPoints (blockify ls) = ls := by
  rw [removeAll_refLines s ls.length hs _ (blockify_refLines s hs ls hne hmem),
    filter_isCommonHead_blockify s hs ls hmem, List.map_map]
  have hid : ∀ m ∈ ls,
      ((fun l => { l with points := l.points.filter (·.isCommonPoint) }) ∘
        (fun m => { m with points := refineBlocks m.points })) m = id m := by
    intro m hm
    have h := hmem m hm
    show ({ m with points := (refineBlocks m.points).filter (·.isCommonPoint) } :
      PrimaryLine K) = m
    rw [filter_refineBlocks m.points h.2]
  rw [List.map_congr_left hid, List.map_id]

/-! ## State plumbing for the `showRefinementPoints` setter -/

@[simp]
theorem curLines_config_update (st : ToolState K) (c : GridConfig K) :
    curLines { st with config := c } = curLines st := rfl

/-- The line list written by `set showRefinementPoints` when the per-image
flag differs from the requested value. -/
theorem curLines_applyShow_ne (value : Bool) (st : ToolState K)
    (hflag : st.config.showRefinementPerImage st.currentImage ≠ some value) :
    curLines (applyShowRefinementPoints value st) =
      if value then
        generateRefinementPointsOnCurrentPrimaryLines (some 0) (some 0)
          (generateSubsidiaryPrimaryLines 0
            (((totalNoOfPrimaryLines (curLines st)).getD 0 : Int) - 1) true none
            (curLines st))
      else removeAllRefinementPoints (curLines st) := by
  rw [applyShowRefinementPoints, if_neg hflag]
  show curLines (setCurLines st _) = _
  rw [curLines_setCurLines]

/-- After a flag-changing `set showRefinementPoints` call the per-image flag
of the (unchanged) current image holds the new value. -/
theorem flag_applyShow (value : Bool) (st : ToolState K)
    (hflag : st.config.showRefinementPerImage st.currentImage ≠ some value) :
    (applyShowRefinementPoints value st).config.showRefinementPerImage
      ((applyShowRefinementPoints value st).currentImage) = some value ∧
    (applyShowRefinementPoints value st).currentImage = st.currentImage := by
  rw [applyShowRefinementPoints, if_neg hflag]
  exact ⟨updAt_same _ _ _, rfl⟩

/-! ## Skeleton invariance: coordinate-only edits keep every structural
invariant -/

theorem allCommon_of_map_eq {ps qs : List (GridPoint K)}
    (h : qs.map (·.isCommonPoint) = ps.map (·.isCommonPoint)) (hp : AllCommon ps) :
    AllCommon qs := by
  intro q hq
  have hmem : q.isCommonPoint ∈ qs.map (·.isCommonPoint) := List.mem_map_of_mem _ hq
  rw [h] at hmem
  obtain ⟨p, hp', he⟩ := List.mem_map.mp hmem
  rw [← he]
  exact hp p hp'

theorem allRef_of_map_eq {ps qs : List (GridPoint K)}
    (h : qs.map (·.isCommonPoint) = ps.map (·.isCommonPoint)) (hp : AllRef ps) :
    AllRef qs := by
  intro q hq
  have hmem : q.isCommonPoint ∈ qs.map (·.isCommonPoint) := List.mem_map_of_mem _ hq
  rw [h] at hmem
  obtain ⟨p, hp', he⟩ := List.mem_map.mp hmem
  rw [← he]
  exact hp p hp'

theorem length_of_map_isCommon_eq {ps qs : List (GridPoint K)}
    (h : qs.map (·.isCommonPoint) = ps.map (·.isCommonPoint)) :
    qs.length = ps.length := by
  have := congrArg List.length h
  simpa using this

theorem mainPts_of_map_eq {s : Nat} :
    ∀ {ps : List (GridPoint K)}, MainPts s ps → ∀ {qs : List (GridPoint K)},
      qs.map (·.isCommonPoint) = ps.map (·.isCommonPoint) → MainPts s qs := by
  intro ps hp
  induction hp with
  | single c hc =>
    intro qs h
    match qs with
    | [] => simp at h
    | q :: q' :: qt => simp at h
    | [q] =>
      simp only [List.map_cons, List.map_nil, List.cons.injEq, and_true] at h
      exact MainPts.single q (by rw [h, hc])
  | block c r1 r2 r3 rest s hc h1 h2 h3 hrest ih =>
    intro qs h
    match qs with
    | [] => simp at h
    | [q0] => simp at h
    | [q0, q1] => simp at h
    | [q0, q1, q2] => simp at h
    | [q0, q1, q2, q3] =>
      exfalso
      have hl := congrArg List.length h
      have hr := hrest.length_eq
      have h1 := hrest.one_le
      simp [hr] at hl
    | q0 :: q1 :: q2 :: q3 :: qt =>
      simp only [List.map_cons, List.cons.injEq] at h
      exact MainPts.block q0 q1 q2 q3 qt s (by rw [h.1, hc]) (by rw [h.2.1, h1])
        (by rw [h.2.2.1, h2]) (by rw [h.2.2.2.1, h3]) (ih h.2.2.2.2)

theorem subLine_of_lineShape {s : Nat} {l l' : PrimaryLine K}
    (h : lineShape l' = lineShape l) (hl : SubLine s l) : SubLine s l' := by
  have hmap : l'.points.map (·.isCommonPoint) = l.points.map (·.isCommonPoint) :=
    congrArg Prod.snd h
  exact ⟨(length_of_map_isCommon_eq hmap).trans hl.1, allRef_of_map_eq hmap hl.2⟩

theorem plainLines_of_gridShape {s p : Nat} :
    ∀ {ls : List (PrimaryLine K)}, PlainLines s ls p → ∀ {ls' : List (PrimaryLine K)},
      gridShape ls' = gridShape ls → PlainLines s ls' p := by
  intro ls hp ls' h
  have hlen : ls'.length = ls.length := by
    have := congrArg List.length h
    simpa [gridShape] using this
  refine ⟨hlen.trans hp.1, ?_⟩
  intro l' hl'
  obtain ⟨i, hi, he⟩ := List.mem_iff_getElem.mp hl'
  have hilt : i < ls.length := by omega
  have hshape : lineShape l' = lineShape ls[i] := by
    have hj := congrArg (fun xs => xs[i]?) h
    simp only [gridShape, List.getElem?_map] at hj
    rw [List.getElem?_eq_getElem hi, List.getElem?_eq_getElem hilt] at hj
    simp only [Option.map_some'] at hj
    rw [← he]
    exact Option.some.inj hj
  have hmem : ls[i] ∈ ls := List.getElem_mem _
  have hpl := hp.2 _ hmem
  have hmap : l'.points.map (·.isCommonPoint) =
      ls[i].points.map (·.isCommonPoint) := congrArg Prod.snd hshape
  exact ⟨(length_of_map_isCommon_eq hmap).trans hpl.1, allCommon_of_map_eq hmap hpl.2⟩

theorem refLines_of_gridShape {s p : Nat} :
    ∀ {ls : List (PrimaryLine K)}, RefLines s ls p → ∀ {ls' : List (PrimaryLine K)},
      gridShape ls' = gridShape ls → RefLines s ls' p := by
  intro ls hp
  induction hp with
  | single m hm =>
    intro ls' h
    match ls' with
    | [] => simp [gridShape] at h
    | l' :: l'' :: lt => simp [gridShape] at h
    | [l'] =>
      simp only [gridShape, List.map_cons, List.map_nil, List.cons.injEq, and_true] at h
      exact RefLines.single l' (mainPts_of_map_eq hm (congrArg Prod.snd h))
  | block m a b c rest p hm ha hb hc hrest ih =>
    intro ls' h
    match ls' with
    | [] => simp [gridShape] at h
    | [l0] => simp [gridShape] at h
    | [l0, l1] => simp [gridShape] at h
    | [l0, l1, l2] => simp [gridShape] at h
    | [l0, l1, l2, l3] =>
      exfalso
      have hl := congrArg List.length h
      obtain ⟨m', rest', heq, _⟩ := RefLines.head_main hrest
      rw [heq] at hl
      simp [gridShape] at hl
    | l0 :: l1 :: l2 :: l3 :: lt =>
      simp only [gridShape, List.map_cons, List.cons.injEq] at h
      exact RefLines.block l0 l1 l2 l3 lt p
        (mainPts_of_map_eq hm (congrArg Prod.snd h.1))
        (subLine_of_lineShape h.2.1 ha) (subLine_of_lineShape h.2.2.1 hb)
        (subLine_of_lineShape h.2.2.2.1 hc) (ih h.2.2.2.2)

theorem uuidNone_of_gridShape :
    ∀ {ls ls' : List (PrimaryLine K)}, gridShape ls' = gridShape ls →
      UuidNone ls → UuidNone ls' := by
  intro ls ls' h hu l' hl'
  obtain ⟨i, hi, he⟩ := List.mem_iff_getElem.mp hl'
  have hlen : ls'.length = ls.length := by
    have := congrArg List.length h
    simpa [gridShape] using this
  have hilt : i < ls.length := by omega
  have hj := congrArg (fun xs => xs[i]?) h
  simp only [gridShape, List.getElem?_map] at hj
  rw [List.getElem?_eq_getElem hi, List.getElem?_eq_getElem hilt] at hj
  simp only [Option.map_some'] at hj
  have hshape : lineShape l' = lineShape ls[i] := by
    rw [← he]
    exact Option.some.inj hj
  have := hu _ (List.getElem_mem hilt)
  have huu : l'.uuid = ls[i].uuid := congrArg Prod.fst hshape
  rw [huu, this]

/-! ## Skeleton preservation by the coordinate operations -/

theorem gridShape_map_of_lineShape (f : PrimaryLine K → PrimaryLine K)
    (h : ∀ l, lineShape (f l) = lineShape l) (ls : List (PrimaryLine K)) :
    gridShape (ls.map f) = gridShape ls := by
  rw [gridShape, gridShape, List.map_map]
  exact List.map_congr_left (fun l _ => h l)

theorem gridShape_modify (f : PrimaryLine K → PrimaryLine K)
    (h : ∀ l, lineShape (f l) = lineShape l) (i : Nat) (ls : List (PrimaryLine K)) :
    gridShape (ls.modify f i) = gridShape ls := by
  apply List.ext_getElem?
  intro j
  simp only [gridShape, List.getElem?_map, List.getElem?_modify]
  by_cases hij : i = j
  · subst hij
    cases ls[i]? <;> simp [h]
  · simp [hij]

theorem map_isCommon_modify (f : GridPoint K → GridPoint K)
    (h : ∀ p, (f p).isCommonPoint = p.isCommonPoint) (j : Nat)
    (pts : List (GridPoint K)) :
    (pts.modify f j).map (·.isCommonPoint) = pts.map (·.isCommonPoint) := by
  apply List.ext_getElem?
  intro i
  simp only [List.getElem?_map, List.getElem?_modify]
  by_cases hij : j = i
  · subst hij
    cases pts[j]? <;> simp [h]
  · simp [hij]

theorem map_isCommon_mapIdx (f : Nat → GridPoint K → GridPoint K)
    (h : ∀ i p, (f i p).isCommonPoint = p.isCommonPoint) :
    ∀ (pts : List (GridPoint K)),
      (pts.mapIdx f).map (·.isCommonPoint) = pts.map (·.isCommonPoint) := by
  have general : ∀ (pts : List (GridPoint K)) (g : Nat → GridPoint K → GridPoint K),
      (∀ i p, (g i p).isCommonPoint = p.isCommonPoint) →
      (pts.mapIdx g).map (·.isCommonPoint) = pts.map (·.isCommonPoint) := by
    intro pts
    induction pts with
    | nil => intro g _; rfl
    | cons p pts ih =>
      intro g hg
      rw [List.mapIdx_cons, List.map_cons, List.map_cons, hg,
        ih _ (fun i p => hg (i + 1) p)]
  exact fun pts => general pts f h

theorem gridShape_foldl {β : Type} (g : List (PrimaryLine K) → β → List (PrimaryLine K))
    (h : ∀ acc b, gridShape (g acc b) = gridShape acc) :
    ∀ (l : List β) (a : List (PrimaryLine K)), gridShape (l.foldl g a) = gridShape a
  | [], _ => rfl
  | b :: l, a => by
    rw [List.foldl_cons, gridShape_foldl g h l (g a b), h a b]

theorem lineShape_points_congr (l : PrimaryLine K) (pts : List (GridPoint K))
    (h : pts.map (·.isCommonPoint) = l.points.map (·.isCommonPoint)) :
    lineShape { l with points := pts } = lineShape l := by
  simp [lineShape, h]

theorem gridShape_writePointAt (ls : List (PrimaryLine K)) (i j : Nat) (x y : K) :
    gridShape (writePointAt ls i j x y) = gridShape ls := by
  rw [writePointAt]
  refine gridShape_modify _ ?_ i ls
  intro l
  refine lineShape_points_congr l _ ?_
  refine map_isCommon_modify _ ?_ j l.points
  intro p
  rfl

theorem gridShape_rotateGrid (c s : K) (ls : List (PrimaryLine K)) :
    gridShape (rotateGrid c s ls) = gridShape ls := by
  rw [rotateGrid]
  cases getGridMiddlePointCoords ls with
  | none => rfl
  | some m =>
    exact gridShape_map_of_lineShape _
      (fun l => lineShape_points_congr l _ (by rw [List.map_map]; rfl)) ls

theorem gridShape_setOffset (x y : K) (ct ch : Nat) (ls : List (PrimaryLine K)) :
    gridShape (setOffset x y ct ch ls) = gridShape ls := by
  rw [setOffset]
  split
  · rfl
  · exact gridShape_map_of_lineShape _
      (fun l => lineShape_points_congr l _ (by rw [List.map_map]; rfl)) ls

theorem gridShape_onSpacingChangeLines (ref : Bool) (es ns : K)
    (ls : List (PrimaryLine K)) :
    gridShape (onSpacingChangeLines ref es ns ls) = gridShape ls := by
  rw [onSpacingChangeLines]
  split
  · rfl
  · refine (gridShape_foldl _ ?_ _ _).trans (gridShape_foldl _ ?_ _ ls)
    · intro acc lineIdx
      show gridShape (List.modify _ lineIdx acc) = gridShape acc
      refine gridShape_modify _ ?_ lineIdx acc
      intro l
      refine lineShape_points_congr l _ ?_
      refine map_isCommon_mapIdx _ ?_ l.points
      intro i p
      rfl
    · intro acc sLI
      exact gridShape_foldl _ (fun acc2 c => gridShape_writePointAt acc2 _ _ _ _) _ acc

/-! ## Drawing-session bookkeeping keeps the skeleton and the flags -/

theorem curLines_endDrawing_shape (st : ToolState K) :
    gridShape (curLines (endDrawing st)) = gridShape (curLines st) := by
  have hcollapse : curLines (endDrawing st) = curLines (if st.config.currentTool ≠ -1 then
      setCurLines st ((curLines st).modify (fun l => { l with active := false })
        st.config.currentTool.toNat) else st) := rfl
  rw [hcollapse]
  split
  · rw [curLines_setCurLines]
    refine gridShape_modify _ ?_ _ _
    intro l
    rfl
  · rfl

theorem curLines_completeDrawing_shape (st : ToolState K) :
    gridShape (curLines (completeDrawing st)) = gridShape (curLines st) := by
  rw [completeDrawing]
  split
  · rfl
  · exact curLines_endDrawing_shape st

theorem flags_endDrawing (st : ToolState K) :
    (endDrawing st).config.showRefinementGlobal = st.config.showRefinementGlobal ∧
    (endDrawing st).config.showRefinementPerImage = st.config.showRefinementPerImage ∧
    (endDrawing st).currentImage = st.currentImage := by
  refine ⟨?_, ?_, ?_⟩
  · show ((if st.config.currentTool ≠ -1 then _ else _ : ToolState K).config).showRefinementGlobal = _
    split <;> rfl
  · show ((if st.config.currentTool ≠ -1 then _ else _ : ToolState K).config).showRefinementPerImage = _
    split <;> rfl
  · show (if st.config.currentTool ≠ -1 then _ else _ : ToolState K).currentImage = _
    split <;> rfl

theorem flags_completeDrawing (st : ToolState K) :
    (completeDrawing st).config.showRefinementGlobal = st.config.showRefinementGlobal ∧
    (completeDrawing st).config.showRefinementPerImage = st.config.showRefinementPerImage ∧
    (completeDrawing st).currentImage = st.currentImage := by
  rw [completeDrawing]
  split
  · exact ⟨rfl, rfl, rfl⟩
  · exact flags_endDrawing st

theorem flags_activateDraw (st : ToolState K) :
    (activateDraw st).config.showRefinementGlobal = st.config.showRefinementGlobal ∧
    (activateDraw st).config.showRefinementPerImage = st.config.showRefinementPerImage := by
  constructor
  · show ((if (curLines st).isEmpty then _ else _ : GridConfig K)).showRefinementGlobal = _
    split <;> rfl
  · show ((if (curLines st).isEmpty then _ else _ : GridConfig K)).showRefinementPerImage = _
    split <;> rfl

/-! ## Counting lemmas for the classification getters -/

theorem ne_nil_of_plainLines {s p : Nat} (hp : 1 ≤ p) {ls : List (PrimaryLine K)}
    (h : PlainLines s ls p) : ls ≠ [] := by
  intro hnil
  rw [hnil] at h
  have := h.1
  simp at this
  omega

theorem plainLines_filter_self {s p : Nat} (hs : 1 ≤ s) {ls : List (PrimaryLine K)}
    (h : PlainLines s ls p) : ls.filter isCommonHead = ls := by
  apply List.filter_eq_self.mpr
  intro l hl
  rw [isCommonHead_of_allCommon l (points_ne_nil_of_plain hs l (h.2 l hl).1) (h.2 l hl).2]

theorem noOfPrimaryLines_plain {s p : Nat} (hs : 1 ≤ s) (hp : 1 ≤ p)
    {ls : List (PrimaryLine K)} (h : PlainLines s ls p) :
    noOfPrimaryLines ls = some p := by
  rw [noOfPrimaryLines, if_neg (by
      rw [isEmpty_eq_false_of_ne_nil _ (ne_nil_of_plainLines hp h)]
      exact Bool.false_ne_true),
    plainLines_filter_self hs h, h.1]

theorem noOfSecondaryLines_plain {s p : Nat} (hp : 1 ≤ p) {ls : List (PrimaryLine K)}
    (h : PlainLines s ls p) : noOfSecondaryLines ls = some s := by
  cases ls with
  | nil => exact absurd rfl (ne_nil_of_plainLines hp h)
  | cons m rest =>
    have hm := h.2 m (List.mem_cons_self m rest)
    show some (m.points.filter (·.isCommonPoint)).length = some s
    rw [filter_allCommon m.points hm.2, hm.1]

theorem RefLines.count_pos {s p : Nat} {ls : List (PrimaryLine K)} (h : RefLines s ls p) :
    1 ≤ p := by
  cases h <;> omega

theorem RefLines.length_formula {s p : Nat} {ls : List (PrimaryLine K)} (h : RefLines s ls p) :
    ls.length = 4 * (p - 1) + 1 := by
  induction h with
  | single m hm => rfl
  | block m a b c rest p hm ha hb hc hrest ih =>
    have := hrest.count_pos
    simp only [List.length_cons, ih]
    omega

theorem RefLines.ne_nil {s p : Nat} {ls : List (PrimaryLine K)} (h : RefLines s ls p) :
    ls ≠ [] := by
  obtain ⟨m, rest, rfl, _⟩ := h.head_main
  simp

theorem refLines_filter_count {s p : Nat} {ls : List (PrimaryLine K)}
    (h : RefLines s ls p) : (ls.filter isCommonHead).length = p := by
  induction h with
  | single m hm => simp [List.filter_cons, isCommonHead_of_mainPts hm]
  | block m a b c rest p hm ha hb hc hrest ih =>
    simp [List.filter_cons, isCommonHead_of_mainPts hm, isCommonHead_of_subLine ha,
      isCommonHead_of_subLine hb, isCommonHead_of_subLine hc, ih]

theorem noOfPrimaryLines_refLines {s p : Nat} {ls : List (PrimaryLine K)}
    (h : RefLines s ls p) : noOfPrimaryLines ls = some p := by
  rw [noOfPrimaryLines, if_neg (by
      rw [isEmpty_eq_false_of_ne_nil _ h.ne_nil]
      exact Bool.false_ne_true),
    refLines_filter_count h]

theorem noOfSecondaryLines_refLines {s p : Nat} {ls : List (PrimaryLine K)}
    (h : RefLines s ls p) : noOfSecondaryLines ls = some s := by
  obtain ⟨m, rest, rfl, hm⟩ := h.head_main
  show some (m.points.filter (·.isCommonPoint)).length = some s
  rw [MainPts.filter_length hm]

/-! ## Snoc views of the block structures -/

theorem RefLines.snoc_block {s : Nat} {G : List (PrimaryLine K)} {q : Nat}
    (h : RefLines s G q) :
    ∀ (a b c m : PrimaryLine K), SubLine s a → SubLine s b → SubLine s c →
      MainPts s m.points → RefLines s (G ++ [a, b, c, m]) (q + 1) := by
  induction h with
  | single m0 hm0 =>
    intro a b c m ha hb hc hm
    exact RefLines.block m0 a b c [m] 1 hm0 ha hb hc (RefLines.single m hm)
  | block m0 a0 b0 c0 rest p hm0 ha0 hb0 hc0 hrest ih =>
    intro a b c m ha hb hc hm
    show RefLines s (m0 :: a0 :: b0 :: c0 :: (rest ++ [a, b, c, m])) (p + 1 + 1)
    exact RefLines.block _ _ _ _ _ _ hm0 ha0 hb0 hc0 (ih a b c m ha hb hc hm)

theorem RefLines.snoc_view {s : Nat} {ls : List (PrimaryLine K)} {p : Nat}
    (h : RefLines s ls p) :
    (∃ m, ls = [m] ∧ p = 1 ∧ MainPts s m.points) ∨
    (∃ G a b c m q, ls = G ++ [a, b, c, m] ∧ p = q + 1 ∧ RefLines s G q ∧
      SubLine s a ∧ SubLine s b ∧ SubLine s c ∧ MainPts s m.points) := by
  induction h with
  | single m hm => exact .inl ⟨m, rfl, rfl, hm⟩
  | block m0 a0 b0 c0 rest p hm0 ha0 hb0 hc0 hrest ih =>
    rcases ih with ⟨m, rfl, rfl, hm⟩ |
      ⟨G, a, b, c, m, q, rfl, rfl, hG, ha, hb, hc, hm⟩
    · exact .inr ⟨[m0], a0, b0, c0, m, 1, rfl, rfl, RefLines.single m0 hm0,
        ha0, hb0, hc0, hm⟩
    · exact .inr ⟨m0 :: a0 :: b0 :: c0 :: G, a, b, c, m, q + 1, by simp, rfl,
        RefLines.block _ _ _ _ _ _ hm0 ha0 hb0 hc0 hG, ha, hb, hc, hm⟩

theorem RefLines.last_main {s p : Nat} {ls : List (PrimaryLine K)}
    (h : RefLines s ls p) :
    ∃ G m, ls = G ++ [m] ∧ MainPts s m.points := by
  rcases h.snoc_view with ⟨m, rfl, _, hm⟩ |
    ⟨G, a, b, c, m, q, rfl, _, _, ha, hb, hc, hm⟩
  · exact ⟨[], m, rfl, hm⟩
  · exact ⟨G ++ [a, b, c], m, by simp, hm⟩

theorem MainPts.snoc {s : Nat} {pts : List (GridPoint K)} (h : MainPts s pts) :
    ∀ (r1 r2 r3 c : GridPoint K), r1.isCommonPoint = false → r2.isCommonPoint = false →
      r3.isCommonPoint = false → c.isCommonPoint = true →
      MainPts (s + 1) (pts ++ [r1, r2, r3, c]) := by
  induction h with
  | single c0 hc0 =>
    intro r1 r2 r3 c h1 h2 h3 hc
    exact MainPts.block c0 r1 r2 r3 [c] 1 hc0 h1 h2 h3 (MainPts.single c hc)
  | block c0 r1' r2' r3' rest s hc0 h1' h2' h3' hrest ih =>
    intro r1 r2 r3 c h1 h2 h3 hc
    show MainPts (s + 1 + 1) (c0 :: r1' :: r2' :: r3' :: (rest ++ [r1, r2, r3, c]))
    exact MainPts.block _ _ _ _ _ _ hc0 h1' h2' h3' (ih r1 r2 r3 c h1 h2 h3 hc)

theorem MainPts.snoc_split {s : Nat} {pts : List (GridPoint K)} (h : MainPts s pts) :
    2 ≤ s →
    ∃ base r1 r2 r3 c, pts = base ++ [r1, r2, r3, c] ∧ MainPts (s - 1) base ∧
      r1.isCommonPoint = false ∧ r2.isCommonPoint = false ∧ r3.isCommonPoint = false ∧
      c.isCommonPoint = true := by
  induction h with
  | single c hc => intro hs; omega
  | block c0 r1 r2 r3 rest s hc0 h1 h2 h3 hrest ih =>
    intro _
    by_cases hs : 2 ≤ s
    · obtain ⟨base, q1, q2, q3, c, heq, hbase, hq1, hq2, hq3, hc⟩ := ih hs
      refine ⟨c0 :: r1 :: r2 :: r3 :: base, q1, q2, q3, c, by simp [heq], ?_,
        hq1, hq2, hq3, hc⟩
      rw [show s + 1 - 1 = (s - 1) + 1 by have := hrest.one_le; omega]
      exact MainPts.block _ _ _ _ _ _ hc0 h1 h2 h3 hbase
    · have h1s : s = 1 := by
        have := hrest.one_le
        omega
      subst h1s
      cases hrest with
      | single c' hc' =>
        exact ⟨[c0], r1, r2, r3, c', rfl, MainPts.single c0 hc0, h1, h2, h3, hc'⟩
      | block c'' r1'' r2'' r3'' rest'' s'' hc'' h1'' h2'' h3'' hrest'' =>
        have := hrest''.one_le
        omega

/-! ## `generateMainPrimaryLine` appends one line of common points -/

theorem insertIdx_self {α : Type} (l : List α) (a : α) :
    l.insertIdx l.length a = l ++ [a] := by
  have h := insertIdx_append_length l 0 a []
  simpa using h

/-- On a non-empty grid, `generateMainPrimaryLine` called at the end index
appends exactly one fresh line holding only common points: `sDefault` of
them when a position is supplied, otherwise one per common point of
line 0. -/
theorem generateMain_append (sp : K) (ct : Int) (sd : Nat) (ls : List (PrimaryLine K))
    (pos? : Option (K × K)) (hne : ls ≠ []) :
    ∃ newpts : List (GridPoint K),
      generateMainPrimaryLine sp ct sd ls.length pos? ls =
        .ok (ls ++ [{ uuid := none, active := false, points := newpts }]) ∧
      newpts.length = (if pos?.isNone then (noOfSecondaryLines ls).getD 0 else sd) ∧
      AllCommon newpts := by
  have hins : addNewMeasurementToState ls (some ls.length) = ls ++ [({} : PrimaryLine K)] := by
    simp only [addNewMeasurementToState]
    rw [min_self, insertIdx_self]
  have hlen2 : ¬ ((ls ++ [({} : PrimaryLine K)]).length < 2) := by
    cases ls with
    | nil => exact absurd rfl hne
    | cons l t => simp
  have hsec : noOfSecondaryLines (ls ++ [({} : PrimaryLine K)]) = noOfSecondaryLines ls := by
    cases ls with
    | nil => exact absurd rfl hne
    | cons l t => rfl
  have key : ∀ (pts : List (PendingPoint K)), (∀ q ∈ pts, q.lineIdx = ls.length) →
      addPoints (ls ++ [({} : PrimaryLine K)]) pts =
        ls ++ [{ uuid := none,
                 active := false,
                 points := pts.map (fun q => (⟨q.x, q.y, q.isCommonPoint, true, true⟩ :
                   GridPoint K)) }] := by
    intro pts hmem
    rw [addPoints_const_line ls.length pts _ hmem]
    have hmod := modify_append_length ls
      (fun l => { l with points := l.points ++ pts.map (fun q => (⟨q.x, q.y, q.isCommonPoint, true, true⟩ : GridPoint K)) }) 0
      [({} : PrimaryLine K)]
    simp only [Nat.add_zero] at hmod
    rw [hmod, List.modify_zero_cons]
    rfl
  simp only [generateMainPrimaryLine, hins]
  rw [if_neg hlen2]
  rw [key _ (by
    intro q hq
    obtain ⟨i, _, rfl⟩ := List.mem_map.mp hq
    split <;> simp)]
  refine ⟨_, rfl, ?_, ?_⟩
  · simp [hsec]
  · intro q hq
    obtain ⟨pend, hpend, rfl⟩ := List.mem_map.mp hq
    show pend.isCommonPoint = true
    obtain ⟨i, _, rfl⟩ := List.mem_map.mp hpend
    split <;> rfl

/-- On an image with no lines, `generateMainPrimaryLine` with a supplied
position creates one anchored column of `sDefault` common points. -/
theorem generateMain_first (sp : K) (ct : Int) (sd : Nat) (pos : K × K) :
    ∃ newpts : List (GridPoint K),
      generateMainPrimaryLine sp ct sd 0 (some pos) ([] : List (PrimaryLine K)) =
        .ok [{ uuid := none, active := false, points := newpts }] ∧
      newpts.length = sd ∧ AllCommon newpts := by
  have hstep : generateMainPrimaryLine sp ct sd 0 (some pos) ([] : List (PrimaryLine K)) =
      .ok (addPoints [({} : PrimaryLine K)] ((List.range sd).map (fun (idx : Nat) =>
        (⟨pos.1 + (ct : K) * sp, pos.2 + sp * (idx : K), 0, true⟩ : PendingPoint K)))) := rfl
  have key : ∀ (pts : List (PendingPoint K)), (∀ q ∈ pts, q.lineIdx = 0) →
      addPoints [({} : PrimaryLine K)] pts =
        [{ uuid := none,
           active := false,
           points := pts.map (fun q => (⟨q.x, q.y, q.isCommonPoint, true, true⟩ :
             GridPoint K)) }] := by
    intro pts hmem
    rw [addPoints_const_line 0 pts _ hmem, List.modify_zero_cons]
    rfl
  rw [hstep, key _ (fun q hq => by
    obtain ⟨i, _, rfl⟩ := List.mem_map.mp hq
    rfl)]
  refine ⟨_, rfl, by simp, ?_⟩
  intro q hq
  obtain ⟨pend, hpend, rfl⟩ := List.mem_map.mp hq
  show pend.isCommonPoint = true
  obtain ⟨i, _, rfl⟩ := List.mem_map.mp hpend
  rfl

/-! ## Initial placement builds a plain grid -/

theorem setCurLines_setCurLines (st : ToolState K) (a b : List (PrimaryLine K)) :
    setCurLines (setCurLines st a) b = setCurLines st b := by
  simp only [setCurLines]
  congr 1
  funext j
  by_cases hj : j = st.currentImage <;> simp [updAt, hj]

theorem plainLines_append_one {s p : Nat} {ls : List (PrimaryLine K)}
    (h : PlainLines s ls p) (l : PrimaryLine K)
    (hl : l.points.length = s ∧ AllCommon l.points) :
    PlainLines s (ls ++ [l]) (p + 1) := by
  constructor
  · simp [h.1]
  · intro x hx
    rcases List.mem_append.mp hx with hx | hx
    · exact h.2 x hx
    · rw [List.mem_singleton.mp hx]
      exact hl

theorem uuidNone_append_one {ls : List (PrimaryLine K)} (h : UuidNone ls)
    (l : PrimaryLine K) (hl : l.uuid = none) : UuidNone (ls ++ [l]) := by
  intro x hx
  rcases List.mem_append.mp hx with hx | hx
  · exact h x hx
  · rw [List.mem_singleton.mp hx]
    exact hl

/-- The placement loop of `addNewMeasurement`: after `n ≥ 1` rounds the
current image holds `n` lines of `noOfSecondaryLinesDefault` common points
each, none carrying a uuid. -/
theorem placement_fold (pos : K × K) (st1 : ToolState K) (h0 : curLines st1 = []) :
    ∀ n : Nat, 1 ≤ n →
    ∃ ls : List (PrimaryLine K),
      (List.range n).foldl (fun acc lineIdx =>
        match generateMainPrimaryLine (spacingValue acc) acc.config.currentTool
            acc.config.noOfSecondaryLinesDefault lineIdx (some pos) (curLines acc) with
        | .ok ls' => setCurLines acc ls'
        | .error ls' => setCurLines acc ls') st1 = setCurLines st1 ls ∧
      PlainLines st1.config.noOfSecondaryLinesDefault ls n ∧ UuidNone ls := by
  intro n
  induction n with
  | zero => omega
  | succ n ih =>
    intro _
    by_cases hn : 1 ≤ n
    · obtain ⟨ls, heq, hplain, huuid⟩ := ih hn
      rw [List.range_succ, List.foldl_append, heq]
      simp only [List.foldl_cons, List.foldl_nil]
      have hlen : ls.length = n := hplain.1
      obtain ⟨newpts, hgen, hnlen, hncom⟩ :=
        generateMain_append (spacingValue (setCurLines st1 ls))
          (setCurLines st1 ls).config.currentTool
          (setCurLines st1 ls).config.noOfSecondaryLinesDefault
          ls (some pos) (by
            intro hnil
            rw [hnil] at hlen
            simp at hlen
            omega)
      rw [curLines_setCurLines, ← hlen, hgen]
      refine ⟨ls ++ [{ uuid := none, active := false, points := newpts }],
        setCurLines_setCurLines st1 ls _, ?_, ?_⟩
      · refine plainLines_append_one ?_ _ ⟨?_, hncom⟩
        · rw [hlen]
          exact hplain
        · rw [hnlen]
          simp [config_setCurLines]
      · exact uuidNone_append_one huuid _ rfl
    · have hn0 : n = 0 := by omega
      subst hn0
      rw [show List.range 1 = [0] from rfl]
      simp only [List.foldl_cons, List.foldl_nil]
      obtain ⟨newpts, hgen, hnlen, hncom⟩ := generateMain_first (spacingValue st1)
        st1.config.currentTool st1.config.noOfSecondaryLinesDefault pos
      rw [h0, hgen]
      refine ⟨[{ uuid := none, active := false, points := newpts }], rfl, ?_, ?_⟩
      · exact ⟨rfl, by
          intro x hx
          rw [List.mem_singleton.mp hx]
          exact ⟨hnlen, hncom⟩⟩
      · intro x hx
        rw [List.mem_singleton.mp hx]

/-- `removeAllRefinementPoints` is the identity on a plain grid. -/
theorem removeAll_plain {s p : Nat} (hs : 1 ≤ s) (hp : 1 ≤ p)
    {ls : List (PrimaryLine K)} (h : PlainLines s ls p) :
    removeAllRefinementPoints ls = ls := by
  have hne := ne_nil_of_plainLines hp h
  obtain ⟨hd, tl, rfl⟩ : ∃ hd tl, ls = hd :: tl := by
    cases ls with
    | nil => exact absurd rfl hne
    | cons hd tl => exact ⟨hd, tl, rfl⟩
  rw [removeAllRefinementPoints,
    if_neg (by rw [isEmpty_eq_false_of_ne_nil _ hne]; exact Bool.false_ne_true)]
  have hmapid : (hd :: tl).map
      (fun l => { l with points := l.points.filter (·.isCommonPoint) }) = hd :: tl := by
    have hcongr : ∀ l ∈ hd :: tl,
        (fun l => ({ l with points := l.points.filter (·.isCommonPoint) } :
          PrimaryLine K)) l = id l := by
      intro l hl
      show ({ l with points := l.points.filter (·.isCommonPoint) } : PrimaryLine K) = l
      rw [filter_allCommon l.points (h.2 l hl).2]
    rw [List.map_congr_left hcongr, List.map_id]
  rw [hmapid]
  simp only [List.length_cons, Nat.add_sub_cancel]
  have hfilter := removeEmptyLinesDown_filter hd tl []
  simp only [List.append_nil] at hfilter
  rw [hfilter, List.filter_eq_self.mpr (by
    intro l hl
    have := points_ne_nil_of_plain hs l (h.2 l (List.mem_cons_of_mem _ hl)).1
    simp [isEmpty_eq_false_of_ne_nil _ this])]

theorem activateDraw_empty (st : ToolState K) (h0 : curLines st = []) :
    activateDraw st = { st with drawing := true } := by
  simp [activateDraw, h0]

theorem applyShow_skip (value : Bool) (st : ToolState K)
    (h : st.config.showRefinementPerImage st.currentImage = some value) :
    applyShowRefinementPoints value st = st := by
  rw [applyShowRefinementPoints, if_pos h]

theorem global_applyShow (value : Bool) (st : ToolState K)
    (hflag : st.config.showRefinementPerImage st.currentImage ≠ some value) :
    (applyShowRefinementPoints value st).config.showRefinementGlobal = value := by
  rw [applyShowRefinementPoints, if_neg hflag]

/-- Initial placement on a grid-free image with refinement globally off
builds a plain `pDefault × sDefault` grid of uuid-free lines and records the
per-image refinement flag `false`. -/
theorem addNewMeasurement_invariant (pos : K × K) (st : ToolState K)
    (h0 : curLines st = []) (hg : st.config.showRefinementGlobal = false)
    (hp : 2 ≤ st.config.noOfPrimaryLinesDefault)
    (hs : 2 ≤ st.config.noOfSecondaryLinesDefault) :
    PlainLines st.config.noOfSecondaryLinesDefault (curLines (addNewMeasurement pos st))
      st.config.noOfPrimaryLinesDefault ∧
    UuidNone (curLines (addNewMeasurement pos st)) ∧
    (addNewMeasurement pos st).config.showRefinementGlobal = false ∧
    (addNewMeasurement pos st).config.showRefinementPerImage
      (addNewMeasurement pos st).currentImage = some false := by
  have ha := activateDraw_empty st h0
  have h0' : curLines (activateDraw st) = [] := by
    rw [curLines_activateDraw, h0]
  have hfold := placement_fold pos (activateDraw st) h0'
    ((activateDraw st).config.noOfPrimaryLinesDefault)
    (by rw [ha]; show 1 ≤ st.config.noOfPrimaryLinesDefault; omega)
  obtain ⟨ls, heq, hplain, huuid⟩ := hfold
  have hred : addNewMeasurement pos st =
      applyShowRefinementPoints
        (completeDrawing (setCurLines (activateDraw st) ls)).config.showRefinementGlobal
        (completeDrawing (setCurLines (activateDraw st) ls)) := by
    rw [addNewMeasurement, if_neg (by rw [h0]; simp)]
    simp only [heq]
  set st3 := completeDrawing (setCurLines (activateDraw st) ls) with hst3
  have hshape3 : gridShape (curLines st3) = gridShape ls := by
    rw [hst3]
    rw [curLines_completeDrawing_shape, curLines_setCurLines]
  have hflags3 := flags_completeDrawing (setCurLines (activateDraw st) ls)
  have hglobal3 : st3.config.showRefinementGlobal = false := by
    rw [hst3, hflags3.1, config_setCurLines, (flags_activateDraw st).1, hg]
  have hplain3 : PlainLines st.config.noOfSecondaryLinesDefault (curLines st3)
      st.config.noOfPrimaryLinesDefault := by
    have := plainLines_of_gridShape hplain hshape3
    rwa [ha] at this
  have huuid3 : UuidNone (curLines st3) := uuidNone_of_gridShape hshape3 huuid
  rw [hred, hglobal3]
  by_cases hcase : st3.config.showRefinementPerImage st3.currentImage = some false
  · rw [applyShow_skip false st3 hcase]
    exact ⟨hplain3, huuid3, hglobal3, hcase⟩
  · have hlines : curLines (applyShowRefinementPoints false st3) = curLines st3 := by
      rw [curLines_applyShow_ne false st3 hcase, if_neg (by simp)]
      exact removeAll_plain (by omega) (by omega) hplain3
    refine ⟨?_, ?_, global_applyShow false st3 hcase, ?_⟩
    · rw [hlines]
      exact hplain3
    · rw [hlines]
      exact huuid3
    · exact (flag_applyShow false st3 hcase).1

theorem rotatePoint_inverse (c s mx my : K) (h : c ^ 2 + s ^ 2 = 1) (p : GridPoint K) :
    rotatePoint c (-s) mx my (rotatePoint c s mx my p) = p := by
  cases p with
  | mk x y common highlight active =>
    rw [rotatePoint, rotatePoint, GridPoint.mk.injEq]
    exact ⟨by linear_combination (x - mx) * h, by linear_combination (y - my) * h,
      rfl, rfl, rfl⟩

theorem coordsOf_modify_active (ls : List (PrimaryLine K)) (i : Nat) :
    coordsOf (ls.modify (fun l => { l with active := false }) i) = coordsOf ls := by
  induction ls generalizing i with
  | nil => simp [List.modify_nil]
  | cons l rest ih =>
    cases i with
    | zero => simp [coordsOf, List.modify_zero_cons]
    | succ i => simpa [coordsOf, List.modify_succ_cons] using ih i

theorem points_getD_modify_active (ls : List (PrimaryLine K)) (i j : Nat) :
    ((ls.modify (fun l => { l with active := false }) i).getD j default).points =
    (ls.getD j default).points := by
  simp only [List.getD, List.get?_eq_getElem?]
  rw [List.getElem?_modify]
  cases h : ls[j]? with
  | none => simp [h]
  | some l => by_cases hij : i = j <;> simp [h, hij]

/-- The middle point is unchanged by deactivating one line. -/
theorem middle_modify_active (ls : List (PrimaryLine K)) (i : Nat) :
    getGridMiddlePointCoords (ls.modify (fun l => { l with active := false }) i) =
    getGridMiddlePointCoords ls := by
  have hempty : (ls.modify (fun l => { l with active := false }) i).isEmpty = ls.isEmpty := by
    cases ls with
    | nil => rw [List.modify_nil]
    | cons l rest =>
      cases i with
      | zero => rw [List.modify_zero_cons]; rfl
      | succ i => rw [List.modify_succ_cons]; rfl
  unfold getGridMiddlePointCoords
  rw [hempty]
  by_cases h : ls.isEmpty
  · rw [if_pos h, if_pos h]
  · rw [if_neg h, if_neg h]
    simp only [points_getD_modify_active, List.length_modify]

/-- `rotateGrid` commutes with deactivating one line. -/
theorem rotateGrid_modify_active (c s : K) (ls : List (PrimaryLine K)) (i : Nat) :
    rotateGrid c s (ls.modify (fun l => { l with active := false }) i) =
    (rotateGrid c s ls).modify (fun l => { l with active := false }) i := by
  unfold rotateGrid
  rw [middle_modify_active]
  cases getGridMiddlePointCoords ls with
  | none => rfl
  | some m =>
    simp only
    induction ls generalizing i with
    | nil => simp [List.modify_nil]
    | cons l rest ih =>
      cases i with
      | zero => simp [List.modify_zero_cons]
      | succ i => simpa [List.modify_succ_cons] using ih i

/-- `rotateGrid` with a known middle point is the pointwise rotation map. -/
theorem rotateGrid_of_middle (c s : K) (ls : List (PrimaryLine K)) (m : K × K)
    (hm : getGridMiddlePointCoords ls = some m) :
    rotateGrid c s ls =
      ls.map (fun l => { l with points := l.points.map (rotatePoint c s m.1 m.2) }) := by
  unfold rotateGrid
  rw [hm]

/-- Rotating by the inverse angle about the same centre restores the line
list exactly. -/
theorem rotateGrid_rotateGrid_same_middle (c s : K) (h : c ^ 2 + s ^ 2 = 1)
    (ls : List (PrimaryLine K)) (m : K × K)
    (hm1 : getGridMiddlePointCoords ls = some m)
    (hm2 : getGridMiddlePointCoords (rotateGrid c s ls) = some m) :
    rotateGrid c (-s) (rotateGrid c s ls) = ls := by
  rw [rotateGrid_of_middle c (-s) _ m hm2, rotateGrid_of_middle c s _ m hm1]
  simp only [List.map_map]
  conv_rhs => rw [← List.map_id ls]
  apply List.map_congr_left
  intro l _
  simp only [Function.comp, id]
  cases l with
  | mk uuid active pts =>
    simp only [PrimaryLine.mk.injEq, true_and]
    rw [List.map_map]
    conv_rhs => rw [← List.map_id pts]
    apply List.map_congr_left
    intro p _
    exact rotatePoint_inverse c s m.1 m.2 h p

theorem getD_map_of_lt {α β : Type} (f : α → β) (ls : List α) (i : Nat) (h : i < ls.length)
    (d : β) (d' : α) : (ls.map f).getD i d = f (ls.getD i d') := by
  rw [List.getD_eq_getElem _ _ (by simpa using h), List.getD_eq_getElem _ _ h,
    List.getElem_map]

/-- The centroid is a fixed point of the rotation: the rotated grid has the
same middle point. -/
theorem middle_rotateGrid (c s : K) (ls : List (PrimaryLine K)) (m : K × K)
    (h0 : ls ≠ [])
    (hfirst : (ls.getD 0 default).points ≠ [])
    (hlast : (ls.getD (ls.length - 1) default).points ≠ [])
    (hm : getGridMiddlePointCoords ls = some m) :
    getGridMiddlePointCoords (rotateGrid c s ls) = some m := by
  have hlen0 : 0 < ls.length := by
    cases ls with
    | nil => exact absurd rfl h0
    | cons l rest => simp
  have hlenlast : ls.length - 1 < ls.length := by omega
  rw [rotateGrid_of_middle c s ls m hm]
  set F : PrimaryLine K → PrimaryLine K :=
    fun l => { l with points := l.points.map (rotatePoint c s m.1 m.2) } with hF
  unfold getGridMiddlePointCoords at hm ⊢
  rw [if_neg (by simpa using h0)] at hm
  rw [if_neg (by simp [List.isEmpty_iff]; exact h0)]
  simp only [Option.some_inj] at hm
  set ul := (ls.getD 0 default).points.getD 0 default with hul
  set lastLine := ls.getD (ls.length - 1) default with hlastLine
  set br := lastLine.points.getD (lastLine.points.length - 1) default with hbr
  have e1 : ((ls.map F).getD 0 default) = F (ls.getD 0 default) :=
    getD_map_of_lt F ls 0 hlen0 default default
  have e2 : (ls.map F).length = ls.length := by simp
  have e3 : ((ls.map F).getD ((ls.map F).length - 1) default) = F lastLine := by
    rw [e2]
    exact getD_map_of_lt F ls (ls.length - 1) hlenlast default default
  rw [e1, e3]
  have hplen : (F lastLine).points.length = lastLine.points.length := by simp [hF]
  have hul' : (F (ls.getD 0 default)).points.getD 0 default = rotatePoint c s m.1 m.2 ul := by
    simp only [hF]
    exact getD_map_of_lt _ _ 0 (by cases h : (ls.getD 0 default).points with
      | nil => exact absurd h hfirst
      | cons a b => simp [h]) default default
  have hbr' : (F lastLine).points.getD ((F lastLine).points.length - 1) default =
      rotatePoint c s m.1 m.2 br := by
    rw [hplen]
    simp only [hF]
    exact getD_map_of_lt _ _ (lastLine.points.length - 1)
      (by cases h : lastLine.points with
        | nil => exact absurd h hlast
        | cons a b => simp [h]) default default
  simp only [hul', hbr', Option.some_inj]
  have hx : m.1 = (ul.x + br.x) / 2 := by rw [← hm]
  have hy : m.2 = (ul.y + br.y) / 2 := by rw [← hm]
  have hgx : (rotatePoint c s m.1 m.2 ul).x = (ul.x - m.1) * c - (ul.y - m.2) * s + m.1 := rfl
  apply Prod.ext
  · show ((rotatePoint c s m.1 m.2 ul).x + (rotatePoint c s m.1 m.2 br).x) / 2 = m.1
    simp only [rotatePoint]
    rw [hx, hy]
    ring
  · show ((rotatePoint c s m.1 m.2 ul).y + (rotatePoint c s m.1 m.2 br).y) / 2 = m.2
    simp only [rotatePoint]
    rw [hx, hy]
    ring

/-- What `rotateGrid(angle)` does to the current lines at state level: the
rotation map followed by the `completeDrawing` deactivation of the last
line. -/
theorem config_activateDraw_ne (st : ToolState K) (hne : ¬(curLines st).isEmpty = true) :
    (activateDraw st).config =
      { st.config with currentTool := ((curLines st).length : Int) - 1 } := by
  unfold activateDraw
  show (if (curLines st).isEmpty = true then st.config else _) = _
  rw [if_neg hne]

theorem curLines_endDrawing (st : ToolState K) (h : st.config.currentTool ≠ -1) :
    curLines (endDrawing st) =
      (curLines st).modify (fun l => { l with active := false })
        st.config.currentTool.toNat := by
  unfold endDrawing
  simp only [ne_eq, h, not_false_iff, if_true]
  exact curLines_setCurLines st
    ((curLines st).modify (fun l => { l with active := false }) st.config.currentTool.toNat)

theorem curLines_rotateGridOp (c s : K) (st : ToolState K) (h0 : curLines st ≠ []) :
    curLines (rotateGridOp c s st) =
      (rotateGrid c s (curLines st)).modify (fun l => { l with active := false })
        ((curLines st).length - 1) := by
  have hne : ¬(curLines st).isEmpty = true := by simpa [List.isEmpty_iff] using h0
  unfold rotateGridOp
  rw [if_neg hne]
  show curLines (completeDrawing (setCurLines (activateDraw st)
      (rotateGrid c s (curLines (activateDraw st))))) = _
  rw [curLines_activateDraw]
  set st2 := setCurLines (activateDraw st) (rotateGrid c s (curLines st)) with hst2
  have hd : st2.drawing = true := rfl
  have hct : st2.config.currentTool = ((curLines st).length : Int) - 1 := by
    rw [hst2, config_setCurLines, config_activateDraw_ne st hne]
  have hne2 : st2.config.currentTool ≠ -1 := by
    rw [hct]
    have := List.length_pos.mpr h0
    omega
  unfold completeDrawing
  rw [hd]
  simp only [Bool.not_true, Bool.false_eq_true, if_false]
  rw [curLines_endDrawing st2 hne2, hst2, curLines_setCurLines, hct]
  congr 1
  have := List.length_pos.mpr h0
  omega

/-- C5: for every non-empty grid (every line carrying at least one point, as
invariant I1 guarantees) and every angle `θ`, `rotateGrid(θ)` followed by
`rotateGrid(-θ)` — each about the centroid recomputed as the midpoint of the
first point of the first line and the last point of the last line — restores
every point's original coordinates exactly over real arithmetic. -/
theorem rotate_unrotate_restores_coords (θ : ℝ) (st : ToolState ℝ)
    (h0 : curLines st ≠ [])
    (hfirst : ((curLines st).getD 0 default).points ≠ [])
    (hlast : ((curLines st).getD ((curLines st).length - 1) default).points ≠ []) :
    coordsOf (curLines (rotateGridOp (Real.cos (-θ * Real.pi / 180))
        (Real.sin (-θ * Real.pi / 180))
        (rotateGridOp (Real.cos (θ * Real.pi / 180)) (Real.sin (θ * Real.pi / 180)) st))) =
    coordsOf (curLines st) := by
  set c := Real.cos (θ * Real.pi / 180) with hc
  set s := Real.sin (θ * Real.pi / 180) with hs
  have hcneg : Real.cos (-θ * Real.pi / 180) = c := by
    rw [hc, show -θ * Real.pi / 180 = -(θ * Real.pi / 180) by ring, Real.cos_neg]
  have hsneg : Real.sin (-θ * Real.pi / 180) = -s := by
    rw [hs, show -θ * Real.pi / 180 = -(θ * Real.pi / 180) by ring, Real.sin_neg]
  rw [hcneg, hsneg]
  set ls := curLines st with hls
  have hlen : 0 < ls.length := List.length_pos.mpr h0
  have hm1 : getGridMiddlePointCoords ls =
      some ((((ls.getD 0 default).points.getD 0 default).x +
          ((ls.getD (ls.length - 1) default).points.getD
            ((ls.getD (ls.length - 1) default).points.length - 1) default).x) / 2,
        (((ls.getD 0 default).points.getD 0 default).y +
          ((ls.getD (ls.length - 1) default).points.getD
            ((ls.getD (ls.length - 1) default).points.length - 1) default).y) / 2) := by
    unfold getGridMiddlePointCoords
    rw [if_neg (by simpa [List.isEmpty_iff] using h0)]
  set m := (_ : ℝ × ℝ) with hmdef
  have hm2 : getGridMiddlePointCoords (rotateGrid c s ls) = some m :=
    middle_rotateGrid c s ls m h0 hfirst hlast hm1
  have h1 : curLines (rotateGridOp c s st) =
      (rotateGrid c s ls).modify (fun l => { l with active := false }) (ls.length - 1) :=
    curLines_rotateGridOp c s st h0
  have hlen1 : ((rotateGrid c s ls).modify (fun l => { l with active := false })
      (ls.length - 1)).length = ls.length := by
    rw [List.length_modify, rotateGrid_of_middle c s ls m hm1, List.length_map]
  have h0' : curLines (rotateGridOp c s st) ≠ [] := by
    rw [h1]
    intro hcon
    rw [← List.length_eq_zero, hlen1] at hcon
    omega
  have h2 := curLines_rotateGridOp c (-s) (rotateGridOp c s st) h0'
  rw [h2, h1, hlen1]
  rw [rotateGrid_modify_active]
  rw [rotateGrid_rotateGrid_same_middle c s (Real.cos_sq_add_sin_sq _) ls m hm1 hm2]
  rw [coordsOf_modify_active, coordsOf_modify_active]

/-- Witness for C5 at a one-line, one-point grid and `θ = 60`. -/
theorem rotate_unrotate_restores_coords_witness :
    coordsOf (curLines (rotateGridOp (Real.cos (-60 * Real.pi / 180))
        (Real.sin (-60 * Real.pi / 180))
        (rotateGridOp (Real.cos (60 * Real.pi / 180)) (Real.sin (60 * Real.pi / 180))
          { config := defaultToolConfiguration 3 3
            store := updAt (fun _ => none) 0
              (some (.full [{ uuid := none, points := [⟨1, 2, true, true, true⟩] }])) }))) =
    coordsOf (curLines
      ({ config := defaultToolConfiguration 3 3
         store := updAt (fun _ => none) 0
           (some (.full [{ uuid := none, points := [⟨1, 2, true, true, true⟩] }])) } :
        ToolState ℝ)) := by
  apply rotate_unrotate_restores_coords 60
  · show curLines _ ≠ []
    simp [curLines, updAt]
  · show ((curLines _).getD 0 default).points ≠ []
    simp [curLines, updAt]
  · show ((curLines _).getD _ default).points ≠ []
    simp [curLines, updAt]

/-! ## C2: coordinates of the initial placement

On a freshly constructed tool `config.currentTool` is `-1`
(`defaultToolConfiguration()`), and `addNewMeasurement` never changes it
before the first `generateMainPrimaryLine` call, whose first-line branch
anchors the column at `position.x + config.currentTool * this.spacing`.
The very first grid is therefore anchored one spacing to the *left* of the
supplied position: the claimed coordinates hold for lines 1 and 2 but not
for line 0 (and `completeDrawing` only afterwards resets `currentTool`
to `0`). -/

set_option maxRecDepth 4000

/-- C2 counterexample: building a fresh grid (fresh tool, defaults 3×3,
spacing 5) anchored at `(0,0)` does *not* produce the claimed coordinates
`(0,0),(0,5),(0,10) / (5,·) / (10,·)`. -/
theorem placement_anchor_claim_false :
    ((curLines (addNewMeasurement ((0 : ℚ), 0) (initialToolState 3 3 0))).map
      (fun l => l.points.map (fun p => (p.x, p.y, p.isCommonPoint)))) ≠
    [[(0, 0, true), (0, 5, true), (0, 10, true)],
     [(5, 0, true), (5, 5, true), (5, 10, true)],
     [(10, 0, true), (10, 5, true), (10, 10, true)]] := by decide

/-! ## C7: setter input validation -/

/-- C7: every public configuration setter throws on a value of the wrong
type (numeric setters on non-numbers, boolean setters on non-booleans), and
a numeric value out of range (`spacing < 1`, line counts `< 2`, angle
outside `0–90`) is silently ignored with the state returned completely
unchanged.  (`NaN`, which JS also silently ignores, has no counterpart in an
ordered field.) -/
theorem setter_validation [FloorRing K] (M : JSMath K) (st : ToolState K) :
    (∀ v : JSVal K, (∀ q, v ≠ .num q) → ∃ e, set_spacing v st = .thrown e st) ∧
    (∀ q : K, q < 1 → set_spacing (.num q) st = .ok st) ∧
    (∀ v : JSVal K, (∀ q, v ≠ .num q) → ∃ e, set_noOfPrimaryLines v st = .thrown e st) ∧
    (∀ q : K, q < 2 → set_noOfPrimaryLines (.num q) st = .ok st) ∧
    (∀ v : JSVal K, (∀ q, v ≠ .num q) → ∃ e, set_noOfSecondaryLines v st = .thrown e st) ∧
    (∀ q : K, q < 2 → set_noOfSecondaryLines (.num q) st = .ok st) ∧
    (∀ v : JSVal K, (∀ q, v ≠ .num q) → ∃ e, set_angle M v st = .thrown e st) ∧
    (∀ q : K, q < 0 ∨ 90 < q → set_angle M (.num q) st = .ok st) ∧
    (∀ v : JSVal K, (∀ b, v ≠ .bool b) → ∃ e, set_showRefinementPoints v st = .thrown e st) ∧
    (∀ v : JSVal K, (∀ b, v ≠ .bool b) → ∃ e, set_moveOneHandleOnly v st = .thrown e st) := by
  refine ⟨?_, ?_, ?_, ?_, ?_, ?_, ?_, ?_, ?_, ?_⟩
  · rintro (q | b | _) h
    · exact absurd rfl (h q)
    · exact ⟨_, rfl⟩
    · exact ⟨_, rfl⟩
  · intro q hq
    simp [set_spacing, hq]
  · rintro (q | b | _) h
    · exact absurd rfl (h q)
    · exact ⟨_, rfl⟩
    · exact ⟨_, rfl⟩
  · intro q hq
    simp [set_noOfPrimaryLines, hq]
  · rintro (q | b | _) h
    · exact absurd rfl (h q)
    · exact ⟨_, rfl⟩
    · exact ⟨_, rfl⟩
  · intro q hq
    simp [set_noOfSecondaryLines, hq]
  · rintro (q | b | _) h
    · exact absurd rfl (h q)
    · exact ⟨_, rfl⟩
    · exact ⟨_, rfl⟩
  · intro q hq
    simp only [set_angle]
    rw [if_pos hq]
  · rintro (q | b | _) h
    · exact ⟨_, rfl⟩
    · exact absurd rfl (h b)
    · exact ⟨_, rfl⟩
  · rintro (q | b | _) h
    · exact ⟨_, rfl⟩
    · exact absurd rfl (h b)
    · exact ⟨_, rfl⟩

/-- Witness for C7 at a concrete state: a boolean handed to the spacing
setter throws, spacing `0` is silently ignored, angle `91` is silently
ignored. -/
theorem setter_validation_witness :
    (∃ e, set_spacing (.bool true) (initialToolState (K := ℚ) 3 3 0) =
      .thrown e (initialToolState (K := ℚ) 3 3 0)) ∧
    set_spacing (.num 0) (initialToolState (K := ℚ) 3 3 0) =
      .ok (initialToolState (K := ℚ) 3 3 0) ∧
    set_angle ⟨id, id, id, id, 3⟩ (.num 91) (initialToolState (K := ℚ) 3 3 0) =
      .ok (initialToolState (K := ℚ) 3 3 0) := by
  have h := setter_validation (K := ℚ) ⟨id, id, id, id, 3⟩ (initialToolState 3 3 0)
  exact ⟨h.1 (.bool true) (fun q hq => JSVal.noConfusion hq), h.2.1 0 (by norm_num),
    h.2.2.2.2.2.2.2.1 91 (Or.inr (by norm_num))⟩

/-- C2 amended: the first line is anchored at
`anchor + (currentTool · spacing, 0) = (-5, 0)` (fresh tool,
`currentTool = -1`), and each later main line repeats the offset `(5, 0)`:
the grid built by initial placement at `(0,0)` is
`(-5,·) / (0,·) / (5,·)` with the claimed column spacing `5`. -/
theorem placement_anchor_amended :
    ((curLines (addNewMeasurement ((0 : ℚ), 0) (initialToolState 3 3 0))).map
      (fun l => l.points.map (fun p => (p.x, p.y, p.isCommonPoint)))) =
    [[(-5, 0, true), (-5, 5, true), (-5, 10, true)],
     [(0, 0, true), (0, 5, true), (0, 10, true)],
     [(5, 0, true), (5, 5, true), (5, 10, true)]] := by decide

/-! ## C3: enabling refinement on the concrete 3×3 grid -/

/-- C3: starting from the un-refined grid with 3 main lines of 3 common
points each built by initial placement, the `showRefinementPoints` setter
with `true` (subdivision factor 4) yields a total primary-line count of
`(3-1)·4+1 = 9` and gives every main line (array index `i` with
`i % 4 = 0`) exactly `(3-1)·4+1 = 9` points. -/
theorem refinement_enable_concrete_counts :
    set_showRefinementPoints (.bool true)
        (addNewMeasurement ((0 : ℚ), 0) (initialToolState 3 3 0)) =
      .ok (applyShowRefinementPoints true
        (addNewMeasurement ((0 : ℚ), 0) (initialToolState 3 3 0))) ∧
    totalNoOfPrimaryLines (curLines (applyShowRefinementPoints true
      (addNewMeasurement ((0 : ℚ), 0) (initialToolState 3 3 0)))) = some 9 ∧
    ∀ i < 9, i % 4 = 0 →
      ((curLines (applyShowRefinementPoints true
        (addNewMeasurement ((0 : ℚ), 0) (initialToolState 3 3 0)))).getD i
          default).points.length = 9 :=
  ⟨rfl, by decide, by decide⟩

/-! ## C4: refinement toggle roundtrip -/

/-- C4: for every grid with refinement disabled (a plain grid of common
points, with the current image's per-image flag not already `true`), setting
`showRefinementPoints` to `true` and then back to `false` restores the
stored line list exactly — in particular the same number of lines, the same
number of points per line, the same coordinates, and `isCommonPoint = true`
on every remaining point. -/
theorem refinement_toggle_roundtrip (st : ToolState K) (s : Nat) (hs : 1 ≤ s)
    (hne : curLines st ≠ [])
    (hmem : ∀ l ∈ curLines st, l.points.length = s ∧ AllCommon l.points)
    (hflag : st.config.showRefinementPerImage st.currentImage ≠ some true)
    (st1 st2 : ToolState K)
    (h1 : set_showRefinementPoints (.bool true) st = .ok st1)
    (h2 : set_showRefinementPoints (.bool false) st1 = .ok st2) :
    curLines st2 = curLines st := by
  have e1 : st1 = applyShowRefinementPoints true st := by
    have h1' : JSOutcome.ok (applyShowRefinementPoints true st) = JSOutcome.ok st1 := h1
    injection h1' with e
    exact e.symm
  have e2 : st2 = applyShowRefinementPoints false st1 := by
    have h2' : JSOutcome.ok (applyShowRefinementPoints false st1) = JSOutcome.ok st2 := h2
    injection h2' with e
    exact e.symm
  subst e1
  subst e2
  have hcur1 : curLines (applyShowRefinementPoints true st) = blockify (curLines st) := by
    rw [curLines_applyShow_ne true st hflag, if_pos rfl]
    exact enable_eq_blockify s hs (curLines st) hne hmem
  have hflag1 : (applyShowRefinementPoints true st).config.showRefinementPerImage
      ((applyShowRefinementPoints true st).currentImage) ≠ some false := by
    rw [(flag_applyShow true st hflag).1]
    simp
  rw [curLines_applyShow_ne false _ hflag1, if_neg (by simp), hcur1]
  exact removeAll_blockify s hs (curLines st) hne hmem

/-- Witness for C4 at a concrete two-line, one-common-point-per-line grid. -/
theorem refinement_toggle_roundtrip_witness :
    curLines (applyShowRefinementPoints false (applyShowRefinementPoints true
      ({ config := defaultToolConfiguration 2 1
         store := updAt (fun _ => none) 0
           (some (.full [{ uuid := none, points := [⟨0, 0, true, true, true⟩] },
                         { uuid := none, points := [⟨5, 0, true, true, true⟩] }])) } :
        ToolState ℚ))) =
    curLines
      ({ config := defaultToolConfiguration 2 1
         store := updAt (fun _ => none) 0
           (some (.full [{ uuid := none, points := [⟨0, 0, true, true, true⟩] },
                         { uuid := none, points := [⟨5, 0, true, true, true⟩] }])) } :
        ToolState ℚ) :=
  refinement_toggle_roundtrip _ 1 (by decide) (by decide) (by decide) (by decide) _ _ rfl rfl



/-! ## C1: preservation of the structural invariant, call by call -/

theorem invariants_transfer (st st' : ToolState K)
    (hshape : gridShape (curLines st') = gridShape (curLines st))
    (hg : st'.config.showRefinementGlobal = st.config.showRefinementGlobal)
    (hpi : st'.config.showRefinementPerImage = st.config.showRefinementPerImage)
    (him : st'.currentImage = st.currentImage)
    (h : Invariants st) : Invariants st' := by
  rcases h with h0 | ⟨hflag, huuid, s, p, hs, hp, hshp⟩
  · left
    have hnil : gridShape (curLines st') = [] := by
      rw [hshape, h0]
      rfl
    cases hls : curLines st' with
    | nil => rfl
    | cons a as =>
      rw [hls] at hnil
      exact absurd hnil (by simp [gridShape])
  · right
    refine ⟨by rw [hpi, him, hg]; exact hflag,
      uuidNone_of_gridShape hshape huuid, s, p, hs, hp, ?_⟩
    rw [hg]
    by_cases hgb : st.config.showRefinementGlobal = true
    · rw [if_pos hgb]
      rw [if_pos hgb] at hshp
      exact refLines_of_gridShape hshp hshape
    · rw [if_neg hgb]
      rw [if_neg hgb] at hshp
      exact plainLines_of_gridShape hshp hshape

theorem curLines_removeGrid (st : ToolState K) : curLines (removeGrid st) = [] := by
  simp [removeGrid, curLines, setCurLines, updAt]

theorem invariants_removeGrid (st : ToolState K) : Invariants (removeGrid st) :=
  Or.inl (curLines_removeGrid st)

theorem invariants_rotateGridOp (c s : K) (st : ToolState K) (h : Invariants st) :
    Invariants (rotateGridOp c s st) := by
  rw [rotateGridOp]
  split
  · exact h
  · refine invariants_transfer st _ ?_ ?_ ?_ ?_ h
    · rw [curLines_completeDrawing_shape, curLines_setCurLines, gridShape_rotateGrid,
        curLines_activateDraw]
    · rw [(flags_completeDrawing _).1, config_setCurLines, (flags_activateDraw st).1]
    · rw [(flags_completeDrawing _).2.1, config_setCurLines, (flags_activateDraw st).2]
    · rw [(flags_completeDrawing _).2.2, currentImage_setCurLines, currentImage_activateDraw]

theorem invariants_setOffsetOp (x y : K) (m : Bool) (st : ToolState K) (h : Invariants st) :
    Invariants (setOffsetOp x y m st) := by
  refine invariants_transfer st _ ?_ rfl rfl rfl h
  show gridShape (curLines (setCurLines st _)) = _
  rw [curLines_setCurLines, gridShape_setOffset]

theorem invariants_onSpacingChange (q : K) (st : ToolState K) (h : Invariants st) :
    Invariants (onSpacingChange q st) := by
  rw [onSpacingChange]
  split
  · exact h
  · refine invariants_transfer st _ ?_ ?_ ?_ ?_ h
    · rw [curLines_completeDrawing_shape]
      simp only [curLines_config_update, curLines_setCurLines, curLines_activateDraw,
        gridShape_onSpacingChangeLines]
    · rw [(flags_completeDrawing _).1]
      show (activateDraw st).config.showRefinementGlobal = _
      exact (flags_activateDraw st).1
    · rw [(flags_completeDrawing _).2.1]
      show (activateDraw st).config.showRefinementPerImage = _
      exact (flags_activateDraw st).2
    · rw [(flags_completeDrawing _).2.2]
      rfl

theorem invariants_set_spacing (q : K) (st st' : ToolState K) (h : Invariants st)
    (hok : set_spacing (.num q) st = .ok st') : Invariants st' := by
  simp only [set_spacing] at hok
  split at hok
  · cases hok
    exact h
  · cases hok
    exact invariants_onSpacingChange q st h

theorem uuidNone_blockify : ∀ (ms : List (PrimaryLine K)), UuidNone ms →
    UuidNone (blockify ms) := by
  intro ms
  induction ms with
  | nil => exact fun h => h
  | cons m ms ih =>
    intro h
    cases ms with
    | nil =>
      intro l hl
      rw [List.mem_singleton.mp hl]
      exact h m (List.mem_cons_self m _)
    | cons m2 rest =>
      intro l hl
      have hbl : blockify (m :: m2 :: rest) =
          { m with points := refineBlocks m.points } ::
          subsidiaryLineBetween 1 m m2 :: subsidiaryLineBetween 2 m m2 ::
          subsidiaryLineBetween 3 m m2 :: blockify (m2 :: rest) := rfl
      rw [hbl] at hl
      rcases List.mem_cons.mp hl with rfl | hl
      · exact h m (List.mem_cons_self m _)
      · rcases List.mem_cons.mp hl with rfl | hl
        · rfl
        · rcases List.mem_cons.mp hl with rfl | hl
          · rfl
          · rcases List.mem_cons.mp hl with rfl | hl
            · rfl
            · exact ih (fun l' hl' => h l' (List.mem_cons_of_mem _ hl')) l hl

theorem removeAll_refLines_plain {s p : Nat} (hs : 1 ≤ s) {ls : List (PrimaryLine K)}
    (h : RefLines s ls p) :
    PlainLines s (removeAllRefinementPoints ls) p ∧
    (UuidNone ls → UuidNone (removeAllRefinementPoints ls)) := by
  rw [removeAll_refLines s p hs ls h]
  refine ⟨⟨by rw [List.length_map, refLines_filter_count h], ?_⟩, ?_⟩
  · intro l hl
    obtain ⟨l0, hl0, rfl⟩ := List.mem_map.mp hl
    have hmem := List.mem_of_mem_filter hl0
    have hhead := List.of_mem_filter hl0
    rcases RefLines.mem_shape h l0 hmem with hmain | hsub
    · exact ⟨MainPts.filter_length hmain, fun q hq => (List.mem_filter.mp hq).2⟩
    · rw [isCommonHead_of_subLine hsub] at hhead
      exact absurd hhead (by simp)
  · intro hu l hl
    obtain ⟨l0, hl0, rfl⟩ := List.mem_map.mp hl
    exact hu l0 (List.mem_of_mem_filter hl0)

theorem invariants_applyShow (b : Bool) (st : ToolState K) (h : Invariants st) :
    Invariants (applyShowRefinementPoints b st) := by
  by_cases hcase : st.config.showRefinementPerImage st.currentImage = some b
  · rw [applyShow_skip b st hcase]
    exact h
  have hlines := curLines_applyShow_ne b st hcase
  have hglobal := global_applyShow b st hcase
  have hflag := flag_applyShow b st hcase
  rcases h with h0 | ⟨hflag0, huuid, s, p, hs, hp, hshp⟩
  · -- empty grid: both branches keep the line list empty
    left
    rw [hlines, h0]
    cases b
    · rfl
    · rfl
  · right
    by_cases hgb : st.config.showRefinementGlobal = true
    · -- refined grid and flags coupled, so the only flag-changing value is `false`
      have hb : b = false := by
        cases b
        · rfl
        · rw [hgb] at hflag0
          exact absurd hflag0 hcase
      subst hb
      rw [if_pos hgb] at hshp
      rw [if_neg (by simp)] at hlines
      have hplain := removeAll_refLines_plain (by omega : 1 ≤ s) hshp
      refine ⟨by rw [hglobal]; exact hflag.1, ?_, s, p, hs, hp, ?_⟩
      · rw [hlines]
        exact hplain.2 huuid
      · rw [hglobal, if_neg (by simp), hlines]
        exact hplain.1
    · -- plain grid, so the only flag-changing value is `true`
      have hgb' : st.config.showRefinementGlobal = false := by
        cases hgbb : st.config.showRefinementGlobal
        · rfl
        · exact absurd hgbb hgb
      have hb : b = true := by
        cases b
        · rw [hgb'] at hflag0
          exact absurd hflag0 hcase
        · rfl
      subst hb
      rw [if_neg hgb] at hshp
      rw [if_pos rfl] at hlines
      have hne : curLines st ≠ [] := ne_nil_of_plainLines (by omega) hshp
      have hmem : ∀ l ∈ curLines st, l.points.length = s ∧ AllCommon l.points :=
        fun l hl => hshp.2 l hl
      have henable := enable_eq_blockify s (by omega) (curLines st) hne hmem
      rw [henable] at hlines
      refine ⟨by rw [hglobal]; exact hflag.1, ?_, s, p, hs, hp, ?_⟩
      · rw [hlines]
        exact uuidNone_blockify (curLines st) huuid
      · rw [hglobal, if_pos rfl, hlines]
        have hbl := blockify_refLines s (by omega) (curLines st) hne hmem
        rw [hshp.1] at hbl
        exact hbl

theorem invariants_set_showRefinementPoints (b : Bool) (st st' : ToolState K)
    (h : Invariants st) (hok : set_showRefinementPoints (.bool b) st = .ok st') :
    Invariants st' := by
  simp only [set_showRefinementPoints] at hok
  cases hok
  exact invariants_applyShow b st h

/-! ### The `set noOfPrimaryLines` growing loop on an unrefined grid -/

theorem uuidNone_dropLast {ls : List (PrimaryLine K)} (h : UuidNone ls) :
    UuidNone ls.dropLast :=
  fun l hl => h l (List.dropLast_subset _ hl)

theorem plainLines_dropLast {s p : Nat} {ls : List (PrimaryLine K)}
    (h : PlainLines s ls p) : PlainLines s ls.dropLast (p - 1) :=
  ⟨by rw [List.length_dropLast, h.1], fun l hl => h.2 l (List.dropLast_subset _ hl)⟩

theorem growPrimaryOnce_plain {s p : Nat} (sp : K) (ct : Int) (sd : Nat)
    (hs : 1 ≤ s) (hp : 1 ≤ p) {ls : List (PrimaryLine K)}
    (h : PlainLines s ls p) (hu : UuidNone ls) :
    ∃ ls', growPrimaryOnce false sp ct sd ls = .ok ls' ∧
      PlainLines s ls' (p + 1) ∧ UuidNone ls' := by
  have hne : ls ≠ [] := ne_nil_of_plainLines hp h
  obtain ⟨newpts, hgen, hlen, hcom⟩ := generateMain_append sp ct sd ls none hne
  rw [if_pos (show (none : Option (K × K)).isNone = true from rfl),
    noOfSecondaryLines_plain hp h, Option.getD_some] at hlen
  refine ⟨ls ++ [{ uuid := none, active := false, points := newpts }], ?_, ?_, ?_⟩
  · rw [growPrimaryOnce, hgen]
    rfl
  · exact plainLines_append_one h _ ⟨hlen, hcom⟩
  · exact uuidNone_append_one hu _ rfl

theorem growPrimaryLoop_plain (sp : K) (ct : Int) (sd : Nat) (n : K) {s : Nat}
    (hs : 1 ≤ s) :
    ∀ (fuel e : Nat) (ls : List (PrimaryLine K)), 1 ≤ e →
      PlainLines s ls e → UuidNone ls →
      ∀ ls', growPrimaryLoop false sp ct sd n fuel e ls = .ok ls' →
      ∃ p', e ≤ p' ∧ PlainLines s ls' p' ∧ UuidNone ls' := by
  intro fuel
  induction fuel with
  | zero =>
    intro e ls he h hu ls' heq
    simp only [growPrimaryLoop] at heq
    cases heq
    exact ⟨e, le_refl e, h, hu⟩
  | succ fuel ih =>
    intro e ls he h hu ls' heq
    rw [growPrimaryLoop] at heq
    split at heq
    · obtain ⟨ls1, hstep, h1, hu1⟩ := growPrimaryOnce_plain sp ct sd hs he h hu
      rw [hstep] at heq
      obtain ⟨p', hle, h', hu'⟩ := ih (e + 1) ls1 (by omega) h1 hu1 ls' heq
      exact ⟨p', by omega, h', hu'⟩
    · cases heq
      exact ⟨e, le_refl e, h, hu⟩

theorem shrinkPrimaryLoop_plain (n : K) {s : Nat} (hn : (2 : K) ≤ n) :
    ∀ (fuel e : Nat) (ls : List (PrimaryLine K)), 2 ≤ e →
      PlainLines s ls e → UuidNone ls →
      ∃ p', 2 ≤ p' ∧ PlainLines s (shrinkPrimaryLoop false n fuel e ls) p' ∧
        UuidNone (shrinkPrimaryLoop false n fuel e ls) := by
  intro fuel
  induction fuel with
  | zero =>
    intro e ls he h hu
    exact ⟨e, he, h, hu⟩
  | succ fuel ih =>
    intro e ls he h hu
    rw [shrinkPrimaryLoop]
    split
    · rename_i hlt
      have he3 : 3 ≤ e := by
        rcases Nat.lt_or_ge e 3 with h3 | h3
        · have he2 : e = 2 := by omega
          subst he2
          have hcast : ((2 : Nat) : K) = (2 : K) := by push_cast; ring
          rw [hcast] at hlt
          exact absurd hlt (not_lt.mpr hn)
        · exact h3
      have hrem : removeLastPrimaryLine false ls = ls.dropLast := rfl
      rw [hrem]
      have h1 := plainLines_dropLast h
      exact ih (e - 1) ls.dropLast (by omega) h1 (uuidNone_dropLast hu)
    · exact ⟨e, he, h, hu⟩

theorem growPrimaryLoop_nil (ref : Bool) (sp : K) (ct : Int) (sd : Nat) (n : K) :
    ∀ (fuel e : Nat) (ls' : List (PrimaryLine K)),
      growPrimaryLoop ref sp ct sd n fuel e [] = .ok ls' → ls' = [] := by
  intro fuel
  induction fuel with
  | zero =>
    intro e ls' h
    simp only [growPrimaryLoop] at h
    cases h
    rfl
  | succ fuel ih =>
    intro e ls' h
    rw [growPrimaryLoop] at h
    split at h
    · have hbad : growPrimaryOnce ref sp ct sd ([] : List (PrimaryLine K)) =
          .error [({} : PrimaryLine K)] := by
        rw [growPrimaryOnce]
        rfl
      rw [hbad] at h
      cases h
    · cases h
      rfl

theorem shrinkPrimaryLoop_nil (ref : Bool) (n : K) :
    ∀ (fuel e : Nat), shrinkPrimaryLoop ref n fuel e [] = [] := by
  intro fuel
  induction fuel with
  | zero => intro e; rfl
  | succ fuel ih =>
    intro e
    rw [shrinkPrimaryLoop]
    split
    · have hrem : removeLastPrimaryLine ref ([] : List (PrimaryLine K)) = [] := by
        rw [removeLastPrimaryLine]
        split <;> rfl
      rw [hrem]
      exact ih (e - 1)
    · rfl

/-! ### Navigation on a grid extended by one fresh main line -/

theorem getPreviousMain_append_last (ls : List (PrimaryLine K)) (m : PrimaryLine K)
    (hm : isCommonHead m = true) :
    getPreviousMainPrimaryLine (ls ++ [m]) (ls.length + 1) = some ls.length := by
  rw [getPreviousMainPrimaryLine]
  rw [show (ls ++ [m]).getD ls.length default = m from by
    have := getD_append_length ls [m] 0
    simpa using this]
  rw [hm]
  rfl

theorem getNextMain_of_ge (ls : List (PrimaryLine K)) (i : Nat)
    (h : ls.length ≤ i + 1) : getNextMainPrimaryLine ls i = none := by
  rw [getNextMainPrimaryLine, List.drop_eq_nil_of_le h]
  rfl

theorem getAllMain_last (ls : List (PrimaryLine K)) (L : Nat) (hL : ls.length = L + 1) :
    getAllMainPrimaryLines ls (some L) = [L] := by
  rw [getAllMainPrimaryLines]
  rw [show mainChainFrom ls ls.length L = [] from by
    rw [hL, mainChainFrom, getNextMain_of_ge ls L (by omega)]]

/-! ### Counting the common slots visited by the subsidiary-point scan -/

theorem filterMap_getD_common_length {β : Type} :
    ∀ (pts : List (GridPoint K)) (f : Nat → Option β),
      (∀ i, i < pts.length →
        ((pts.getD i default).isCommonPoint = true → (f i).isSome = true) ∧
        ((pts.getD i default).isCommonPoint = false → f i = none)) →
      ((List.range pts.length).filterMap f).length =
        (pts.filter (·.isCommonPoint)).length := by
  intro pts
  induction pts with
  | nil => intro f _; rfl
  | cons p rest ih =>
    intro f hf
    rw [List.length_cons, List.range_succ_eq_map, List.filterMap_cons, List.filterMap_map,
      List.filter_cons]
    have hhead := hf 0 (Nat.succ_pos rest.length)
    have htail := ih (f ∘ Nat.succ) (fun i hi => hf (i + 1) (Nat.succ_lt_succ hi))
    cases hpc : p.isCommonPoint with
    | false =>
      have h0 : f 0 = none := hhead.2 hpc
      rw [h0, if_neg (by simp [hpc])]
      exact htail
    | true =>
      obtain ⟨b, hb⟩ := Option.isSome_iff_exists.mp (hhead.1 hpc)
      rw [hb, if_pos (by simp [hpc])]
      show (b :: List.filterMap (f ∘ Nat.succ) (List.range rest.length)).length = _
      rw [List.length_cons, List.length_cons, htail]

theorem modify_zero_cons {α : Type} (f : α → α) (a : α) (l : List α) :
    List.modify f 0 (a :: l) = f a :: l := rfl

theorem modify_one_five {α : Type} (f : α → α) (a b c d e : α) :
    List.modify f 1 [a, b, c, d, e] = [a, f b, c, d, e] := rfl

theorem modify_two_five {α : Type} (f : α → α) (a b c d e : α) :
    List.modify f 2 [a, b, c, d, e] = [a, b, f c, d, e] := rfl

theorem modify_three_five {α : Type} (f : α → α) (a b c d e : α) :
    List.modify f 3 [a, b, c, d, e] = [a, b, c, f d, e] := rfl

/-! ### One subsidiary-line generation call between the two last main lines -/

theorem subsidiary_between_last {s : Nat} (hs : 1 ≤ s)
    (F : List (PrimaryLine K)) (m m2 : PrimaryLine K)
    (hm : MainPts s m.points) (hm2 : isCommonHead m2 = true)
    (htot : totalNoOfSecondaryLines (F ++ [m, m2]) = some (4 * (s - 1) + 1)) :
    ∃ a b c : PrimaryLine K,
      generateSubsidiaryPrimaryLine F.length none true (F ++ [m, m2]) =
        F ++ [m, a, b, c, m2] ∧
      SubLine s a ∧ SubLine s b ∧ SubLine s c ∧
      a.uuid = none ∧ b.uuid = none ∧ c.uuid = none := by
  have hnext : getNextMainPrimaryLine (F ++ [m, m2]) F.length = some (F.length + 1) :=
    getNextMain_append F m m2 [] hm2
  have hfrom : (F ++ [m, m2]).getD F.length default = m := by
    simpa using getD_append_length F [m, m2] 0
  have hto : (F ++ [m, m2]).getD (F.length + 1) default = m2 := by
    simpa using getD_append_length F [m, m2] 1
  have hmlen : m.points.length = 4 * (s - 1) + 1 := hm.length_eq
  have h1 : addNewMeasurementToState (F ++ [m, m2]) (some (F.length + 1)) =
      F ++ [m, {}, m2] := by
    rw [addNewMeasurementToState]
    rw [show min (F.length + 1) (F ++ [m, m2]).length = F.length + 1 from by
      simp [List.length_append]]
    exact insertIdx_append_length F 1 {} [m, m2]
  have h2 : addNewMeasurementToState (F ++ [m, {}, m2]) (some (F.length + 2)) =
      F ++ [m, {}, {}, m2] := by
    rw [addNewMeasurementToState]
    rw [show min (F.length + 2) (F ++ [m, {}, m2]).length = F.length + 2 from by
      simp [List.length_append]]
    exact insertIdx_append_length F 2 {} [m, {}, m2]
  have h3 : addNewMeasurementToState (F ++ [m, {}, {}, m2]) (some (F.length + 3)) =
      F ++ [m, {}, {}, {}, m2] := by
    rw [addNewMeasurementToState]
    rw [show min (F.length + 3) (F ++ [m, {}, {}, m2]).length = F.length + 3 from by
      simp [List.length_append]]
    exact insertIdx_append_length F 3 {} [m, {}, {}, m2]
  rw [generateSubsidiaryPrimaryLine,
    if_neg (by rw [isEmpty_eq_false_of_ne_nil _ (by simp)]; exact Bool.false_ne_true)]
  simp only [htot, Option.getD_some, Option.getD_none, Nat.sub_zero, hnext, hfrom, hto,
    if_pos, h1, h2, h3]
  set B : Nat → List (PendingPoint K) := fun subIdx =>
    List.filterMap
      (fun pointIdx =>
        if (!(m.points.getD pointIdx default).isCommonPoint) = true then none
        else
          some
            { x := (m.points.getD pointIdx default).x +
                ((m2.points.getD pointIdx default).x - (m.points.getD pointIdx default).x) / 4 *
                  ((subIdx : K) + 1),
              y := (m.points.getD pointIdx default).y +
                ((m2.points.getD pointIdx default).y - (m.points.getD pointIdx default).y) / 4 *
                  ((subIdx : K) + 1),
              lineIdx := F.length + subIdx + 1, isCommonPoint := false })
      (List.range' 0 (4 * (s - 1) + 1)) with hB
  have hBmem : ∀ (j : Nat), ∀ q ∈ B j, q.lineIdx = F.length + j + 1 := by
    intro j q hq
    simp only [hB] at hq
    obtain ⟨i, hi, hqi⟩ := List.mem_filterMap.mp hq
    split at hqi
    · cases hqi
    · cases hqi
      rfl
  have hBref : ∀ (j : Nat), ∀ q ∈ B j, q.isCommonPoint = false := by
    intro j q hq
    simp only [hB] at hq
    obtain ⟨i, hi, hqi⟩ := List.mem_filterMap.mp hq
    split at hqi
    · cases hqi
    · cases hqi
      rfl
  have hBlen : ∀ (j : Nat), (B j).length = s := by
    intro j
    simp only [hB]
    rw [show List.range' 0 (4 * (s - 1) + 1) = List.range m.points.length from by
      rw [hmlen]
      exact (List.range_eq_range' _).symm]
    refine Eq.trans (filterMap_getD_common_length m.points _ ?_) (MainPts.filter_length hm)
    intro i hi
    refine ⟨fun hc => ?_, fun hc => ?_⟩
    · rw [if_neg (by rw [hc]; simp)]
      rfl
    · rw [if_pos (by rw [hc]; rfl)]
  refine ⟨{ uuid := none, active := false,
              points := (B 0).map
                (fun q => (⟨q.x, q.y, q.isCommonPoint, true, true⟩ : GridPoint K)) },
    { uuid := none, active := false,
        points := (B 1).map
          (fun q => (⟨q.x, q.y, q.isCommonPoint, true, true⟩ : GridPoint K)) },
    { uuid := none, active := false,
        points := (B 2).map
          (fun q => (⟨q.x, q.y, q.isCommonPoint, true, true⟩ : GridPoint K)) },
    ?heq, ?hsa, ?hsb, ?hsc, rfl, rfl, rfl⟩
  case heq =>
    rw [show List.range 3 = [0, 1, 2] from rfl]
    rw [show ([0, 1, 2] : List Nat).flatMap B = B 0 ++ (B 1 ++ (B 2 ++ [])) from rfl]
    rw [List.append_nil]
    rw [addPoints_append, addPoints_append]
    rw [addPoints_const_line (F.length + 0 + 1) (B 0) _ (hBmem 0)]
    rw [show F.length + 0 + 1 = F.length + 1 from rfl]
    rw [modify_append_length F _ 1 [m, {}, {}, {}, m2]]
    rw [modify_one_five]
    rw [addPoints_const_line (F.length + 1 + 1) (B 1) _ (hBmem 1)]
    rw [show F.length + 1 + 1 = F.length + 2 from rfl]
    rw [modify_append_length F _ 2]
    rw [modify_two_five]
    rw [addPoints_const_line (F.length + 2 + 1) (B 2) _ (hBmem 2)]
    rw [show F.length + 2 + 1 = F.length + 3 from rfl]
    rw [modify_append_length F _ 3]
    rw [modify_three_five]
    rfl
  case hsa =>
    refine ⟨?_, ?_⟩
    · show (List.map _ (B 0)).length = s
      rw [List.length_map]
      exact hBlen 0
    · intro gp hgp
      have hgp' : gp ∈ (B 0).map
          (fun q => (⟨q.x, q.y, q.isCommonPoint, true, true⟩ : GridPoint K)) := hgp
      obtain ⟨q, hq, rfl⟩ := List.mem_map.mp hgp'
      exact hBref 0 q hq
  case hsb =>
    refine ⟨?_, ?_⟩
    · show (List.map _ (B 1)).length = s
      rw [List.length_map]
      exact hBlen 1
    · intro gp hgp
      have hgp' : gp ∈ (B 1).map
          (fun q => (⟨q.x, q.y, q.isCommonPoint, true, true⟩ : GridPoint K)) := hgp
      obtain ⟨q, hq, rfl⟩ := List.mem_map.mp hgp'
      exact hBref 1 q hq
  case hsc =>
    refine ⟨?_, ?_⟩
    · show (List.map _ (B 2)).length = s
      rw [List.length_map]
      exact hBlen 2
    · intro gp hgp
      have hgp' : gp ∈ (B 2).map
          (fun q => (⟨q.x, q.y, q.isCommonPoint, true, true⟩ : GridPoint K)) := hgp
      obtain ⟨q, hq, rfl⟩ := List.mem_map.mp hgp'
      exact hBref 2 q hq


/-! ### Refining the freshly appended main line -/

theorem modify_append_self {α : Type} (F : List α) (f : α → α) (l : List α) :
    List.modify f F.length (F ++ l) = F ++ List.modify f 0 l := by
  have h := modify_append_length F f 0 l
  simpa using h

theorem noOfSecondaryLines_append (ls tl : List (PrimaryLine K)) (h : ls ≠ []) :
    noOfSecondaryLines (ls ++ tl) = noOfSecondaryLines ls := by
  cases ls with
  | nil => exact absurd rfl h
  | cons a as => rfl

theorem totalNoOfSecondaryLines_append (ls tl : List (PrimaryLine K)) (h : ls ≠ []) :
    totalNoOfSecondaryLines (ls ++ tl) = totalNoOfSecondaryLines ls := by
  cases ls with
  | nil => exact absurd rfl h
  | cons a as => rfl

theorem totalNoOfSecondaryLines_refLines {s p : Nat} {ls : List (PrimaryLine K)}
    (h : RefLines s ls p) : totalNoOfSecondaryLines ls = some (4 * (s - 1) + 1) := by
  obtain ⟨m, rest, rfl, hm⟩ := h.head_main
  show some m.points.length = _
  rw [hm.length_eq]

theorem refinePoints_last (k : Nat) (ls : List (PrimaryLine K)) (nl : PrimaryLine K)
    (hk : ls.length = k + 1) :
    generateRefinementPointsOnCurrentPrimaryLines (some (k + 1)) none (ls ++ [nl]) =
      ls ++ [{ nl with points := spliceKeyed nl.points
                                   (refineKeyedPoints nl.points 0
                                     ((noOfSecondaryLines (ls ++ [nl])).getD 0)) }] := by
  rw [generateRefinementPointsOnCurrentPrimaryLines,
    if_neg (by rw [isEmpty_eq_false_of_ne_nil _ (by simp)]; exact Bool.false_ne_true)]
  rw [if_neg (show ¬(none : Option Nat).isSome = true from by simp)]
  rw [getAllMain_last (ls ++ [nl]) (k + 1) (by simp [hk])]
  simp only [Option.getD_none, Nat.sub_zero, List.foldl_cons, List.foldl_nil]
  rw [← hk, modify_append_self ls _ [nl], modify_zero_cons]
  intro hcontr
  exact absurd (Option.some.inj hcontr) (by omega)

theorem growPrimaryOnce_refined {s p : Nat} (sp : K) (ct : Int) (sd : Nat)
    (hs : 1 ≤ s) {ls : List (PrimaryLine K)}
    (h : RefLines s ls p) (hu : UuidNone ls) :
    ∃ ls', growPrimaryOnce true sp ct sd ls = .ok ls' ∧
      RefLines s ls' (p + 1) ∧ UuidNone ls' := by
  have hne : ls ≠ [] := h.ne_nil
  obtain ⟨newpts, hgen, hlen, hcom⟩ := generateMain_append sp ct sd ls none hne
  rw [if_pos (show (none : Option (K × K)).isNone = true from rfl),
    noOfSecondaryLines_refLines h, Option.getD_some] at hlen
  set nl : PrimaryLine K := { uuid := none, active := false, points := newpts } with hnl
  have hnewne : newpts ≠ [] := by
    intro hnil
    rw [hnil] at hlen
    simp at hlen
    omega
  have hhead : isCommonHead nl = true := isCommonHead_of_allCommon nl hnewne hcom
  have hprev : getPreviousMainPrimaryLine (ls ++ [nl]) (ls.length + 1) = some ls.length :=
    getPreviousMain_append_last ls nl hhead
  obtain ⟨G, mlast, hdecomp, hmlast⟩ := h.last_main
  have hk : ls.length = G.length + 1 := by rw [hdecomp]; simp
  have hrefine := refinePoints_last G.length ls nl hk
  set nl2 : PrimaryLine K := { nl with points := spliceKeyed nl.points
                                          (refineKeyedPoints nl.points 0
                                            ((noOfSecondaryLines (ls ++ [nl])).getD 0)) }
    with hnl2
  have hsec : (noOfSecondaryLines (ls ++ [nl])).getD 0 = s := by
    rw [noOfSecondaryLines_append ls [nl] hne, noOfSecondaryLines_refLines h]
    rfl
  have hnl2pts : nl2.points = refineBlocks newpts := by
    show spliceKeyed nl.points (refineKeyedPoints nl.points 0
      ((noOfSecondaryLines (ls ++ [nl])).getD 0)) = _
    rw [hsec]
    show spliceKeyed newpts (refineKeyedPoints newpts 0 s) = _
    rw [← hlen]
    exact spliceKeyed_refine_allCommon newpts hcom
  have hmain2 : MainPts s nl2.points := by
    rw [hnl2pts, ← hlen]
    exact MainPts_refineBlocks newpts hcom hnewne
  have happ : ls ++ [nl2] = G ++ [mlast, nl2] := by rw [hdecomp]; simp
  have htot2 : totalNoOfSecondaryLines (G ++ [mlast, nl2]) = some (4 * (s - 1) + 1) := by
    rw [← happ, totalNoOfSecondaryLines_append ls [nl2] hne,
      totalNoOfSecondaryLines_refLines h]
  obtain ⟨a, b, c, hsub, hsa, hsb, hsc, hua, hub, huc⟩ :=
    subsidiary_between_last hs G mlast nl2 hmlast (isCommonHead_of_mainPts hmain2) htot2
  refine ⟨G ++ [mlast, a, b, c, nl2], ?_, ?_, ?_⟩
  · rw [growPrimaryOnce, hgen]
    show Except.ok (generateSubsidiaryPrimaryLines
        ((generateRefinementPointsOnCurrentPrimaryLines
            (getPreviousMainPrimaryLine (ls ++ [nl]) (ls ++ [nl]).length) none
            (ls ++ [nl])).length - 2)
        (((generateRefinementPointsOnCurrentPrimaryLines
            (getPreviousMainPrimaryLine (ls ++ [nl]) (ls ++ [nl]).length) none
            (ls ++ [nl])).length : Int) - 1)
        true none
        (generateRefinementPointsOnCurrentPrimaryLines
            (getPreviousMainPrimaryLine (ls ++ [nl]) (ls ++ [nl]).length) none
            (ls ++ [nl]))) =
      Except.ok (G ++ [mlast, a, b, c, nl2])
    rw [show (ls ++ [nl]).length = ls.length + 1 from by simp]
    rw [hprev, hk, hrefine]
    rw [show (ls ++ [nl2]).length = G.length + 2 from by rw [hdecomp]; simp]
    rw [show G.length + 2 - 2 = G.length from by omega]
    rw [happ, generateSubsidiaryPrimaryLines]
    rw [show (((G.length + 2 : Nat) : Int) - 1 - ((G.length : Nat) : Int)).toNat = 1 from by
      push_cast
      omega]
    rw [show List.range 1 = [0] from rfl, List.foldl_cons, List.foldl_nil]
    rw [show G.length + 4 * 0 = G.length from by omega]
    rw [hsub]
  · rw [show G ++ [mlast, a, b, c, nl2] = (G ++ [mlast]) ++ [a, b, c, nl2] from by simp,
      ← hdecomp]
    exact RefLines.snoc_block h a b c nl2 hsa hsb hsc hmain2
  · intro l hl
    rw [show G ++ [mlast, a, b, c, nl2] = (G ++ [mlast]) ++ [a, b, c, nl2] from by simp,
      ← hdecomp] at hl
    rcases List.mem_append.mp hl with hl | hl
    · exact hu l hl
    · rcases List.mem_cons.mp hl with rfl | hl
      · exact hua
      rcases List.mem_cons.mp hl with rfl | hl
      · exact hub
      rcases List.mem_cons.mp hl with rfl | hl
      · exact huc
      rw [List.mem_singleton.mp hl]

theorem dropLast_append_singleton {α : Type} (l : List α) (a : α) :
    (l ++ [a]).dropLast = l := by
  rw [List.dropLast_concat]

theorem refLines_shrink4 {s p : Nat} {ls : List (PrimaryLine K)}
    (h : RefLines s ls p) (hp : 2 ≤ p) :
    RefLines s (removeLastPrimaryLine true ls) (p - 1) := by
  rcases h.snoc_view with ⟨m, rfl, rfl, hm⟩ |
    ⟨G, a, b, c, m, pq, rfl, rfl, hG, ha, hb, hc, hm⟩
  · exact absurd hp (by omega)
  · show RefLines s (G ++ [a, b, c, m]).dropLast.dropLast.dropLast.dropLast (pq + 1 - 1)
    rw [show G ++ [a, b, c, m] = (((G ++ [a]) ++ [b]) ++ [c]) ++ [m] from by simp]
    rw [dropLast_append_singleton, dropLast_append_singleton, dropLast_append_singleton,
      dropLast_append_singleton]
    simpa using hG

theorem growPrimaryLoop_refined (sp : K) (ct : Int) (sd : Nat) (n : K) {s : Nat}
    (hs : 1 ≤ s) :
    ∀ (fuel e : Nat) (ls : List (PrimaryLine K)), 1 ≤ e →
      RefLines s ls e → UuidNone ls →
      ∀ ls', growPrimaryLoop true sp ct sd n fuel e ls = .ok ls' →
      ∃ p', e ≤ p' ∧ RefLines s ls' p' ∧ UuidNone ls' := by
  intro fuel
  induction fuel with
  | zero =>
    intro e ls he h hu ls' heq
    simp only [growPrimaryLoop] at heq
    cases heq
    exact ⟨e, le_refl e, h, hu⟩
  | succ fuel ih =>
    intro e ls he h hu ls' heq
    rw [growPrimaryLoop] at heq
    split at heq
    · obtain ⟨ls1, hstep, h1, hu1⟩ := growPrimaryOnce_refined sp ct sd hs h hu
      rw [hstep] at heq
      obtain ⟨p', hle, h', hu'⟩ := ih (e + 1) ls1 (by omega) h1 hu1 ls' heq
      exact ⟨p', by omega, h', hu'⟩
    · cases heq
      exact ⟨e, le_refl e, h, hu⟩

theorem shrinkPrimaryLoop_refined (n : K) {s : Nat} (hn : (2 : K) ≤ n) :
    ∀ (fuel e : Nat) (ls : List (PrimaryLine K)), 2 ≤ e →
      RefLines s ls e → UuidNone ls →
      ∃ p', 2 ≤ p' ∧ RefLines s (shrinkPrimaryLoop true n fuel e ls) p' ∧
        UuidNone (shrinkPrimaryLoop true n fuel e ls) := by
  intro fuel
  induction fuel with
  | zero =>
    intro e ls he h hu
    exact ⟨e, he, h, hu⟩
  | succ fuel ih =>
    intro e ls he h hu
    rw [shrinkPrimaryLoop]
    split
    · rename_i hlt
      have he3 : 3 ≤ e := by
        rcases Nat.lt_or_ge e 3 with h3 | h3
        · have he2 : e = 2 := by omega
          subst he2
          have hcast : ((2 : Nat) : K) = (2 : K) := by push_cast; ring
          rw [hcast] at hlt
          exact absurd hlt (not_lt.mpr hn)
        · exact h3
      have h1 := refLines_shrink4 h he
      have hu1 : UuidNone (removeLastPrimaryLine true ls) := by
        show UuidNone ls.dropLast.dropLast.dropLast.dropLast
        exact uuidNone_dropLast (uuidNone_dropLast (uuidNone_dropLast (uuidNone_dropLast hu)))
      exact ih (e - 1) (removeLastPrimaryLine true ls) (by omega) h1 hu1
    · exact ⟨e, he, h, hu⟩

/-- Writing a well-shaped line list back through `activateDraw` /
`completeDrawing` keeps the structural invariant. -/
theorem invariants_of_writeback (st : ToolState K) (ls1 : List (PrimaryLine K))
    (hflag : st.config.showRefinementPerImage st.currentImage
      = some st.config.showRefinementGlobal)
    (s p' : Nat) (hs : 2 ≤ s) (hp' : 2 ≤ p')
    (hshape : if st.config.showRefinementGlobal then RefLines s ls1 p'
      else PlainLines s ls1 p')
    (hu : UuidNone ls1) :
    Invariants (completeDrawing (setCurLines (activateDraw st) ls1)) := by
  right
  set st' := completeDrawing (setCurLines (activateDraw st) ls1) with hst'
  have hshape' : gridShape (curLines st') = gridShape ls1 := by
    rw [hst', curLines_completeDrawing_shape, curLines_setCurLines]
  have hg : st'.config.showRefinementGlobal = st.config.showRefinementGlobal := by
    rw [hst', (flags_completeDrawing _).1, config_setCurLines, (flags_activateDraw st).1]
  have hpi : st'.config.showRefinementPerImage = st.config.showRefinementPerImage := by
    rw [hst', (flags_completeDrawing _).2.1, config_setCurLines, (flags_activateDraw st).2]
  have him : st'.currentImage = st.currentImage := by
    rw [hst', (flags_completeDrawing _).2.2, currentImage_setCurLines,
      currentImage_activateDraw]
  refine ⟨by rw [hpi, him, hg]; exact hflag, uuidNone_of_gridShape hshape' hu,
    s, p', hs, hp', ?_⟩
  rw [hg]
  by_cases hgb : st.config.showRefinementGlobal = true
  · rw [if_pos hgb]
    rw [if_pos hgb] at hshape
    exact refLines_of_gridShape hshape hshape'
  · rw [if_neg hgb]
    rw [if_neg hgb] at hshape
    exact plainLines_of_gridShape hshape hshape'

theorem curLines_eq_nil_of_gridShape (st : ToolState K)
    (h : gridShape (curLines st) = []) : curLines st = [] := by
  cases hls : curLines st with
  | nil => rfl
  | cons x xs =>
    rw [hls] at h
    exact absurd h (by simp [gridShape])

theorem invariants_set_noOfPrimaryLines [FloorRing K] (q : K) (st st' : ToolState K)
    (h : Invariants st) (hok : set_noOfPrimaryLines (.num q) st = .ok st') :
    Invariants st' := by
  simp only [set_noOfPrimaryLines] at hok
  split at hok
  · cases hok
    exact h
  rename_i hq2
  split at hok
  · cases hok
    exact h
  rcases h with h0 | ⟨hflag, huuid, s, p, hs, hp, hshp⟩
  · -- no grid on the current image: a normal return leaves the list empty
    have hcur1 : curLines (activateDraw st) = [] := by rw [curLines_activateDraw, h0]
    rw [hcur1] at hok
    split at hok
    · split at hok
      · rename_i ls1 heq
        cases hok
        left
        have hnil := growPrimaryLoop_nil _ _ _ _ _ _ _ _ heq
        subst hnil
        refine curLines_eq_nil_of_gridShape _ ?_
        rw [curLines_completeDrawing_shape, curLines_setCurLines]
        rfl
      · rename_i ls1 heq
        cases hok
    · cases hok
      left
      refine curLines_eq_nil_of_gridShape _ ?_
      rw [curLines_completeDrawing_shape, curLines_setCurLines, shrinkPrimaryLoop_nil]
      rfl
  · -- a grid is present: the loops preserve the block structure
    have hne : curLines st ≠ [] := by
      intro hnil
      by_cases hgb : st.config.showRefinementGlobal = true
      · rw [if_pos hgb] at hshp
        rw [hnil] at hshp
        exact hshp.ne_nil rfl
      · rw [if_neg hgb] at hshp
        rw [hnil] at hshp
        have hlen := hshp.1
        simp at hlen
        omega
    have hget : get_noOfPrimaryLines st = some p := by
      rw [get_noOfPrimaryLines]
      by_cases hgb : st.config.showRefinementGlobal = true
      · rw [if_pos hgb] at hshp
        exact noOfPrimaryLines_refLines hshp
      · rw [if_neg hgb] at hshp
        exact noOfPrimaryLines_plain (by omega) (by omega) hshp
    rw [hget] at hok
    simp only [Option.getD_some] at hok
    rw [curLines_activateDraw] at hok
    have href : (get_showRefinementPoints (activateDraw st)).getD false
        = st.config.showRefinementGlobal := by
      rw [get_showRefinementPoints,
        if_neg (by rw [curLines_activateDraw, isEmpty_eq_false_of_ne_nil _ hne]; simp),
        Option.getD_some, (flags_activateDraw st).1]
    rw [href] at hok
    have hq2' : (2 : K) ≤ q := not_lt.mp hq2
    split at hok
    · split at hok
      · rename_i ls1 heq
        cases hok
        by_cases hgb : st.config.showRefinementGlobal = true
        · rw [hgb] at heq
          rw [if_pos hgb] at hshp
          obtain ⟨p', hle, h', hu'⟩ := growPrimaryLoop_refined _ _ _ q
            (show 1 ≤ s by omega) _ p _ (by omega) hshp huuid ls1 heq
          exact invariants_of_writeback st ls1 hflag s p' hs (by omega)
            (by rw [if_pos hgb]; exact h') hu'
        · have hgb' : st.config.showRefinementGlobal = false := by
            cases hgbb : st.config.showRefinementGlobal
            · rfl
            · exact absurd hgbb hgb
          rw [hgb'] at heq
          rw [if_neg hgb] at hshp
          obtain ⟨p', hle, h', hu'⟩ := growPrimaryLoop_plain _ _ _ q
            (show 1 ≤ s by omega) _ p _ (by omega) hshp huuid ls1 heq
          exact invariants_of_writeback st ls1 hflag s p' hs (by omega)
            (by rw [if_neg hgb]; exact h') hu'
      · rename_i ls1 heq
        cases hok
    · cases hok
      by_cases hgb : st.config.showRefinementGlobal = true
      · rw [hgb]
        rw [if_pos hgb] at hshp
        obtain ⟨p', hp', h', hu'⟩ := shrinkPrimaryLoop_refined q hq2' p p (curLines st)
          hp hshp huuid
        exact invariants_of_writeback st _ hflag s p' hs hp'
          (by rw [if_pos hgb]; exact h') hu'
      · have hgb' : st.config.showRefinementGlobal = false := by
          cases hgbb : st.config.showRefinementGlobal
          · rfl
          · exact absurd hgbb hgb
        rw [hgb']
        rw [if_neg hgb] at hshp
        obtain ⟨p', hp', h', hu'⟩ := shrinkPrimaryLoop_plain q hq2' p p (curLines st)
          hp hshp huuid
        exact invariants_of_writeback st _ hflag s p' hs hp'
          (by rw [if_neg hgb]; exact h') hu'

/-! ### `generateSecondaryLine` as an index-wise map -/

theorem modify_congr_at {α : Type} [Inhabited α] (f g : α → α) :
    ∀ (i : Nat) (ls : List α), f (ls.getD i default) = g (ls.getD i default) →
      List.modify f i ls = List.modify g i ls
  | 0, [], _ => rfl
  | _ + 1, [], _ => rfl
  | 0, a :: l, h => by
    rw [modify_zero_cons, modify_zero_cons, show f a = g a from h]
  | i + 1, a :: l, h => by
    rw [List.modify_succ_cons, List.modify_succ_cons, modify_congr_at f g i l h]

theorem modify_id {α : Type} : ∀ (i : Nat) (ls : List α),
    List.modify (fun a => a) i ls = ls
  | 0, [] => rfl
  | _ + 1, [] => rfl
  | 0, a :: l => rfl
  | i + 1, a :: l => by
    rw [List.modify_succ_cons, modify_id i l]

theorem mapIdx_congr_univ {α β : Type} :
    ∀ (f g : Nat → α → β), (∀ j l, f j l = g j l) → ∀ ls : List α,
      ls.mapIdx f = ls.mapIdx g := by
  intro f g h ls
  induction ls generalizing f g with
  | nil => rfl
  | cons a l ih =>
    rw [List.mapIdx_cons, List.mapIdx_cons, h 0 a,
      ih (fun i => f (i + 1)) (fun i => g (i + 1)) (fun j l => h (j + 1) l)]

theorem mapIdx_id_univ {α : Type} : ∀ (f : Nat → α → α), (∀ j l, f j l = l) →
    ∀ ls : List α, ls.mapIdx f = ls := by
  intro f h ls
  induction ls generalizing f with
  | nil => rfl
  | cons a l ih =>
    rw [List.mapIdx_cons, h 0 a, ih (fun i => f (i + 1)) (fun j l => h (j + 1) l)]

theorem mapIdx_mapIdx_univ {α β γ : Type} :
    ∀ (f : Nat → α → β) (g : Nat → β → γ) (ls : List α),
      (ls.mapIdx f).mapIdx g = ls.mapIdx (fun i a => g i (f i a)) := by
  intro f g ls
  induction ls generalizing f g with
  | nil => rfl
  | cons a l ih =>
    rw [List.mapIdx_cons, List.mapIdx_cons, List.mapIdx_cons,
      ih (fun i => f (i + 1)) (fun i => g (i + 1))]

theorem modify_eq_mapIdx {α : Type} (f : α → α) :
    ∀ (k : Nat) (ls : List α),
      List.modify f k ls = ls.mapIdx (fun j l => if j = k then f l else l)
  | 0, [] => rfl
  | _ + 1, [] => rfl
  | 0, a :: l => by
    rw [modify_zero_cons, List.mapIdx_cons, if_pos rfl,
      mapIdx_id_univ _ (fun j x => by rw [if_neg (by omega)]) l]
  | k + 1, a :: l => by
    rw [List.modify_succ_cons, List.mapIdx_cons, if_neg (by omega),
      modify_eq_mapIdx f k l]
    congr 1
    refine mapIdx_congr_univ _ _ ?_ l
    intro j x
    by_cases hj : j = k
    · rw [if_pos hj, if_pos (by omega)]
    · rw [if_neg hj, if_neg (by omega)]

theorem foldl_modify_range' {α : Type} (g : Nat → α → α) :
    ∀ (n k : Nat) (ls : List α),
      (List.range' k n).foldl (fun acc i => List.modify (g i) i acc) ls =
        ls.mapIdx (fun j l => if k ≤ j ∧ j < k + n then g j l else l) := by
  intro n
  induction n with
  | zero =>
    intro k ls
    rw [List.range'_zero, List.foldl_nil,
      mapIdx_id_univ _ (fun j x => by rw [if_neg (by omega)]) ls]
  | succ n ih =>
    intro k ls
    rw [List.range'_succ, List.foldl_cons, ih (k + 1) (List.modify (g k) k ls),
      modify_eq_mapIdx, mapIdx_mapIdx_univ]
    refine mapIdx_congr_univ _ _ ?_ ls
    intro j x
    by_cases hj : j = k
    · subst hj
      rw [if_pos rfl, if_neg (by omega), if_pos (by omega)]
    · rw [if_neg hj]
      by_cases hj2 : k + 1 ≤ j ∧ j < k + 1 + n
      · rw [if_pos hj2, if_pos (by omega)]
      · rw [if_neg hj2, if_neg (by omega)]

theorem mapIdx_congr_lt {α β : Type} :
    ∀ (f g : Nat → α → β) (ls : List α), (∀ j, j < ls.length → ∀ l, f j l = g j l) →
      ls.mapIdx f = ls.mapIdx g := by
  intro f g ls
  induction ls generalizing f g with
  | nil => intro _; rfl
  | cons a l ih =>
    intro h
    rw [List.mapIdx_cons, List.mapIdx_cons, h 0 (Nat.succ_pos _) a,
      ih (fun i => f (i + 1)) (fun i => g (i + 1))
        (fun j hj l => h (j + 1) (Nat.succ_lt_succ hj) l)]

theorem secBody_eq_modify (ref : Bool) (sp : K) (acc : List (PrimaryLine K)) (i : Nat) :
    (if ref && i % 4 != 0 then acc
     else
       let pts := (acc.getD i default).points
       let n := pts.length
       let prevPt := pts.getD (n - 1) default
       let prevPrevIdx : Int := (n : Int) - (if ref then 5 else 2)
       match (if prevPrevIdx < 0 then none else pts[prevPrevIdx.toNat]?) with
       | some prevPrevPt =>
           addPoint acc i (prevPt.x + (prevPt.x - prevPrevPt.x))
             (prevPt.y + (prevPt.y - prevPrevPt.y)) true
       | none => addPoint acc i (prevPt.x + 0) (prevPt.y + sp) true) =
    List.modify (fun l =>
      if ref && i % 4 != 0 then l
      else { l with points := l.points ++ [secPoint ref sp l.points] }) i acc := by
  by_cases hguard : (ref && i % 4 != 0) = true
  · rw [if_pos hguard]
    rw [show (fun l => if ref && i % 4 != 0 then l
        else { l with points := l.points ++ [secPoint ref sp l.points] })
        = (fun l : PrimaryLine K => l) from by
      funext l
      rw [if_pos hguard]]
    rw [modify_id]
  · rw [if_neg hguard]
    rw [show (fun l => if ref && i % 4 != 0 then l
        else { l with points := l.points ++ [secPoint ref sp l.points] })
        = (fun l : PrimaryLine K =>
            { l with points := l.points ++ [secPoint ref sp l.points] }) from by
      funext l
      rw [if_neg hguard]]
    simp only []
    generalize hx : acc.getD i default = x
    split
    · rename_i pp hmatch
      refine modify_congr_at _ _ i acc ?_
      rw [hx]
      show ({ x with points := x.points ++ [_] } : PrimaryLine K) = _
      rw [secPoint]
      rw [hmatch]
    · rename_i hmatch
      refine modify_congr_at _ _ i acc ?_
      rw [hx]
      show ({ x with points := x.points ++ [_] } : PrimaryLine K) = _
      rw [secPoint]
      rw [hmatch]

theorem generateSecondaryLine_eq (ref : Bool) (sp : K) (ls : List (PrimaryLine K)) :
    generateSecondaryLine ref sp ls = ls.mapIdx (fun i l =>
      if ref && i % 4 != 0 then l
      else { l with points := l.points ++ [secPoint ref sp l.points] }) := by
  rw [generateSecondaryLine]
  rw [foldl_body_congr _ (fun acc i => List.modify (fun l =>
      if ref && i % 4 != 0 then l
      else { l with points := l.points ++ [secPoint ref sp l.points] }) i acc)
    (List.range ls.length) ls
    (fun b _ x => secBody_eq_modify ref sp x b)]
  rw [List.range_eq_range']
  rw [foldl_modify_range' (fun i l =>
    if ref && i % 4 != 0 then l
    else { l with points := l.points ++ [secPoint ref sp l.points] }) ls.length 0 ls]
  refine mapIdx_congr_lt _ _ ls ?_
  intro j hj x
  rw [if_pos ⟨Nat.zero_le j, by omega⟩]

/-! ### The secondary-axis grow pass on an unrefined grid -/

theorem MainPts.index {s : Nat} {r : List (GridPoint K)} (h : MainPts s r) :
    ∀ j, j < r.length → ((r.getD j default).isCommonPoint = true ↔ j % 4 = 0) := by
  induction h with
  | single c hc =>
    intro j hj
    have hj0 : j = 0 := by simpa using hj
    subst hj0
    simp [hc]
  | block c r1 r2 r3 rest s hc h1 h2 h3 hrest ih =>
    intro j hj
    match j with
    | 0 => simp [hc]
    | 1 => simp [h1]
    | 2 => simp [h2]
    | 3 => simp [h3]
    | j + 4 =>
      have hlen : j < rest.length := by
        simp only [List.length_cons] at hj
        omega
      show ((rest.getD j default).isCommonPoint = true ↔ (j + 4) % 4 = 0)
      rw [Nat.add_mod_right]
      exact ih j hlen

theorem secPoint_common (ref : Bool) (sp : K) (pts : List (GridPoint K)) :
    (secPoint ref sp pts).isCommonPoint = true := by
  rw [secPoint]
  split
  · rfl
  · rfl

theorem forall_mem_mapIdx {α β : Type} (P : β → Prop) :
    ∀ (f : Nat → α → β) (ls : List α),
      (∀ i, i < ls.length → ∀ a, a ∈ ls → P (f i a)) → ∀ b ∈ ls.mapIdx f, P b := by
  intro f ls
  induction ls generalizing f with
  | nil =>
    intro _ b hb
    simp at hb
  | cons a l ih =>
    intro h b hb
    rw [List.mapIdx_cons] at hb
    rcases List.mem_cons.mp hb with rfl | hb
    · exact h 0 (Nat.succ_pos _) a (List.mem_cons_self a l)
    · exact ih (fun i => f (i + 1))
        (fun i hi x hx => h (i + 1) (Nat.succ_lt_succ hi) x (List.mem_cons_of_mem _ hx))
        b hb

theorem genSec_plain {s p : Nat} (sp : K) (hs : 1 ≤ s) (hp : 1 ≤ p)
    {ls : List (PrimaryLine K)} (h : PlainLines s ls p) (hu : UuidNone ls) :
    PlainLines (s + 1) (generateSecondaryLine false sp ls) p ∧
      UuidNone (generateSecondaryLine false sp ls) := by
  rw [generateSecondaryLine_eq]
  refine ⟨⟨by rw [List.length_mapIdx, h.1], ?_⟩, ?_⟩
  · refine forall_mem_mapIdx _ _ ls (fun i hi a ha => ?_)
    rw [if_neg (by simp)]
    have hpl := h.2 a ha
    constructor
    · simp [hpl.1]
    · intro q hq
      rcases List.mem_append.mp hq with hq | hq
      · exact hpl.2 q hq
      · rw [List.mem_singleton.mp hq]
        exact secPoint_common false sp a.points
  · refine forall_mem_mapIdx _ _ ls (fun i hi a ha => ?_)
    rw [if_neg (by simp)]
    exact hu a ha

/-! ### Splicing three refinement points before a freshly appended common
point -/

theorem nthCommonPoint_snoc {s : Nat} (pts : List (GridPoint K)) (c : GridPoint K)
    (hlen : (pts.filter (·.isCommonPoint)).length = s) (hc : c.isCommonPoint = true) :
    (∀ k, k < s → nthCommonPoint (pts ++ [c]) k = nthCommonPoint pts k) ∧
    nthCommonPoint (pts ++ [c]) s = some c ∧
    nthCommonPoint (pts ++ [c]) (s + 1) = none := by
  have hfa : (pts ++ [c]).filter (·.isCommonPoint) = pts.filter (·.isCommonPoint) ++ [c] := by
    rw [List.filter_append]
    simp [hc]
  refine ⟨?_, ?_, ?_⟩
  · intro k hk
    rw [nthCommonPoint_eq_filter, nthCommonPoint_eq_filter, hfa,
      List.getElem?_append_left (by omega)]
  · rw [nthCommonPoint_eq_filter, hfa, List.getElem?_append_right (by omega), hlen]
    simp
  · rw [nthCommonPoint_eq_filter, hfa]
    rw [List.getElem?_eq_none (by simp [hlen])]

theorem spliceKeyed_three_snoc (pts : List (GridPoint K)) (c r1 r2 r3 : GridPoint K) :
    spliceKeyed (pts ++ [c])
      [(pts.length, r1), (pts.length + 1, r2), (pts.length + 2, r3)] =
      pts ++ [r1, r2, r3, c] := by
  rw [spliceKeyed_cons]
  rw [show min pts.length (pts ++ [c]).length = pts.length + 0 from by
    simp only [List.length_append, List.length_cons, List.length_nil]; omega]
  rw [insertIdx_append_length pts 0 r1 [c]]
  rw [show List.insertIdx 0 r1 [c] = [r1, c] from rfl]
  rw [spliceKeyed_cons]
  rw [show min (pts.length + 1) (pts ++ [r1, c]).length = pts.length + 1 from by
    simp only [List.length_append, List.length_cons, List.length_nil]; omega]
  rw [insertIdx_append_length pts 1 r2 [r1, c]]
  rw [show List.insertIdx 1 r2 [r1, c] = [r1, r2, c] from rfl]
  rw [spliceKeyed_cons]
  rw [show min (pts.length + 2) (pts ++ [r1, r2, c]).length = pts.length + 2 from by
    simp only [List.length_append, List.length_cons, List.length_nil]; omega]
  rw [insertIdx_append_length pts 2 r3 [r1, r2, c]]
  rw [show List.insertIdx 2 r3 [r1, r2, c] = [r1, r2, r3, c] from rfl]
  rfl

theorem refineKeyed_append_mainPts {s : Nat} {pts : List (GridPoint K)}
    (h : MainPts s pts) (c : GridPoint K) (hc : c.isCommonPoint = true) :
    MainPts (s + 1)
      (spliceKeyed (pts ++ [c]) (refineKeyedPoints (pts ++ [c]) (s - 1) 2)) := by
  have hs1 : 1 ≤ s := h.one_le
  have hplen := h.length_eq
  have hflen := MainPts.filter_length h
  obtain ⟨hlow, hmid, hhigh⟩ := nthCommonPoint_snoc pts c hflen hc
  obtain ⟨q, hq⟩ : ∃ q, nthCommonPoint pts (s - 1) = some q := by
    rw [nthCommonPoint_eq_filter]
    exact ⟨_, List.getElem?_eq_getElem (by omega)⟩
  rw [show (2 : Nat) = 1 + 1 from rfl, refineKeyedPoints_succ]
  rw [hlow (s - 1) (by omega), hq]
  rw [show s - 1 + 1 = s from by omega]
  rw [hmid, refineKeyedPoints_succ, hmid, hhigh]
  show MainPts (s + 1) (spliceKeyed (pts ++ [c]) [(4 * (s - 1) + 1, _),
    (4 * (s - 1) + 2, _), (4 * (s - 1) + 3, _)])
  rw [show 4 * (s - 1) + 1 = pts.length from by omega]
  rw [show 4 * (s - 1) + 2 = pts.length + 1 from by omega]
  rw [show 4 * (s - 1) + 3 = pts.length + 2 from by omega]
  rw [spliceKeyed_three_snoc]
  exact MainPts.snoc h _ _ _ c rfl rfl rfl hc

/-! ### The bulk refinement pass of the secondary grow -/

theorem refinePoints_some_eq (lo : Nat) (ls : List (PrimaryLine K)) (hne : ls ≠ []) :
    generateRefinementPointsOnCurrentPrimaryLines none (some lo) ls =
      ((List.range ((noOfPrimaryLines ls).getD 0)).map (· * 4)).foldl
        (fun acc primaryLineIdx =>
          acc.modify (fun l => { l with points := spliceKeyed l.points
                                          (refineKeyedPoints l.points lo
                                            ((noOfSecondaryLines ls).getD 0 - lo)) })
            primaryLineIdx) ls := by
  rw [generateRefinementPointsOnCurrentPrimaryLines,
    if_neg (by rw [isEmpty_eq_false_of_ne_nil _ hne]; exact Bool.false_ne_true),
    if_pos (show (some lo).isSome = true from rfl)]
  · rfl
  · intro hcontr
    cases hcontr

theorem foldl_modify_map4 {α : Type} (F : α → α) :
    ∀ (q : Nat) (ls : List α),
      ((List.range q).map (· * 4)).foldl (fun acc i => List.modify F i acc) ls =
        ls.mapIdx (fun j l => if j % 4 = 0 ∧ j < 4 * q then F l else l) := by
  intro q
  induction q with
  | zero =>
    intro ls
    rw [List.range_zero, List.map_nil, List.foldl_nil,
      mapIdx_id_univ _ (fun j x => by rw [if_neg (by omega)]) ls]
  | succ q ih =>
    intro ls
    rw [List.range_succ, List.map_append, List.foldl_append, ih ls]
    rw [show List.map (· * 4) [q] = [q * 4] from rfl, List.foldl_cons, List.foldl_nil]
    rw [modify_eq_mapIdx, mapIdx_mapIdx_univ]
    refine mapIdx_congr_univ _ _ ?_ ls
    intro j x
    by_cases hj : j % 4 = 0 ∧ j < 4 * q
    · rw [if_pos hj, if_neg (by omega), if_pos (by omega)]
    · rw [if_neg hj]
      by_cases hj2 : j = q * 4
      · rw [if_pos hj2, if_pos (by omega)]
      · rw [if_neg hj2, if_neg (by omega)]

theorem isCommonHead_append_point (l : PrimaryLine K) (x : GridPoint K)
    (h : l.points ≠ []) :
    isCommonHead { l with points := l.points ++ [x] } = isCommonHead l := by
  show ((l.points ++ [x]).head?.map (·.isCommonPoint)).getD false
    = (l.points.head?.map (·.isCommonPoint)).getD false
  cases hp : l.points with
  | nil => exact absurd hp h
  | cons q rest => rfl

theorem filter_commonHead_mapIdx :
    ∀ (A : Nat → PrimaryLine K → PrimaryLine K) (ls : List (PrimaryLine K)),
      (∀ i l, l ∈ ls → isCommonHead (A i l) = isCommonHead l) →
      ((ls.mapIdx A).filter isCommonHead).length = (ls.filter isCommonHead).length := by
  intro A ls
  induction ls generalizing A with
  | nil => intro _; rfl
  | cons a l ih =>
    intro hA
    rw [List.mapIdx_cons, List.filter_cons, List.filter_cons,
      hA 0 a (List.mem_cons_self a l)]
    have htail := ih (fun i => A (i + 1))
      (fun i x hx => hA (i + 1) x (List.mem_cons_of_mem _ hx))
    cases hhd : isCommonHead a
    · simpa using htail
    · simpa using htail

theorem mapIdx_cons4_guard (G : Nat → PrimaryLine K → PrimaryLine K)
    (hG : ∀ i l, G (i + 4) l = G i l)
    (m a b c : PrimaryLine K) (rest : List (PrimaryLine K)) :
    (m :: a :: b :: c :: rest).mapIdx G =
      G 0 m :: G 1 a :: G 2 b :: G 3 c :: rest.mapIdx G := by
  rw [List.mapIdx_cons, List.mapIdx_cons, List.mapIdx_cons, List.mapIdx_cons]
  refine congrArg _ (congrArg _ (congrArg _ (congrArg _ ?_)))
  exact mapIdx_congr_univ _ _ (fun j l => hG j l) rest

theorem midLines_of_refLines_mapIdx {s : Nat} (sp : K) :
    ∀ {p : Nat} {ls : List (PrimaryLine K)}, RefLines s ls p →
      MidLines s (ls.mapIdx (fun j l =>
        if j % 4 = 0 then
          { l with points := spliceKeyed (l.points ++ [secPoint true sp l.points])
                               (refineKeyedPoints (l.points ++ [secPoint true sp l.points])
                                 (s - 1) 2) }
        else l)) p := by
  intro p ls h
  induction h with
  | single m hm =>
    rw [List.mapIdx_cons, List.mapIdx_nil, if_pos (show 0 % 4 = 0 from rfl)]
    exact MidLines.single _ (refineKeyed_append_mainPts hm _ (secPoint_common _ _ _))
  | block m a b c rest p hm ha hb hc hrest ih =>
    rw [mapIdx_cons4_guard _ (fun i l => by
      by_cases hi : i % 4 = 0
      · rw [if_pos (by omega), if_pos hi]
      · rw [if_neg (by omega), if_neg hi])]
    rw [if_pos (show 0 % 4 = 0 from rfl)]
    rw [if_neg (show ¬1 % 4 = 0 from by omega)]
    rw [if_neg (show ¬2 % 4 = 0 from by omega)]
    rw [if_neg (show ¬3 % 4 = 0 from by omega)]
    exact MidLines.block _ _ _ _ _ _
      (refineKeyed_append_mainPts hm _ (secPoint_common _ _ _)) ha hb hc ih

theorem growSecondary_mid {s p : Nat} (sp : K) (hs : 2 ≤ s) {ls : List (PrimaryLine K)}
    (h : RefLines s ls p) (hu : UuidNone ls) :
    MidLines s (generateRefinementPointsOnCurrentPrimaryLines none (some (s - 1))
        (generateSecondaryLine true sp ls)) p ∧
      UuidNone (generateRefinementPointsOnCurrentPrimaryLines none (some (s - 1))
        (generateSecondaryLine true sp ls)) := by
  have hne : ls ≠ [] := h.ne_nil
  have hlen4 : ls.length = 4 * (p - 1) + 1 := h.length_formula
  have hp1 : 1 ≤ p := h.count_pos
  have hA := generateSecondaryLine_eq true sp ls
  have hmemne : ∀ l ∈ ls, l.points ≠ [] := by
    intro l hl hnil
    rcases RefLines.mem_shape h l hl with hm | hsub
    · have hlen := hm.length_eq
      rw [hnil] at hlen
      simp only [List.length_nil] at hlen
      omega
    · have hlen := hsub.1
      rw [hnil] at hlen
      simp only [List.length_nil] at hlen
      omega
  have hlen1 : (generateSecondaryLine true sp ls).length = ls.length := by
    rw [hA, List.length_mapIdx]
  have hne1 : generateSecondaryLine true sp ls ≠ [] := by
    intro hnil
    rw [hnil] at hlen1
    exact hne (List.length_eq_zero.mp hlen1.symm)
  obtain ⟨m0, rest0, hdec0, hm0⟩ := h.head_main
  have hsec1 : noOfSecondaryLines (generateSecondaryLine true sp ls) = some (s + 1) := by
    rw [hA, hdec0, List.mapIdx_cons]
    show some (((if (true && (0 % 4 != 0)) = true then m0
      else { m0 with points := m0.points ++ [secPoint true sp m0.points] }).points.filter
        (·.isCommonPoint)).length) = _
    rw [if_neg (by simp)]
    show some (((m0.points ++ [secPoint true sp m0.points]).filter
      (·.isCommonPoint)).length) = _
    rw [List.filter_append, List.length_append, MainPts.filter_length hm0]
    simp [List.filter_cons, secPoint_common]
  have hpri1 : noOfPrimaryLines (generateSecondaryLine true sp ls) = some p := by
    rw [noOfPrimaryLines,
      if_neg (by rw [isEmpty_eq_false_of_ne_nil _ hne1]; simp)]
    have hcnt := filter_commonHead_mapIdx (fun i l =>
        if (true && (i % 4 != 0)) = true then l
        else { l with points := l.points ++ [secPoint true sp l.points] }) ls
      (fun i l hl => by
        simp only []
        by_cases hi : (true && (i % 4 != 0)) = true
        · rw [if_pos hi]
        · rw [if_neg hi]
          exact isCommonHead_append_point l _ (hmemne l hl))
    rw [hA, hcnt, refLines_filter_count h]
  have hB := refinePoints_some_eq (s - 1) (generateSecondaryLine true sp ls) hne1
  rw [hsec1, hpri1] at hB
  simp only [Option.getD_some] at hB
  rw [show s + 1 - (s - 1) = 2 from by omega] at hB
  rw [foldl_modify_map4] at hB
  rw [hA, mapIdx_mapIdx_univ] at hB
  have hB2 := hB.trans (mapIdx_congr_lt _ (fun j l =>
      if j % 4 = 0 then
        { l with points := spliceKeyed (l.points ++ [secPoint true sp l.points])
                             (refineKeyedPoints (l.points ++ [secPoint true sp l.points])
                               (s - 1) 2) }
      else l) ls (fun j hj l => by
    simp only []
    by_cases hj4 : j % 4 = 0
    · rw [if_neg (show ¬(true && (j % 4 != 0)) = true from by simp [hj4])]
      rw [if_pos (show j % 4 = 0 ∧ j < 4 * p from ⟨hj4, by omega⟩)]
      rw [if_pos hj4]
    · rw [if_pos (show (true && (j % 4 != 0)) = true from by simp [hj4])]
      rw [if_neg (show ¬(j % 4 = 0 ∧ j < 4 * p) from by omega)]
      rw [if_neg hj4]))
  rw [← hA] at hB2
  constructor
  · rw [hB2]
    exact midLines_of_refLines_mapIdx sp h
  · rw [hB2]
    refine forall_mem_mapIdx _ _ ls (fun i hi a ha => ?_)
    by_cases hi4 : i % 4 = 0
    · rw [if_pos hi4]
      exact hu a ha
    · rw [if_neg hi4]
      exact hu a ha

/-! ### The subsidiary-extension pass of the secondary grow -/

theorem MidLines.head_block {s p : Nat} {ls : List (PrimaryLine K)} (h : MidLines s ls p) :
    ∃ m rest, ls = m :: rest ∧ MainPts (s + 1) m.points := by
  cases h with
  | single m hm => exact ⟨m, [], rfl, hm⟩
  | block m a b c rest p hm ha hb hc hrest => exact ⟨m, a :: b :: c :: rest, rfl, hm⟩

theorem MidLines.nonempty {s p : Nat} {ls : List (PrimaryLine K)} (h : MidLines s ls p) :
    ls ≠ [] := by
  obtain ⟨m, rest, rfl, _⟩ := h.head_block
  simp

theorem midLines_filter_count {s p : Nat} {ls : List (PrimaryLine K)}
    (h : MidLines s ls p) : (ls.filter isCommonHead).length = p := by
  induction h with
  | single m hm => simp [List.filter_cons, isCommonHead_of_mainPts hm]
  | block m a b c rest p hm ha hb hc hrest ih =>
    simp [List.filter_cons, isCommonHead_of_mainPts hm, isCommonHead_of_subLine ha,
      isCommonHead_of_subLine hb, isCommonHead_of_subLine hc, ih]

theorem noOfPrimaryLines_midLines {s p : Nat} {ls : List (PrimaryLine K)}
    (h : MidLines s ls p) : noOfPrimaryLines ls = some p := by
  rw [noOfPrimaryLines, if_neg (by
      rw [isEmpty_eq_false_of_ne_nil _ h.nonempty]
      exact Bool.false_ne_true),
    midLines_filter_count h]

theorem totalNoOfSecondaryLines_midLines {s p : Nat} {ls : List (PrimaryLine K)}
    (h : MidLines s ls p) : totalNoOfSecondaryLines ls = some (4 * s + 1) := by
  obtain ⟨m, rest, rfl, hm⟩ := h.head_block
  show some m.points.length = _
  rw [hm.length_eq]
  rfl

theorem getNextMain_append4 (F : List (PrimaryLine K)) (m a b c m2 : PrimaryLine K)
    (R : List (PrimaryLine K)) (hha : isCommonHead a = false)
    (hhb : isCommonHead b = false) (hhc : isCommonHead c = false)
    (hm2 : isCommonHead m2 = true) :
    getNextMainPrimaryLine (F ++ m :: a :: b :: c :: m2 :: R) F.length
      = some (F.length + 4) := by
  unfold getNextMainPrimaryLine
  rw [drop_append_length_succ]
  rw [List.findIdx?_cons, if_neg (by rw [hha]; exact Bool.false_ne_true)]
  rw [List.findIdx?_cons, if_neg (by rw [hhb]; exact Bool.false_ne_true)]
  rw [List.findIdx?_cons, if_neg (by rw [hhc]; exact Bool.false_ne_true)]
  rw [List.findIdx?_cons, if_pos hm2]
  simp
  omega

theorem getNextMain_append_one (F : List (PrimaryLine K)) (m : PrimaryLine K) :
    getNextMainPrimaryLine (F ++ [m]) F.length = none := by
  unfold getNextMainPrimaryLine
  rw [drop_append_length_succ]
  rfl

theorem filterMap_const_none {α β : Type} :
    ∀ l : List α, l.filterMap (fun _ => (none : Option β)) = []
  | [] => rfl
  | a :: l => by
    rw [List.filterMap_cons]
    exact filterMap_const_none l

/-- A subsidiary-generation call whose source main line has no following main
line collects no points and (with `createNewSubsidiaryLines` off) leaves the
state untouched. -/
theorem subsidiaryCall_noNext (i st : Nat) (ls : List (PrimaryLine K))
    (h : getNextMainPrimaryLine ls i = none) :
    generateSubsidiaryPrimaryLine i (some st) false ls = ls := by
  cases ls with
  | nil => rfl
  | cons l0 rest =>
    rw [generateSubsidiaryPrimaryLine,
      if_neg (by rw [isEmpty_eq_false_of_ne_nil _ (by simp)]; exact Bool.false_ne_true)]
    simp only [h, ite_self, filterMap_const_none]
    rfl

theorem modify_one_cons {α : Type} (f : α → α) (x0 x1 : α) (l : List α) :
    List.modify f 1 (x0 :: x1 :: l) = x0 :: f x1 :: l := rfl

theorem modify_two_cons {α : Type} (f : α → α) (x0 x1 x2 : α) (l : List α) :
    List.modify f 2 (x0 :: x1 :: x2 :: l) = x0 :: x1 :: f x2 :: l := rfl

theorem modify_three_cons {α : Type} (f : α → α) (x0 x1 x2 x3 : α) (l : List α) :
    List.modify f 3 (x0 :: x1 :: x2 :: x3 :: l) = x0 :: x1 :: x2 :: f x3 :: l := rfl

/-- Storing one pending point on each of the three subsidiary lines of the
block that starts at index `F.length`. -/
theorem addPoints_three_block (F : List (PrimaryLine K)) (m a b c m2 : PrimaryLine K)
    (R : List (PrimaryLine K)) (x0 y0 x1 y1 x2 y2 : K) (cm0 cm1 cm2 : Bool) :
    addPoints (F ++ m :: a :: b :: c :: m2 :: R)
      [⟨x0, y0, F.length + 0 + 1, cm0⟩, ⟨x1, y1, F.length + 1 + 1, cm1⟩,
        ⟨x2, y2, F.length + 2 + 1, cm2⟩] =
      F ++ m :: { a with points := a.points ++ [⟨x0, y0, cm0, true, true⟩] }
        :: { b with points := b.points ++ [⟨x1, y1, cm1, true, true⟩] }
        :: { c with points := c.points ++ [⟨x2, y2, cm2, true, true⟩] }
        :: m2 :: R := by
  show addPoint (addPoint (addPoint (F ++ m :: a :: b :: c :: m2 :: R)
      (F.length + 0 + 1) x0 y0 cm0) (F.length + 1 + 1) x1 y1 cm1)
      (F.length + 2 + 1) x2 y2 cm2 = _
  unfold addPoint
  rw [show F.length + 0 + 1 = F.length + 1 from rfl]
  rw [modify_append_length F _ 1, modify_one_cons]
  rw [show F.length + 1 + 1 = F.length + 2 from rfl]
  rw [modify_append_length F _ 2, modify_two_cons]
  rw [show F.length + 2 + 1 = F.length + 3 from rfl]
  rw [modify_append_length F _ 3, modify_three_cons]

/-- One subsidiary-extension call of the secondary grow: with the scan window
`[4s-2, 4s+1)` only the freshly appended common slot `4s` of the block's main
line is visited, and the three interpolated points land on the block's three
subsidiary lines. -/
theorem subsidiaryCall_mid {s : Nat} (hs : 1 ≤ s)
    (F : List (PrimaryLine K)) (m a b c m2 : PrimaryLine K) (R : List (PrimaryLine K))
    (hm : MainPts (s + 1) m.points)
    (hha : isCommonHead a = false) (hhb : isCommonHead b = false)
    (hhc : isCommonHead c = false) (hm2 : isCommonHead m2 = true)
    (htot : totalNoOfSecondaryLines (F ++ m :: a :: b :: c :: m2 :: R)
      = some (4 * s + 1)) :
    ∃ qa qb qc : GridPoint K,
      generateSubsidiaryPrimaryLine F.length (some (4 * s - 2)) false
          (F ++ m :: a :: b :: c :: m2 :: R) =
        F ++ m :: { a with points := a.points ++ [qa] }
          :: { b with points := b.points ++ [qb] }
          :: { c with points := c.points ++ [qc] } :: m2 :: R ∧
      qa.isCommonPoint = false ∧ qb.isCommonPoint = false ∧
      qc.isCommonPoint = false := by
  obtain ⟨k, hk⟩ : ∃ k, k = 4 * s - 2 := ⟨4 * s - 2, rfl⟩
  rw [← hk]
  have hnext : getNextMainPrimaryLine (F ++ m :: a :: b :: c :: m2 :: R) F.length
      = some (F.length + 4) := getNextMain_append4 F m a b c m2 R hha hhb hhc hm2
  have hfrom : (F ++ m :: a :: b :: c :: m2 :: R).getD F.length default = m := by
    simpa using getD_append_length F (m :: a :: b :: c :: m2 :: R) 0
  have hto : (F ++ m :: a :: b :: c :: m2 :: R).getD (F.length + 4) default = m2 := by
    simpa using getD_append_length F (m :: a :: b :: c :: m2 :: R) 4
  have hmlen : m.points.length = 4 * s + 1 := by
    have := hm.length_eq
    omega
  have hidx := MainPts.index hm
  have hck : (m.points.getD k default).isCommonPoint = false := by
    rcases Bool.eq_false_or_eq_true ((m.points.getD k default).isCommonPoint) with hcc | hcc
    · exact absurd ((hidx k (by omega)).mp hcc) (by omega)
    · exact hcc
  have hck1 : (m.points.getD (k + 1) default).isCommonPoint = false := by
    rcases Bool.eq_false_or_eq_true
        ((m.points.getD (k + 1) default).isCommonPoint) with hcc | hcc
    · exact absurd ((hidx (k + 1) (by omega)).mp hcc) (by omega)
    · exact hcc
  have hck2 : (m.points.getD (k + 2) default).isCommonPoint = true :=
    (hidx (k + 2) (by omega)).mpr (by omega)
  rw [generateSubsidiaryPrimaryLine,
    if_neg (by rw [isEmpty_eq_false_of_ne_nil _ (by simp)]; exact Bool.false_ne_true)]
  simp only [htot, hnext, hfrom, hto, Option.getD_some]
  rw [show 4 * s + 1 - k = 3 from by omega]
  rw [show List.range' k 3 = [k, k + 1, k + 2] from rfl]
  rw [show List.range 3 = [0, 1, 2] from rfl]
  rw [if_neg (show ¬(false = true) from Bool.false_ne_true)]
  simp only [List.flatMap_cons, List.flatMap_nil, List.filterMap_cons, List.filterMap_nil,
    hck, hck1, hck2, Bool.not_false, Bool.not_true, eq_self_iff_true, Bool.false_eq_true,
    if_true, if_false, List.append_nil, List.cons_append, List.nil_append]
  rw [addPoints_three_block]
  exact ⟨_, _, _, rfl, rfl, rfl, rfl⟩

theorem subLine_snoc {s : Nat} {l : PrimaryLine K} (h : SubLine s l) (q : GridPoint K)
    (hq : q.isCommonPoint = false) :
    SubLine (s + 1) { l with points := l.points ++ [q] } := by
  refine ⟨?_, ?_⟩
  · show (l.points ++ [q]).length = s + 1
    rw [List.length_append, h.1]
    rfl
  · intro gp hgp
    rcases List.mem_append.mp hgp with h1 | h1
    · exact h.2 gp h1
    · obtain rfl := List.mem_singleton.mp h1
      exact hq

theorem totalNoOfSecondaryLines_head_only (F : List (PrimaryLine K))
    (m : PrimaryLine K) (X Y : List (PrimaryLine K)) :
    totalNoOfSecondaryLines (F ++ m :: X) = totalNoOfSecondaryLines (F ++ m :: Y) := by
  cases F with
  | nil => rfl
  | cons f fs => rfl

/-- The fold of subsidiary-extension calls of the secondary grow walks the
main lines of the intermediate state block by block and restores the refined
block structure, now at `s + 1` secondary lines. -/
theorem subsidiaryExtend_fold {s : Nat} (hs : 1 ≤ s) :
    ∀ {p : Nat} {ls : List (PrimaryLine K)}, MidLines s ls p →
      ∀ (k : Nat) (F : List (PrimaryLine K)), F.length = 4 * k →
        totalNoOfSecondaryLines (F ++ ls) = some (4 * s + 1) →
        ∃ ls' : List (PrimaryLine K),
          (List.range' k p).foldl (fun acc call =>
            generateSubsidiaryPrimaryLine (0 + 4 * call) (some (4 * s - 2)) false acc)
            (F ++ ls) = F ++ ls' ∧
          RefLines (s + 1) ls' p ∧ (UuidNone ls → UuidNone ls') := by
  intro p ls h
  induction h with
  | single m hm =>
    intro k F hF htot
    refine ⟨[m], ?_, RefLines.single m hm, fun hu => hu⟩
    rw [show List.range' k 1 = [k] from rfl, List.foldl_cons, List.foldl_nil]
    rw [show 0 + 4 * k = F.length from by omega]
    exact subsidiaryCall_noNext F.length (4 * s - 2) (F ++ [m])
      (getNextMain_append_one F m)
  | block m a b c rest p hm ha hb hc hrest ih =>
    intro k F hF htot
    obtain ⟨m2, R, hdec, hm2pts⟩ := hrest.head_block
    subst hdec
    have hm2 : isCommonHead m2 = true := isCommonHead_of_mainPts hm2pts
    have hha : isCommonHead a = false := isCommonHead_of_subLine ha
    have hhb : isCommonHead b = false := isCommonHead_of_subLine hb
    have hhc : isCommonHead c = false := isCommonHead_of_subLine hc
    obtain ⟨qa, qb, qc, heq, hqa, hqb, hqc⟩ :=
      subsidiaryCall_mid hs F m a b c m2 R hm hha hhb hhc hm2 htot
    set a' : PrimaryLine K := { a with points := a.points ++ [qa] } with ha'def
    set b' : PrimaryLine K := { b with points := b.points ++ [qb] } with hb'def
    set c' : PrimaryLine K := { c with points := c.points ++ [qc] } with hc'def
    rw [List.range'_succ, List.foldl_cons]
    rw [show 0 + 4 * k = F.length from by omega]
    rw [heq]
    rw [show F ++ m :: a' :: b' :: c' :: m2 :: R =
        (F ++ [m, a', b', c']) ++ (m2 :: R) from by simp]
    have hF4 : (F ++ [m, a', b', c']).length = 4 * (k + 1) := by
      simp only [List.length_append, List.length_cons, List.length_nil]
      omega
    have htot2 : totalNoOfSecondaryLines ((F ++ [m, a', b', c']) ++ (m2 :: R))
        = some (4 * s + 1) := by
      rw [show (F ++ [m, a', b', c']) ++ (m2 :: R) =
        F ++ m :: (a' :: b' :: c' :: m2 :: R) from by simp]
      rw [totalNoOfSecondaryLines_head_only F m _ (a :: b :: c :: m2 :: R)]
      exact htot
    obtain ⟨ls2, hfold2, href2, hu2⟩ := ih (k + 1) (F ++ [m, a', b', c']) hF4 htot2
    refine ⟨m :: a' :: b' :: c' :: ls2, ?_, ?_, ?_⟩
    · rw [hfold2]
      simp
    · exact RefLines.block m a' b' c' ls2 p hm (subLine_snoc ha qa hqa)
        (subLine_snoc hb qb hqb) (subLine_snoc hc qc hqc) href2
    · intro hu
      have hu' : UuidNone (m2 :: R) := by
        intro l hl
        exact hu l (by simp [List.mem_cons.mp hl])
      have hls2 := hu2 hu'
      intro l hl
      rcases List.mem_cons.mp hl with rfl | hl
      · exact hu _ (List.mem_cons_self _ _)
      rcases List.mem_cons.mp hl with rfl | hl
      · show a.uuid = none
        exact hu a (by simp)
      rcases List.mem_cons.mp hl with rfl | hl
      · show b.uuid = none
        exact hu b (by simp)
      rcases List.mem_cons.mp hl with rfl | hl
      · show c.uuid = none
        exact hu c (by simp)
      · exact hls2 l hl

/-- One pass of the growing loop of `set noOfSecondaryLines` on a refined
grid: the per-line append, the bulk re-refinement of the main lines and the
subsidiary-extension fold together take the block structure from `s` to
`s + 1` secondary lines. -/
theorem growSecondaryOnce_refined {s p : Nat} (sp : K) (hs : 2 ≤ s)
    {ls : List (PrimaryLine K)} (h : RefLines s ls p) (hu : UuidNone ls) :
    RefLines (s + 1) (growSecondaryOnce true sp (s + 1) ls) p ∧
      UuidNone (growSecondaryOnce true sp (s + 1) ls) := by
  obtain ⟨hmid, humid⟩ := growSecondary_mid sp hs h hu
  rw [growSecondaryOnce]
  simp only [if_true]
  rw [show s + 1 - 2 = s - 1 from rfl]
  have hpri : noOfPrimaryLines (generateRefinementPointsOnCurrentPrimaryLines none
      (some (s - 1)) (generateSecondaryLine true sp ls)) = some p :=
    noOfPrimaryLines_midLines hmid
  have htot : totalNoOfSecondaryLines (generateRefinementPointsOnCurrentPrimaryLines none
      (some (s - 1)) (generateSecondaryLine true sp ls)) = some (4 * s + 1) :=
    totalNoOfSecondaryLines_midLines hmid
  rw [generateSubsidiaryPrimaryLines]
  simp only [hpri, htot, Option.getD_some]
  rw [show (4 * s + 1 - 3) = 4 * s - 2 from by omega]
  rw [show (((p : Nat) : Int) - ((0 : Nat) : Int)).toNat = p from by omega]
  rw [List.range_eq_range']
  obtain ⟨ls', hfold, href, humap⟩ := subsidiaryExtend_fold (show 1 ≤ s by omega)
    hmid 0 [] rfl htot
  have hfold' : (List.range' 0 p).foldl (fun acc call =>
      generateSubsidiaryPrimaryLine (0 + 4 * call) (some (4 * s - 2)) false acc)
      (generateRefinementPointsOnCurrentPrimaryLines none (some (s - 1))
        (generateSecondaryLine true sp ls)) = ls' := hfold
  rw [hfold']
  exact ⟨href, humap humid⟩

/-! ### The grow loop of `set noOfSecondaryLines` -/

theorem growSecondaryOnce_plainBranch (sp : K) (x : Nat) (ls : List (PrimaryLine K)) :
    growSecondaryOnce false sp x ls = generateSecondaryLine false sp ls := rfl

theorem growSecondaryLoop_plain (sp : K) (n : K) {p : Nat} (hp : 1 ≤ p) :
    ∀ (fuel e : Nat) (ls : List (PrimaryLine K)), 1 ≤ e →
      PlainLines e ls p → UuidNone ls →
      ∃ s', e ≤ s' ∧ PlainLines s' (growSecondaryLoop false sp n fuel e ls) p ∧
        UuidNone (growSecondaryLoop false sp n fuel e ls) := by
  intro fuel
  induction fuel with
  | zero =>
    intro e ls he h hu
    exact ⟨e, le_refl e, h, hu⟩
  | succ fuel ih =>
    intro e ls he h hu
    rw [growSecondaryLoop]
    split
    · rw [growSecondaryOnce_plainBranch]
      obtain ⟨h1, hu1⟩ := genSec_plain sp he hp h hu
      obtain ⟨s', hle, h', hu'⟩ := ih (e + 1) _ (by omega) h1 hu1
      exact ⟨s', by omega, h', hu'⟩
    · exact ⟨e, le_refl e, h, hu⟩

theorem growSecondaryLoop_refined (sp : K) (n : K) {p : Nat} :
    ∀ (fuel e : Nat) (ls : List (PrimaryLine K)), 2 ≤ e →
      RefLines e ls p → UuidNone ls →
      ∃ s', e ≤ s' ∧ RefLines s' (growSecondaryLoop true sp n fuel e ls) p ∧
        UuidNone (growSecondaryLoop true sp n fuel e ls) := by
  intro fuel
  induction fuel with
  | zero =>
    intro e ls he h hu
    exact ⟨e, le_refl e, h, hu⟩
  | succ fuel ih =>
    intro e ls he h hu
    rw [growSecondaryLoop]
    split
    · obtain ⟨h1, hu1⟩ := growSecondaryOnce_refined sp he h hu
      obtain ⟨s', hle, h', hu'⟩ := ih (e + 1) _ (by omega) h1 hu1
      exact ⟨s', by omega, h', hu'⟩
    · exact ⟨e, le_refl e, h, hu⟩

theorem growSecondaryOnce_nil (ref : Bool) (sp : K) (x : Nat) :
    growSecondaryOnce ref sp x [] = [] := by
  cases ref
  · rfl
  · rfl

theorem growSecondaryLoop_nil (ref : Bool) (sp n : K) :
    ∀ (fuel e : Nat), growSecondaryLoop ref sp n fuel e [] = [] := by
  intro fuel
  induction fuel with
  | zero => intro e; rfl
  | succ fuel ih =>
    intro e
    rw [growSecondaryLoop]
    split
    · rw [growSecondaryOnce_nil]
      exact ih (e + 1)
    · rfl

/-! ### `removeLastSecondaryLine` pops one secondary line -/

theorem removeLastSecondaryLine_nil (ref : Bool) :
    removeLastSecondaryLine ref ([] : List (PrimaryLine K)) = [] := rfl

theorem shrinkSecondaryLoop_nil (ref : Bool) (n : K) :
    ∀ (fuel e : Nat), shrinkSecondaryLoop ref n fuel e [] = [] := by
  intro fuel
  induction fuel with
  | zero => intro e; rfl
  | succ fuel ih =>
    intro e
    rw [shrinkSecondaryLoop]
    split
    · rw [removeLastSecondaryLine_nil]
      exact ih (e - 1)
    · rfl

theorem map_eq_mapIdx {α β : Type} (f : α → β) :
    ∀ ls : List α, ls.map f = ls.mapIdx (fun _ a => f a) := by
  intro ls
  induction ls with
  | nil => rfl
  | cons a l ih =>
    rw [List.map_cons, List.mapIdx_cons]
    rw [mapIdx_congr_univ (fun i => (fun _ a => f a) (i + 1)) (fun _ a => f a)
      (fun j x => rfl) l]
    rw [ih]

/-- The first pass of `removeLastSecondaryLine` (one `pop()` per line). -/
theorem foldl_pop_all (ls : List (PrimaryLine K)) :
    (List.range ls.length).foldl popPointAt ls =
      ls.map (fun l => { l with points := l.points.dropLast }) := by
  rw [foldl_body_congr popPointAt (fun acc i => List.modify
      (fun (l : PrimaryLine K) => { l with points := l.points.dropLast }) i acc)
    (List.range ls.length) ls (fun b _ x => rfl)]
  rw [List.range_eq_range']
  rw [foldl_modify_range']
  rw [mapIdx_congr_lt _ (fun (_ : Nat) (l : PrimaryLine K) =>
      { l with points := l.points.dropLast }) ls
    (fun j hj x => by
      simp only []
      rw [if_pos ⟨Nat.zero_le j, by omega⟩])]
  rw [← map_eq_mapIdx]

/-- One stride-4 pass of `removeLastSecondaryLine` (the `idx += subdivision`
walk popping from the main lines only). -/
theorem foldl_pop_map4 (q : Nat) (ls : List (PrimaryLine K)) :
    ((List.range q).map (· * 4)).foldl popPointAt ls =
      ls.mapIdx (fun j l => if j % 4 = 0 ∧ j < 4 * q then
        { l with points := l.points.dropLast } else l) := by
  rw [foldl_body_congr popPointAt (fun acc i => List.modify
      (fun (l : PrimaryLine K) => { l with points := l.points.dropLast }) i acc)
    ((List.range q).map (· * 4)) ls (fun b _ x => rfl)]
  exact foldl_modify_map4 _ q ls

theorem range'_mul4 : ∀ (q a : Nat), List.range' (4 * a) q 4 = (List.range' a q).map (· * 4)
  | 0, _ => rfl
  | q + 1, a => by
    rw [List.range'_succ, List.range'_succ, List.map_cons]
    rw [show 4 * a + 4 = 4 * (a + 1) from by omega]
    rw [range'_mul4 q (a + 1)]
    rw [show 4 * a = a * 4 from by omega]

theorem range'_zero_mul4 (q : Nat) : List.range' 0 q 4 = (List.range q).map (· * 4) := by
  have h := range'_mul4 q 0
  rw [show (4 * 0 : Nat) = 0 from rfl] at h
  rw [List.range_eq_range']
  exact h

theorem removeLastSecondaryLine_plain {s p : Nat} (hp : 1 ≤ p)
    {ls : List (PrimaryLine K)} (h : PlainLines s ls p) (hu : UuidNone ls) :
    PlainLines (s - 1) (removeLastSecondaryLine false ls) p ∧
      UuidNone (removeLastSecondaryLine false ls) := by
  have hne : ls ≠ [] := ne_nil_of_plainLines hp h
  rw [removeLastSecondaryLine,
    if_neg (by rw [isEmpty_eq_false_of_ne_nil _ hne]; exact Bool.false_ne_true)]
  simp only [Bool.false_eq_true, if_false]
  rw [foldl_pop_all]
  refine ⟨⟨by rw [List.length_map, h.1], ?_⟩, ?_⟩
  · intro l hl
    obtain ⟨x, hx, rfl⟩ := List.mem_map.mp hl
    have hpl := h.2 x hx
    refine ⟨?_, ?_⟩
    · show x.points.dropLast.length = s - 1
      rw [List.length_dropLast, hpl.1]
    · intro q hq
      exact hpl.2 q (List.dropLast_subset _ hq)
  · intro l hl
    obtain ⟨x, hx, rfl⟩ := List.mem_map.mp hl
    exact hu x hx

theorem subLine_dropLast {s : Nat} {l : PrimaryLine K} (h : SubLine s l) :
    SubLine (s - 1) { l with points := l.points.dropLast } := by
  refine ⟨?_, ?_⟩
  · show l.points.dropLast.length = s - 1
    rw [List.length_dropLast, h.1]
  · intro q hq
    exact h.2 q (List.dropLast_subset _ hq)

theorem mainPts_dropLast4 {s : Nat} (hs : 2 ≤ s) {pts : List (GridPoint K)}
    (h : MainPts s pts) :
    MainPts (s - 1) pts.dropLast.dropLast.dropLast.dropLast := by
  obtain ⟨base, r1, r2, r3, c, rfl, hbase, _, _, _, _⟩ := h.snoc_split hs
  rw [show base ++ [r1, r2, r3, c] = (((base ++ [r1]) ++ [r2]) ++ [r3]) ++ [c] from by simp]
  rw [dropLast_append_singleton, dropLast_append_singleton, dropLast_append_singleton,
    dropLast_append_singleton]
  exact hbase

theorem refLines_shrink_mapIdx {s : Nat} (hs : 2 ≤ s) :
    ∀ {p : Nat} {ls : List (PrimaryLine K)}, RefLines s ls p →
      RefLines (s - 1) (ls.mapIdx (fun j l =>
        if j % 4 = 0 then
          { l with points := l.points.dropLast.dropLast.dropLast.dropLast }
        else { l with points := l.points.dropLast })) p := by
  intro p ls h
  induction h with
  | single m hm =>
    rw [List.mapIdx_cons, List.mapIdx_nil, if_pos (show 0 % 4 = 0 from rfl)]
    exact RefLines.single _ (mainPts_dropLast4 hs hm)
  | block m a b c rest p hm ha hb hc hrest ih =>
    rw [mapIdx_cons4_guard _ (fun i l => by
      by_cases hi : i % 4 = 0
      · rw [if_pos (by omega), if_pos hi]
      · rw [if_neg (by omega), if_neg hi])]
    rw [if_pos (show 0 % 4 = 0 from rfl)]
    rw [if_neg (show ¬1 % 4 = 0 from by omega)]
    rw [if_neg (show ¬2 % 4 = 0 from by omega)]
    rw [if_neg (show ¬3 % 4 = 0 from by omega)]
    exact RefLines.block _ _ _ _ _ _ (mainPts_dropLast4 hs hm)
      (subLine_dropLast ha) (subLine_dropLast hb) (subLine_dropLast hc) ih

theorem removeLastSecondaryLine_refined {s p : Nat} (hs : 2 ≤ s)
    {ls : List (PrimaryLine K)} (h : RefLines s ls p) (hu : UuidNone ls) :
    RefLines (s - 1) (removeLastSecondaryLine true ls) p ∧
      UuidNone (removeLastSecondaryLine true ls) := by
  have hne : ls ≠ [] := h.ne_nil
  have hlen : ls.length = 4 * (p - 1) + 1 := h.length_formula
  have hp1 : 1 ≤ p := h.count_pos
  rw [removeLastSecondaryLine,
    if_neg (by rw [isEmpty_eq_false_of_ne_nil _ hne]; exact Bool.false_ne_true)]
  simp only [if_true]
  rw [foldl_pop_all]
  rw [hlen, show (4 * (p - 1) + 1 + 3) / 4 = p from by omega]
  rw [range'_zero_mul4]
  rw [foldl_pop_map4, foldl_pop_map4, foldl_pop_map4]
  rw [map_eq_mapIdx, mapIdx_mapIdx_univ, mapIdx_mapIdx_univ, mapIdx_mapIdx_univ]
  rw [mapIdx_congr_lt _ (fun j (l : PrimaryLine K) =>
      if j % 4 = 0 then
        { l with points := l.points.dropLast.dropLast.dropLast.dropLast }
      else { l with points := l.points.dropLast }) ls (fun j hj x => by
    simp only []
    by_cases hj4 : j % 4 = 0
    · have hj4p : j % 4 = 0 ∧ j < 4 * p := ⟨hj4, by omega⟩
      rw [if_pos hj4p, if_pos hj4p, if_pos hj4p, if_pos hj4]
    · have hj4p : ¬(j % 4 = 0 ∧ j < 4 * p) := by omega
      rw [if_neg hj4p, if_neg hj4p, if_neg hj4p, if_neg hj4])]
  refine ⟨refLines_shrink_mapIdx hs h, ?_⟩
  refine forall_mem_mapIdx _ _ ls (fun i hi a ha => ?_)
  by_cases hi4 : i % 4 = 0
  · rw [if_pos hi4]
    exact hu a ha
  · rw [if_neg hi4]
    exact hu a ha

theorem shrinkSecondaryLoop_plain (n : K) {p : Nat} (hp : 1 ≤ p) (hn : (2 : K) ≤ n) :
    ∀ (fuel e : Nat) (ls : List (PrimaryLine K)), 2 ≤ e →
      PlainLines e ls p → UuidNone ls →
      ∃ s', 2 ≤ s' ∧ PlainLines s' (shrinkSecondaryLoop false n fuel e ls) p ∧
        UuidNone (shrinkSecondaryLoop false n fuel e ls) := by
  intro fuel
  induction fuel with
  | zero =>
    intro e ls he h hu
    exact ⟨e, he, h, hu⟩
  | succ fuel ih =>
    intro e ls he h hu
    rw [shrinkSecondaryLoop]
    split
    · rename_i hlt
      have he3 : 3 ≤ e := by
        rcases Nat.lt_or_ge e 3 with h3 | h3
        · have he2 : e = 2 := by omega
          subst he2
          have hcast : ((2 : Nat) : K) = (2 : K) := by push_cast; ring
          rw [hcast] at hlt
          exact absurd hlt (not_lt.mpr hn)
        · exact h3
      obtain ⟨h1, hu1⟩ := removeLastSecondaryLine_plain hp h hu
      exact ih (e - 1) _ (by omega) h1 hu1
    · exact ⟨e, he, h, hu⟩

theorem shrinkSecondaryLoop_refined (n : K) {p : Nat} (hn : (2 : K) ≤ n) :
    ∀ (fuel e : Nat) (ls : List (PrimaryLine K)), 2 ≤ e →
      RefLines e ls p → UuidNone ls →
      ∃ s', 2 ≤ s' ∧ RefLines s' (shrinkSecondaryLoop true n fuel e ls) p ∧
        UuidNone (shrinkSecondaryLoop true n fuel e ls) := by
  intro fuel
  induction fuel with
  | zero =>
    intro e ls he h hu
    exact ⟨e, he, h, hu⟩
  | succ fuel ih =>
    intro e ls he h hu
    rw [shrinkSecondaryLoop]
    split
    · rename_i hlt
      have he3 : 3 ≤ e := by
        rcases Nat.lt_or_ge e 3 with h3 | h3
        · have he2 : e = 2 := by omega
          subst he2
          have hcast : ((2 : Nat) : K) = (2 : K) := by push_cast; ring
          rw [hcast] at hlt
          exact absurd hlt (not_lt.mpr hn)
        · exact h3
      obtain ⟨h1, hu1⟩ := removeLastSecondaryLine_refined he h hu
      exact ih (e - 1) _ (by omega) h1 hu1
    · exact ⟨e, he, h, hu⟩

/-! ### `set noOfSecondaryLines` preserves the invariants -/

theorem invariants_set_noOfSecondaryLines [FloorRing K] (q : K) (st st' : ToolState K)
    (h : Invariants st) (hok : set_noOfSecondaryLines (.num q) st = .ok st') :
    Invariants st' := by
  simp only [set_noOfSecondaryLines] at hok
  split at hok
  · cases hok
    exact h
  rename_i hq2
  split at hok
  · cases hok
    exact h
  rcases h with h0 | ⟨hflag, huuid, s, p, hs, hp, hshp⟩
  · -- no grid on the current image: both loops keep the list empty
    have hcur1 : curLines (activateDraw st) = [] := by rw [curLines_activateDraw, h0]
    rw [hcur1] at hok
    split at hok
    · cases hok
      left
      refine curLines_eq_nil_of_gridShape _ ?_
      rw [curLines_completeDrawing_shape, curLines_setCurLines, growSecondaryLoop_nil]
      rfl
    · cases hok
      left
      refine curLines_eq_nil_of_gridShape _ ?_
      rw [curLines_completeDrawing_shape, curLines_setCurLines, shrinkSecondaryLoop_nil]
      rfl
  · -- a grid is present: the loops preserve the block structure
    have hne : curLines st ≠ [] := by
      intro hnil
      by_cases hgb : st.config.showRefinementGlobal = true
      · rw [if_pos hgb] at hshp
        rw [hnil] at hshp
        exact hshp.ne_nil rfl
      · rw [if_neg hgb] at hshp
        rw [hnil] at hshp
        have hlen := hshp.1
        simp at hlen
        omega
    have hget : get_noOfSecondaryLines st = some s := by
      rw [get_noOfSecondaryLines]
      by_cases hgb : st.config.showRefinementGlobal = true
      · rw [if_pos hgb] at hshp
        exact noOfSecondaryLines_refLines hshp
      · rw [if_neg hgb] at hshp
        exact noOfSecondaryLines_plain (by omega) hshp
    rw [hget] at hok
    simp only [Option.getD_some] at hok
    rw [curLines_activateDraw] at hok
    have href : (get_showRefinementPoints (activateDraw st)).getD false
        = st.config.showRefinementGlobal := by
      rw [get_showRefinementPoints,
        if_neg (by rw [curLines_activateDraw, isEmpty_eq_false_of_ne_nil _ hne]; simp),
        Option.getD_some, (flags_activateDraw st).1]
    rw [href] at hok
    have hq2' : (2 : K) ≤ q := not_lt.mp hq2
    split at hok
    · -- growing
      cases hok
      by_cases hgb : st.config.showRefinementGlobal = true
      · rw [hgb]
        rw [if_pos hgb] at hshp
        obtain ⟨s', hle, h', hu'⟩ := growSecondaryLoop_refined
          (spacingValue (activateDraw st)) q _ s (curLines st) hs hshp huuid
        exact invariants_of_writeback st _ hflag s' p (by omega) hp
          (by rw [if_pos hgb]; exact h') hu'
      · have hgb' : st.config.showRefinementGlobal = false := by
          cases hgbb : st.config.showRefinementGlobal
          · rfl
          · exact absurd hgbb hgb
        rw [hgb']
        rw [if_neg hgb] at hshp
        obtain ⟨s', hle, h', hu'⟩ := growSecondaryLoop_plain
          (spacingValue (activateDraw st)) q (by omega) _ s (curLines st)
          (by omega) hshp huuid
        exact invariants_of_writeback st _ hflag s' p (by omega) hp
          (by rw [if_neg hgb]; exact h') hu'
    · -- shrinking
      cases hok
      by_cases hgb : st.config.showRefinementGlobal = true
      · rw [hgb]
        rw [if_pos hgb] at hshp
        obtain ⟨s', hs', h', hu'⟩ := shrinkSecondaryLoop_refined q hq2' s s
          (curLines st) hs hshp huuid
        exact invariants_of_writeback st _ hflag s' p hs' hp
          (by rw [if_pos hgb]; exact h') hu'
      · have hgb' : st.config.showRefinementGlobal = false := by
          cases hgbb : st.config.showRefinementGlobal
          · rfl
          · exact absurd hgbb hgb
        rw [hgb']
        rw [if_neg hgb] at hshp
        obtain ⟨s', hs', h', hu'⟩ := shrinkSecondaryLoop_plain q (by omega) hq2' s s
          (curLines st) hs hshp huuid
        exact invariants_of_writeback st _ hflag s' p hs' hp
          (by rw [if_neg hgb]; exact h') hu'

/-! ### Mutator dispatch and all-ok runs preserve the invariants -/

theorem invariants_applyMutator [FloorRing K] (m : MutatorCall K) (st st' : ToolState K)
    (h : Invariants st) (hok : applyMutator m st = .ok st') : Invariants st' := by
  cases m with
  | setSpacing q => exact invariants_set_spacing q st st' h hok
  | setPrimary q => exact invariants_set_noOfPrimaryLines q st st' h hok
  | setSecondary q => exact invariants_set_noOfSecondaryLines q st st' h hok
  | setShowRefinement b => exact invariants_set_showRefinementPoints b st st' h hok
  | rotate c s =>
    cases hok
    exact invariants_rotateGridOp c s st h
  | offset x y mm =>
    cases hok
    exact invariants_setOffsetOp x y mm st h
  | remove =>
    cases hok
    exact invariants_removeGrid st

theorem invariants_runOk [FloorRing K] :
    ∀ (ms : List (MutatorCall K)) (st st' : ToolState K), Invariants st →
      runOk ms st = some st' → Invariants st'
  | [], st, st', h, hok => by
    cases hok
    exact h
  | m :: ms, st, st', h, hok => by
    rw [runOk] at hok
    split at hok
    · rename_i st1 heq
      exact invariants_runOk ms st1 st' (invariants_applyMutator m st st1 h heq) hok
    · cases hok

/-! ### The invariants after the initial placement -/

theorem invariants_placement (pos : K × K) (pd sd ci : Nat)
    (hp : 2 ≤ pd) (hs : 2 ≤ sd) :
    Invariants (addNewMeasurement pos (initialToolState pd sd ci)) := by
  have h0 : curLines (initialToolState pd sd ci : ToolState K) = [] := rfl
  have hg : (initialToolState pd sd ci : ToolState K).config.showRefinementGlobal
      = false := rfl
  obtain ⟨hplain, hu, hg', hflag⟩ := addNewMeasurement_invariant pos _ h0 hg hp hs
  right
  refine ⟨?_, hu, sd, pd, hs, hp, ?_⟩
  · rw [hg']
    exact hflag
  · rw [if_neg (by rw [hg']; exact Bool.false_ne_true)]
    exact hplain

/-! ### From the structural invariant to the index-level spec shape -/

theorem RefLines.index_split {s p : Nat} {ls : List (PrimaryLine K)} (h : RefLines s ls p) :
    ∀ i, i < ls.length →
      (if i % 4 = 0 then MainPts s (ls.getD i default).points
       else SubLine s (ls.getD i default)) := by
  induction h with
  | single m hm =>
    intro i hi
    have hi0 : i = 0 := by simpa using hi
    subst hi0
    rw [if_pos rfl]
    exact hm
  | block m a b c rest p hm ha hb hc hrest ih =>
    intro i hi
    match i with
    | 0 => rw [if_pos rfl]; exact hm
    | 1 => rw [if_neg (by omega)]; exact ha
    | 2 => rw [if_neg (by omega)]; exact hb
    | 3 => rw [if_neg (by omega)]; exact hc
    | j + 4 =>
      have hlen : j < rest.length := by
        simp only [List.length_cons] at hi
        omega
      have hj := ih j hlen
      show (if (j + 4) % 4 = 0 then MainPts s (rest.getD j default).points
        else SubLine s (rest.getD j default))
      rw [Nat.add_mod_right]
      exact hj

theorem specShape_of_refLines {s p : Nat} (hs : 2 ≤ s) (hp : 2 ≤ p)
    {ls : List (PrimaryLine K)} (h : RefLines s ls p) : SpecShape true ls := by
  have hlen := h.length_formula
  refine ⟨by omega, ?_, ⟨s, hs, ?_⟩, ?_⟩
  · intro l hl
    rcases h.mem_shape l hl with hm | hsub
    · have := hm.length_eq
      omega
    · have := hsub.1
      omega
  · intro i hi
    rw [if_pos rfl]
    have hidx := h.index_split i hi
    by_cases hi4 : i % 4 = 0
    · rw [if_pos hi4] at hidx
      exact ⟨⟨fun _ => hi4, fun _ => isCommonHead_of_mainPts hidx⟩,
        fun _ => ⟨MainPts.index hidx, MainPts.filter_length hidx⟩,
        fun hcontra => absurd hi4 hcontra⟩
    · rw [if_neg hi4] at hidx
      refine ⟨⟨fun hc => ?_, fun h4 => absurd h4 hi4⟩,
        fun h4 => absurd h4 hi4, fun _ => hidx.2⟩
      exact absurd ((isCommonHead_of_subLine hidx).symm.trans hc) Bool.false_ne_true
  · show (ls.filter isCommonHead).length
      = (if true = true then (ls.length + 3) / 4 else ls.length)
    rw [if_pos rfl, refLines_filter_count h, hlen]
    omega

theorem specShape_of_plainLines {s p : Nat} (hs : 2 ≤ s) (hp : 2 ≤ p)
    {ls : List (PrimaryLine K)} (h : PlainLines s ls p) : SpecShape false ls := by
  have hlen := h.1
  refine ⟨by omega, ?_, ⟨s, hs, ?_⟩, ?_⟩
  · intro l hl
    have := (h.2 l hl).1
    omega
  · intro i hi
    rw [if_neg (show ¬(false = true) from Bool.false_ne_true)]
    have hmem : ls.getD i default ∈ ls := by
      rw [List.getD_eq_getElem ls default hi]
      exact List.getElem_mem hi
    have hpl := h.2 _ hmem
    exact ⟨hpl.2, hpl.1⟩
  · show (ls.filter isCommonHead).length
      = (if false = true then (ls.length + 3) / 4 else ls.length)
    rw [if_neg (show ¬(false = true) from Bool.false_ne_true)]
    rw [plainLines_filter_self (by omega) h]

theorem specInvariants_of_invariants (st : ToolState K) (h : Invariants st) :
    SpecInvariants st := by
  rcases h with h0 | ⟨hflag, hu, s, p, hs, hp, hshp⟩
  · exact Or.inl h0
  · right
    refine ⟨?_, hu⟩
    by_cases hgb : st.config.showRefinementGlobal = true
    · rw [hgb]
      rw [if_pos hgb] at hshp
      exact specShape_of_refLines hs hp hshp
    · have hgb' : st.config.showRefinementGlobal = false := by
        cases hgbb : st.config.showRefinementGlobal
        · rfl
        · exact absurd hgbb hgb
      rw [hgb']
      rw [if_neg hgb] at hshp
      exact specShape_of_plainLines hs hp hshp

/-! ## C1: the claim, its counterexample, and the amended statement -/

/-- C1 counterexample: the claim is false as stated.  Starting from a grid
built by initial placement, the valid call sequence `removeGrid`;
`noOfPrimaryLines := 2`; `showRefinementPoints := false` refutes it: the
`noOfPrimaryLines` setter throws a `TypeError` mid-mutation (its growing
loop reads `position.x` of `null` on the cleared image) and leaves one empty
primary line in the store, and the following `showRefinementPoints` call
*completes normally* while that line is still there — after a completed call
the state violates I1 (a stored grid with one line of zero points instead of
at least two lines of at least two points each). -/
theorem mutator_invariants_claim_false :
    (∃ (msg : String) (stB : ToolState ℚ),
      set_noOfPrimaryLines (.num (2 : ℚ))
        (removeGrid (addNewMeasurement ((0 : ℚ), 0) (initialToolState 2 2 0)))
        = .thrown msg stB) ∧
    (∃ stF : ToolState ℚ,
      set_showRefinementPoints (.bool false)
        (outcomeState (set_noOfPrimaryLines (.num (2 : ℚ))
          (removeGrid (addNewMeasurement ((0 : ℚ), 0) (initialToolState 2 2 0)))))
        = .ok stF) ∧
    ¬SpecInvariants (outcomeState (set_showRefinementPoints (.bool false)
        (outcomeState (set_noOfPrimaryLines (.num (2 : ℚ))
          (removeGrid (addNewMeasurement ((0 : ℚ), 0) (initialToolState 2 2 0))))))) := by
  refine ⟨⟨_, _, rfl⟩, ⟨_, rfl⟩, ?_⟩
  intro hSI
  have hlen : (curLines (outcomeState (set_showRefinementPoints (.bool false)
      (outcomeState (set_noOfPrimaryLines (.num (2 : ℚ))
        (removeGrid (addNewMeasurement ((0 : ℚ), 0) (initialToolState 2 2 0)))))))).length
      = 1 := by decide
  rcases hSI with h0 | ⟨hshape, _⟩
  · rw [h0] at hlen
    exact absurd hlen (by decide)
  · have h2 := hshape.1
    omega

/-- C1 (amended): along every run of valid mutator calls
(`spacing`, `noOfPrimaryLines`, `noOfSecondaryLines`, `showRefinementPoints`,
`rotateGrid`, `setOffset`, `removeGrid`) from a grid built by initial
placement with default line counts at least 2, in which *every call returns
normally* (no call throws), the structural invariants I1–I5 (and the
placement reading of I7) hold after each call: the image either holds no
grid, or holds a uuid-free line list where — with refinement enabled — a
line at index `i` is a main line iff `i % 4 = 0`, within a main line the
point at position `j` is common iff `j % 4 = 0`, subsidiary lines contain no
common points, and — with refinement disabled — every line consists solely
of common points. -/
theorem mutator_invariants_amended [FloorRing K] (pos : K × K) (pd sd ci : Nat)
    (hp : 2 ≤ pd) (hs : 2 ≤ sd) (ms : List (MutatorCall K)) (st' : ToolState K)
    (hrun : runOk ms (addNewMeasurement pos (initialToolState pd sd ci)) = some st') :
    SpecInvariants st' :=
  specInvariants_of_invariants st'
    (invariants_runOk ms _ st' (invariants_placement pos pd sd ci hp hs) hrun)

/-- Witness for the amended C1 at the placement-built 2×2 grid over `ℚ`
followed by one `removeGrid` call. -/
theorem mutator_invariants_amended_witness :
    (2 ≤ 2 ∧
      runOk [(.remove : MutatorCall ℚ)]
        (addNewMeasurement ((0 : ℚ), 0) (initialToolState 2 2 0))
        = some (removeGrid (addNewMeasurement ((0 : ℚ), 0) (initialToolState 2 2 0)))) ∧
    SpecInvariants (removeGrid (addNewMeasurement ((0 : ℚ), 0) (initialToolState 2 2 0))) :=
  ⟨⟨by decide, rfl⟩,
    mutator_invariants_amended ((0 : ℚ), 0) 2 2 0 (by decide) (by decide)
      [.remove] _ rfl⟩
